import Mathlib

/-!
# Image Completer: pyramid, lattice, node-set and command-line verification

A shallow embedding of parts of lafarren.com's Image Completer
(`ImageScalable.cpp`, `NodeSet.cpp`, `NeighborEdge.h`, `ImageFloat.cpp`,
`HostImageLocal.cpp`, `PatchTypeDebugPatchOrder.cpp`, `CmdLine.cpp`) together with theorems
about them.

Conventions of the embedding:

* C++ `for (int i = 0; i < n; ++i)` loops are `forLoop n body`, with every other
  loop-carried variable (`otherY`, `pointIndex`, pointers, ...) kept in the state the body
  transforms.
* Pointers into a buffer are indices into a `List`; `NULL` is `none`.
* `float` channels are rationals (exact arithmetic); a `float` that is not a number
  (`0.0f / 0.0f`) is `none`.
* `wxASSERT` is a debug-build check that does not change the state; assertions are
  modelled as separate boolean definitions named `..._assert`.
* A loop whose body also advances the loop variable (`CmdLine::Read`) is a recursive
  function with a bound on the iterations; the theorems show the bound is never reached.
* A virtual method whose implementations are not among the sources is a parameter.
-/

set_option autoImplicit false

namespace LfnIc

/-! ## Definitions -/

/-- Counted loop `for (int i = 0; i < n; ++i) body(i)`: iterations `0, 1, ..., n-1` are run
in that order on the state. -/
def forLoop {σ : Type} : Nat → (Nat → σ → σ) → σ → σ
  | 0, _, s => s
  | n + 1, body, s => body n (forLoop n body s)

/-- `Image::Pixel`: three channels (`channel[0..2]`), here exact rationals. -/
structure Pixel where
  channel0 : ℚ
  channel1 : ℚ
  channel2 : ℚ
  deriving DecidableEq

instance : Inhabited Pixel := ⟨⟨0, 0, 0⟩⟩

/-- Channel access `pixel.channel[i]`. -/
def Pixel.channel (p : Pixel) (i : Fin 3) : ℚ :=
  match i with
  | 0 => p.channel0
  | 1 => p.channel1
  | 2 => p.channel2

/-- `ImageConst`: the interface `GetData()`, `GetWidth()`, `GetHeight()`. Widths and heights
of images are non-negative `int`s; the data is the row-major pixel buffer. -/
structure ImageConst where
  GetWidth : Nat
  GetHeight : Nat
  GetData : List Pixel
  deriving DecidableEq

/-- Modelled from the spec: `LfnTech::GetRowMajorPointer(ptr, stride, x, y)` of
`tech/ImageUtils.h` is not among the sources; the spec says a row-major buffer of width `W`
holds pixel `(x,y)` at index `y*W + x`. Here `ptr` is the index `base` and the byte stride
`width * sizeof(Pixel)` is given in pixels. -/
def GetRowMajorPointer (base width x y : Nat) : Nat :=
  base + (y * width + x)

/-- Read through a pixel pointer: `ptr[k]` on the buffer `rgb`. -/
def readPixel (rgb : List Pixel) (ptr k : Nat) : Pixel :=
  rgb.getD (ptr + k) default

/-- Variables of the inner (`x`) loop of `ImageScaledDown::ImageScaledDown` that change from
one iteration to the next. -/
structure ScaledDownCol where
  m_rgb : List Pixel
  rgbCurrent : Nat
  otherX : Nat
  otherRgbCurrentUpper : Nat
  otherRgbCurrentLower : Nat

/-- Body of the inner loop of `ImageScaledDown::ImageScaledDown` (lines 140-174), together
with its increment `++rgbCurrent, otherX += 2, otherRgbCurrentUpper += 2,
otherRgbCurrentLower += 2`. -/
def ImageScaledDown.colBody (otherWidth : Nat) (otherRgb : List Pixel)
    (s : ScaledDownCol) : ScaledDownCol :=
  let upper0 := readPixel otherRgb s.otherRgbCurrentUpper 0
  let lower0 := readPixel otherRgb s.otherRgbCurrentLower 0
  let upper1 := readPixel otherRgb s.otherRgbCurrentUpper 1
  let lower1 := readPixel otherRgb s.otherRgbCurrentLower 1
  let r := upper0.channel 0 + lower0.channel 0
  let g := upper0.channel 1 + lower0.channel 1
  let b := upper0.channel 2 + lower0.channel 2
  let out : Pixel :=
    if s.otherX + 1 < otherWidth then
      ⟨(r + (upper1.channel 0 + lower1.channel 0)) / 4,
       (g + (upper1.channel 1 + lower1.channel 1)) / 4,
       (b + (upper1.channel 2 + lower1.channel 2)) / 4⟩
    else
      ⟨r / 2, g / 2, b / 2⟩
  { m_rgb := s.m_rgb.set s.rgbCurrent out
    rgbCurrent := s.rgbCurrent + 1
    otherX := s.otherX + 2
    otherRgbCurrentUpper := s.otherRgbCurrentUpper + 2
    otherRgbCurrentLower := s.otherRgbCurrentLower + 2 }

/-- Variables of the outer (`y`) loop of `ImageScaledDown::ImageScaledDown`. -/
structure ScaledDownRow where
  m_rgb : List Pixel
  otherY : Nat

/-- Body of the outer loop of `ImageScaledDown::ImageScaledDown` (lines 126-175), with its
increment `otherY += 2`. -/
def ImageScaledDown.rowBody (m_width otherWidth otherHeight : Nat) (otherRgb : List Pixel)
    (y : Nat) (s : ScaledDownRow) : ScaledDownRow :=
  let rgbCurrent := GetRowMajorPointer 0 m_width 0 y
  let otherRgbCurrentUpper := GetRowMajorPointer 0 otherWidth 0 s.otherY
  let otherRgbCurrentLower :=
    if s.otherY + 1 < otherHeight then GetRowMajorPointer 0 otherWidth 0 (s.otherY + 1)
    else otherRgbCurrentUpper
  let cols := forLoop m_width (fun _ => ImageScaledDown.colBody otherWidth otherRgb)
    { m_rgb := s.m_rgb
      rgbCurrent := rgbCurrent
      otherX := 0
      otherRgbCurrentUpper := otherRgbCurrentUpper
      otherRgbCurrentLower := otherRgbCurrentLower }
  { m_rgb := cols.m_rgb, otherY := s.otherY + 2 }

/-- The constructor `ImageScaledDown::ImageScaledDown(const ImageConst&)`: the image it
builds (`m_width`, `m_height`, `m_rgb`). `new Pixel[m_width * m_height]` is a buffer of that
many pixels, every one of which the loops overwrite. -/
def ImageScaledDown (imageToScaleDown : ImageConst) : ImageConst :=
  let otherWidth := imageToScaleDown.GetWidth
  let otherHeight := imageToScaleDown.GetHeight
  let otherRgb := imageToScaleDown.GetData
  let m_width := otherWidth / 2
  let m_height := otherHeight / 2
  let rows := forLoop m_height
    (ImageScaledDown.rowBody m_width otherWidth otherHeight otherRgb)
    { m_rgb := List.replicate (m_width * m_height) default, otherY := 0 }
  { GetWidth := m_width, GetHeight := m_height, GetData := rows.m_rgb }

/-- The assertion `wxASSERT(m_width > 0 && m_height > 0)` of the constructor (line 120). -/
def ImageScaledDown_assert (imageToScaleDown : ImageConst) : Bool :=
  decide (0 < imageToScaleDown.GetWidth / 2 ∧ 0 < imageToScaleDown.GetHeight / 2)

/-- Pixel `(x,y)` of an image: the entry of the row-major buffer at `y * width + x`. -/
def ImageConst.pixelAt (img : ImageConst) (x y : Nat) : Pixel :=
  readPixel img.GetData (GetRowMajorPointer 0 img.GetWidth x y) 0

/-- Spec side of the downsample claim: source pixel `(i,j)`, where a column or row outside
the source is replaced by its in-image neighbour (the last column or row). -/
def ImageConst.pixelOrNeighbour (img : ImageConst) (i j : Nat) : Pixel :=
  img.pixelAt (min i (img.GetWidth - 1)) (min j (img.GetHeight - 1))

/-- Spec side of the downsample claim: arithmetic mean of channel `c` over the source block
`{2x, 2x+1} × {2y, 2y+1}`. -/
def blockMean (img : ImageConst) (x y : Nat) (c : Fin 3) : ℚ :=
  ((img.pixelOrNeighbour (2 * x) (2 * y)).channel c
    + (img.pixelOrNeighbour (2 * x + 1) (2 * y)).channel c
    + (img.pixelOrNeighbour (2 * x) (2 * y + 1)).channel c
    + (img.pixelOrNeighbour (2 * x + 1) (2 * y + 1)).channel c) / 4

/-- The pixel the inner loop body stores at `rgbCurrent`, as a function of the loop
variables it reads (`otherX` and the two row pointers). -/
def ImageScaledDown.colPixel (otherWidth : Nat) (otherRgb : List Pixel)
    (otherX upper lower : Nat) : Pixel :=
  (ImageScaledDown.colBody otherWidth otherRgb
    { m_rgb := [default], rgbCurrent := 0, otherX := otherX,
      otherRgbCurrentUpper := upper, otherRgbCurrentLower := lower }).m_rgb.getD 0 default

/-- The pixel the loops of `ImageScaledDown` store for output coordinate `(x,y)`: the inner
loop body run with the values its variables have in iteration `x` of row `y`. -/
def ImageScaledDown.rowPixel (otherWidth otherHeight : Nat) (otherRgb : List Pixel)
    (x y : Nat) : Pixel :=
  ImageScaledDown.colPixel otherWidth otherRgb (0 + 2 * x)
    (GetRowMajorPointer 0 otherWidth 0 (2 * y) + 2 * x)
    ((if 2 * y + 1 < otherHeight then GetRowMajorPointer 0 otherWidth 0 (2 * y + 1)
      else GetRowMajorPointer 0 otherWidth 0 (2 * y)) + 2 * x)

/-- A 3 × 3 test image with channel values `(k, 10k, 100k)` at buffer index `k`. -/
def sampleImage3x3 : ImageConst :=
  { GetWidth := 3, GetHeight := 3,
    GetData := (List.range 9).map (fun k => ⟨k, 10 * k, 100 * k⟩) }

/-! ### ImageScalable -/

/-- `ImageScalable`: the vector `m_resolutions` of level pointers (`none` is the `NULL`
that `ScaleUp` stores after deleting a level) and the `int m_depth`. -/
structure ImageScalable where
  m_resolutions : List (Option ImageConst)
  m_depth : Int
  deriving DecidableEq

/-- The constructor `ImageScalable::ImageScalable(const Image&)`: depth 0 and one level, the
delegate to the original image. -/
def ImageScalable.create (image : ImageConst) : ImageScalable :=
  { m_resolutions := [some image], m_depth := 0 }

/-- Modelled from the spec: `GetCurrentResolution()` is declared in `ImageScalable.h`, which
is not among the sources; the spec says the pyramid keeps a current depth pointer and
`current()` returns the image at it, so this is `*m_resolutions[m_depth]`. `none` stands for
a pointer that cannot be read: `NULL` or an index outside the vector. -/
def ImageScalable.GetCurrentResolution (s : ImageScalable) : Option ImageConst :=
  if 0 ≤ s.m_depth then s.m_resolutions.getD s.m_depth.toNat none else none

/-- `ImageScalable::GetScaleDepth`. -/
def ImageScalable.GetScaleDepth (s : ImageScalable) : Int :=
  s.m_depth

/-- `static_cast<unsigned int>(i)` for a 32-bit `int`. -/
def toUnsignedInt (i : Int) : Int :=
  i % 4294967296

/-- The `size_t` value `size() - 1` (64-bit, wrapping at size 0). -/
def sizeMinusOne (size : Nat) : Int :=
  ((size : Int) - 1) % 18446744073709551616

/-- `ImageScalable::ScaleUp` (lines 231-242): the level at `m_depth` is deleted and its slot
set to `NULL`, the vector keeps its size, and the depth is decremented. The result is `none`
when `m_resolutions[m_depth]` is outside the vector (undefined behaviour). -/
def ImageScalable.ScaleUp (s : ImageScalable) : Option ImageScalable :=
  if 0 ≤ s.m_depth ∧ s.m_depth.toNat < s.m_resolutions.length then
    some { m_resolutions := s.m_resolutions.set s.m_depth.toNat none
           m_depth := s.m_depth - 1 }
  else none

/-- The assertion `wxASSERT(m_depth > 0)` of `ScaleUp`. -/
def ImageScalable.ScaleUp_assert (s : ImageScalable) : Bool :=
  decide (0 < s.m_depth)

/-- `ImageScalable::ScaleDown` (lines 244-262): when `m_depth` is the last index a level
built by `ImageScaledDown` from the current one is pushed; in either case the depth is
incremented. The result is `none` when the current level to scale down cannot be read
(undefined behaviour). -/
def ImageScalable.ScaleDown (s : ImageScalable) : Option ImageScalable :=
  if toUnsignedInt s.m_depth = sizeMinusOne s.m_resolutions.length then
    match s.GetCurrentResolution with
    | some imageToScaleDown =>
      some { m_resolutions := s.m_resolutions ++ [some (ImageScaledDown imageToScaleDown)]
             m_depth := s.m_depth + 1 }
    | none => none
  else
    some { m_resolutions := s.m_resolutions, m_depth := s.m_depth + 1 }

/-- The assertions met during a call of `ScaleDown`, all together: `m_depth >= 0` on
entry, the constructor's `m_width > 0 && m_height > 0` when a level is built, and on exit
`m_depth < int(m_resolutions.size())` and `m_resolutions[m_depth]` not `NULL`. -/
def ImageScalable.ScaleDown_assert (s : ImageScalable) : Bool :=
  decide (0 ≤ s.m_depth)
  && (if toUnsignedInt s.m_depth = sizeMinusOne s.m_resolutions.length then
        match s.GetCurrentResolution with
        | some imageToScaleDown => ImageScaledDown_assert imageToScaleDown
        | none => false
      else true)
  && (match s.ScaleDown with
      | some t => decide (t.m_depth < (t.m_resolutions.length : Int))
          && t.GetCurrentResolution.isSome
      | none => false)

/-- `k` consecutive `ScaleDown` calls. -/
def ImageScalable.scaleDownTimes : Nat → ImageScalable → Option ImageScalable
  | 0, s => some s
  | k + 1, s => (ImageScalable.scaleDownTimes k s).bind ImageScalable.ScaleDown

/-- States reachable from construction over `image` by `ScaleDown` calls and by `ScaleUp`
calls made at depth greater than 0. -/
inductive ImageScalable.Reachable (image : ImageConst) : ImageScalable → Prop
  | create : ImageScalable.Reachable image (ImageScalable.create image)
  | scaleDown (s t : ImageScalable) : ImageScalable.Reachable image s →
      s.ScaleDown = some t → ImageScalable.Reachable image t
  | scaleUp (s t : ImageScalable) : ImageScalable.Reachable image s →
      0 < s.m_depth → s.ScaleUp = some t → ImageScalable.Reachable image t

/-- The level list after `k` pushes from `image`: level `i` is `image` scaled down `i`
times. -/
def ImageScalable.levels (image : ImageConst) (k : Nat) : List (Option ImageConst) :=
  (List.range (k + 1)).map (fun i => some (ImageScaledDown^[i] image))

/-- The state reached from a fresh pyramid over the 3 × 3 sample image by `ScaleDown`
followed by `ScaleUp`: the coarser slot is kept but holds `NULL`. -/
def sampleDownUp : ImageScalable :=
  { m_resolutions := [some sampleImage3x3, none], m_depth := 0 }

/-- A 3 × 2 test image filled with the single colour `(1/3, 1/2, 1)`. -/
def sampleUniform3x2 : ImageConst :=
  { GetWidth := 3, GetHeight := 2, GetData := List.replicate 6 ⟨1 / 3, 1 / 2, 1⟩ }

/-- A 1 × 1 test image. -/
def sampleImage1x1 : ImageConst :=
  { GetWidth := 1, GetHeight := 1, GetData := [⟨1, 2, 3⟩] }

/-! ### NeighborEdge -/

/-- The enum `NeighborEdge` of `NeighborEdge.h`: the invalid value `-1` and the four edges
`0..3`. -/
inductive NeighborEdge where
  | InvalidNeighborEdge
  | NeighborEdgeLeft
  | NeighborEdgeTop
  | NeighborEdgeRight
  | NeighborEdgeBottom
  deriving DecidableEq, Repr

/-- The conversion `NeighborEdge(edgeIdx)` for the loop values
`FirstNeighborEdge = 0, ..., LastNeighborEdge = 3`. -/
def NeighborEdge.ofIdx : Nat → NeighborEdge
  | 0 => NeighborEdge.NeighborEdgeLeft
  | 1 => NeighborEdge.NeighborEdgeTop
  | 2 => NeighborEdge.NeighborEdgeRight
  | 3 => NeighborEdge.NeighborEdgeBottom
  | _ => NeighborEdge.InvalidNeighborEdge

/-- Modelled from the spec: `GetNeighborEdgeDirection` is only declared in
`NeighborEdge.h`, its body is not among the sources. The spec gives the direction vectors
`Left=(-1,0)`, `Top=(0,-1)`, `Right=(+1,0)`, `Bottom=(0,+1)`; the result is `(outX, outY)`,
and an invalid edge leaves `(0,0)`. -/
def GetNeighborEdgeDirection : NeighborEdge → Int × Int
  | NeighborEdge.NeighborEdgeLeft => (-1, 0)
  | NeighborEdge.NeighborEdgeTop => (0, -1)
  | NeighborEdge.NeighborEdgeRight => (1, 0)
  | NeighborEdge.NeighborEdgeBottom => (0, 1)
  | NeighborEdge.InvalidNeighborEdge => (0, 0)

end LfnIc

namespace PriorityBp

open LfnIc

/-! ### Lattice -/

/-- Modelled from the spec: the class `Node` is not among the sources; the spec says a node
is a lattice site at image coordinates `(x,y)`, and `Node(m_nodeContext, m_mask, x, y)`
constructs it there. -/
structure Node where
  x : Int
  y : Int
  deriving DecidableEq, Repr

/-- What `Lattice` reads from its collaborators: the four settings, the size of the input
image, and the mask query `m_mask.RegionXywhHasAny(x, y, w, h, Mask::UNKNOWN)`, whose class
`MaskLod` is not among the sources and is taken as a parameter. -/
structure LatticeInput where
  latticeGapX : Int
  latticeGapY : Int
  patchWidth : Int
  patchHeight : Int
  imageWidth : Int
  imageHeight : Int
  RegionXywhHasAnyUnknown : Int → Int → Int → Int → Bool

/-- The mutable members of `Lattice`; `m_nodeStorage` is the vector of nodes of the
`NodeSet` the lattice fills. -/
structure Lattice where
  m_nodeStorage : List Node
  m_pointNodeIndices : List Int
  m_numCols : Int
  m_numRows : Int

/-- `Lattice::INVALID_INDEX`. -/
def INVALID_INDEX : Int := -1

/-- `std::vector<int>::resize(n)`: truncate to `n` entries or pad with zeros up to `n`. -/
def vectorResize (v : List Int) (n : Nat) : List Int :=
  v.take n ++ List.replicate (n - v.length) 0

/-- Modelled from the spec: `Tech::GetRowMajorIndex(width, x, y)` of `tech/MathUtils.h` is
not among the sources; the spec says a row-major buffer indexes `(x,y)` at `y*W + x`. -/
def GetRowMajorIndex (width x y : Int) : Int :=
  y * width + x

/-- Variables of the inner (`col`) loop of `CreateUnknownRegionNodes`. -/
structure CreateCol where
  pointIndex : Nat
  x : Int
  m_pointNodeIndices : List Int
  m_nodeStorage : List Node

/-- Body of the inner loop of `Lattice::CreateUnknownRegionNodes` (lines 104-116) with its
increment `++pointIndex, ++col, x += latticeGapX`. -/
def Lattice.createColBody (inp : LatticeInput) (neighborhoodTop y : Int) (s : CreateCol) :
    CreateCol :=
  let patchHalfWidth := inp.patchWidth.tdiv 2
  let neighborhoodLeft := s.x - patchHalfWidth
  if inp.RegionXywhHasAnyUnknown neighborhoodLeft neighborhoodTop inp.patchWidth
      inp.patchHeight then
    { pointIndex := s.pointIndex + 1
      x := s.x + inp.latticeGapX
      m_pointNodeIndices := s.m_pointNodeIndices.set s.pointIndex (s.m_nodeStorage.length : Int)
      m_nodeStorage := s.m_nodeStorage ++ [{ x := s.x, y := y }] }
  else
    { pointIndex := s.pointIndex + 1
      x := s.x + inp.latticeGapX
      m_pointNodeIndices := s.m_pointNodeIndices.set s.pointIndex INVALID_INDEX
      m_nodeStorage := s.m_nodeStorage }

/-- Variables of the outer (`row`) loop of `CreateUnknownRegionNodes`. -/
structure CreateRow where
  pointIndex : Nat
  y : Int
  m_pointNodeIndices : List Int
  m_nodeStorage : List Node

/-- Body of the outer loop of `Lattice::CreateUnknownRegionNodes` (lines 101-117) with its
increment `y += latticeGapY`. -/
def Lattice.createRowBody (inp : LatticeInput) (m_numCols : Int) (s : CreateRow) :
    CreateRow :=
  let patchHalfHeight := inp.patchHeight.tdiv 2
  let leftMostNodeX := -inp.latticeGapX
  let neighborhoodTop := s.y - patchHalfHeight
  let cols := forLoop m_numCols.toNat
    (fun _ => Lattice.createColBody inp neighborhoodTop s.y)
    { pointIndex := s.pointIndex
      x := leftMostNodeX
      m_pointNodeIndices := s.m_pointNodeIndices
      m_nodeStorage := s.m_nodeStorage }
  { pointIndex := cols.pointIndex
    y := s.y + inp.latticeGapY
    m_pointNodeIndices := cols.m_pointNodeIndices
    m_nodeStorage := cols.m_nodeStorage }

/-- `Lattice::CreateUnknownRegionNodes` (lines 77-118). The divisions are C divisions
(`Int.tdiv`). A negative `m_numCols * m_numRows` makes the C++ `resize` throw; it cannot
happen for positive gaps and a non-negative image size, which the theorems assume. -/
def Lattice.CreateUnknownRegionNodes (inp : LatticeInput) (l : Lattice) : Lattice :=
  let topMostNodeY := -inp.latticeGapY
  let leftMostNodeX := -inp.latticeGapX
  let rightMostNodeX := inp.imageWidth + inp.latticeGapX - 1
  let bottomMostNodeY := inp.imageHeight + inp.latticeGapY - 1
  let nodeSpaceWidth := rightMostNodeX - leftMostNodeX + 1
  let nodeSpaceHeight := bottomMostNodeY - topMostNodeY + 1
  let m_numCols := nodeSpaceWidth.tdiv inp.latticeGapX
  let m_numRows := nodeSpaceHeight.tdiv inp.latticeGapY
  let rows := forLoop m_numRows.toNat (fun _ => Lattice.createRowBody inp m_numCols)
    { pointIndex := 0
      y := topMostNodeY
      m_pointNodeIndices := vectorResize l.m_pointNodeIndices (m_numCols * m_numRows).toNat
      m_nodeStorage := l.m_nodeStorage }
  { m_nodeStorage := rows.m_nodeStorage
    m_pointNodeIndices := rows.m_pointNodeIndices
    m_numCols := m_numCols
    m_numRows := m_numRows }

/-- `Lattice::GetNode` (lines 160-177): the node pointer `&m_nodeStorage[nodeIndex]` is
given as the index `nodeIndex`; `none` is `NULL`. -/
def Lattice.GetNode (l : Lattice) (col row : Int) : Option Nat :=
  if 0 ≤ col ∧ 0 ≤ row ∧ col < l.m_numCols ∧ row < l.m_numRows then
    let pointIndex := GetRowMajorIndex l.m_numCols col row
    let nodeIndex := l.m_pointNodeIndices.getD pointIndex.toNat INVALID_INDEX
    if 0 ≤ nodeIndex ∧ nodeIndex < (l.m_nodeStorage.length : Int) then some nodeIndex.toNat
    else none
  else none

/-- One call `node->AddNeighbor(*neighbor, edge)`, nodes given by their index in the node
storage. The body of `Node::AddNeighbor` is not among the sources. -/
structure AddNeighborCall where
  node : Nat
  neighbor : Nat
  edge : NeighborEdge
  deriving DecidableEq, Repr

/-- Body of the edge loop of `ConnectNeighboringNodes` (lines 129-144) for lattice point
`(col,row)` holding `node`: the calls made so far, with the new call added. -/
def Lattice.connectEdgeBody (l : Lattice) (col row : Int) (node : Nat) (edgeIdx : Nat)
    (calls : List AddNeighborCall) : List AddNeighborCall :=
  let edge := NeighborEdge.ofIdx edgeIdx
  let edgeDirectionX := (GetNeighborEdgeDirection edge).1
  let edgeDirectionY := (GetNeighborEdgeDirection edge).2
  let neighborCol := col + edgeDirectionX
  let neighborRow := row + edgeDirectionY
  match l.GetNode neighborCol neighborRow with
  | some neighbor => calls ++ [{ node := node, neighbor := neighbor, edge := edge }]
  | none => calls

/-- Body of the `col` loop of `ConnectNeighboringNodes` (lines 124-146). -/
def Lattice.connectColBody (l : Lattice) (row : Nat) (col : Nat)
    (calls : List AddNeighborCall) : List AddNeighborCall :=
  match l.GetNode col row with
  | some node => forLoop 4 (Lattice.connectEdgeBody l col row node) calls
  | none => calls

/-- `Lattice::ConnectNeighboringNodes` (lines 120-148): the sequence of `AddNeighbor` calls
it makes, in order. -/
def Lattice.ConnectNeighboringNodes (l : Lattice) : List AddNeighborCall :=
  forLoop l.m_numRows.toNat
    (fun row calls => forLoop l.m_numCols.toNat (Lattice.connectColBody l row) calls) []

/-- Image x coordinate of lattice column `col`: the value of the loop variable `x` in
iteration `col`. -/
def Lattice.pointX (inp : LatticeInput) (col : Nat) : Int :=
  -inp.latticeGapX + (col : Int) * inp.latticeGapX

/-- Image y coordinate of lattice row `row`: the value of the loop variable `y` in
iteration `row`. -/
def Lattice.pointY (inp : LatticeInput) (row : Nat) : Int :=
  -inp.latticeGapY + (row : Int) * inp.latticeGapY

/-- The mask query the loop makes for lattice point `(col,row)`. -/
def Lattice.pointHasUnknown (inp : LatticeInput) (col row : Nat) : Bool :=
  inp.RegionXywhHasAnyUnknown (Lattice.pointX inp col - inp.patchWidth.tdiv 2)
    (Lattice.pointY inp row - inp.patchHeight.tdiv 2) inp.patchWidth inp.patchHeight

/-- Loop invariant of `CreateUnknownRegionNodes`: every lattice point of row-major index
below `bound` has its entry of `m_pointNodeIndices` set, to the index of a stored node at the
point's position when the mask query holds there and to `INVALID_INDEX` otherwise. -/
def Lattice.PointsDone (inp : LatticeInput) (nC bound : Nat) (indices : List Int)
    (storage : List Node) : Prop :=
  ∀ p, p < bound →
    (Lattice.pointHasUnknown inp (p % nC) (p / nC) = true →
      ∃ idx : Nat, indices.getD p INVALID_INDEX = (idx : Int)
        ∧ storage[idx]? = some { x := Lattice.pointX inp (p % nC),
                                 y := Lattice.pointY inp (p / nC) })
    ∧ (Lattice.pointHasUnknown inp (p % nC) (p / nC) = false →
      indices.getD p INVALID_INDEX = INVALID_INDEX)

/-- The calls appended by iterations `0..n-1` of a loop whose iteration `i` appends
`f i`. -/
def collect {α : Type} (n : Nat) (f : Nat → List α) : List α :=
  forLoop n (fun i acc => acc ++ f i) []

/-- The call that iteration `edgeIdx` of the edge loop appends for `node` at `(col,row)`. -/
def Lattice.edgeCalls (l : Lattice) (col row : Int) (node : Nat) (edgeIdx : Nat) :
    List AddNeighborCall :=
  Lattice.connectEdgeBody l col row node edgeIdx []

/-- The calls that iteration `col` of the column loop appends in row `row`. -/
def Lattice.colCalls (l : Lattice) (row col : Nat) : List AddNeighborCall :=
  Lattice.connectColBody l row col []

/-! ### NodeSet -/

/-- `NodeSet::NodeInfo`: the stored priority and the committed flag of one node. The type
`Priority` is not among the sources; it is any linearly ordered type `P`. -/
structure NodeInfo (P : Type) where
  priority : P
  isCommitted : Bool
  deriving DecidableEq, Repr

/-- The members of `NodeSet`: the node vector it extends (`nodes`), `m_nodeSetInfo` and
`m_depth`. A reference to a node is the index of the node in the vector; an index that is not
below `size()` refers to a node outside the set. -/
structure NodeSet (P : Type) where
  nodes : List Node
  m_nodeSetInfo : List (NodeInfo P)
  m_depth : Int

/-- `size()` of the node vector. -/
def NodeSet.size {P : Type} (s : NodeSet P) : Nat :=
  s.nodes.length

/-- Body of the loop of `NodeSet::SetCommitted` (lines 227-234); the second component
records that `break` has been executed. -/
def NodeSet.setCommittedBody {P : Type} (node : Nat) (committed : Bool) (i : Nat)
    (st : List (NodeInfo P) × Bool) : List (NodeInfo P) × Bool :=
  if st.2 then st
  else if i = node then
    match st.1[i]? with
    | some info => (st.1.set i { priority := info.priority, isCommitted := committed }, true)
    | none => (st.1, true)
  else st

/-- `NodeSet::SetCommitted`. -/
def NodeSet.SetCommitted {P : Type} (s : NodeSet P) (node : Nat) (committed : Bool) :
    NodeSet P :=
  { nodes := s.nodes
    m_nodeSetInfo :=
      (forLoop s.size (NodeSet.setCommittedBody node committed) (s.m_nodeSetInfo, false)).1
    m_depth := s.m_depth }

/-- Body of the loop of `NodeSet::IsCommitted` (lines 239-245); `some b` records
`return b`. -/
def NodeSet.isCommittedBody {P : Type} (s : NodeSet P) (node : Nat) (i : Nat)
    (st : Option Bool) : Option Bool :=
  match st with
  | some b => some b
  | none =>
    if i = node then
      match s.m_nodeSetInfo[i]? with
      | some info => some info.isCommitted
      | none => none
    else none

/-- `NodeSet::IsCommitted`: `false` when the loop ends without returning. -/
def NodeSet.IsCommitted {P : Type} (s : NodeSet P) (node : Nat) : Bool :=
  (forLoop s.size (NodeSet.isCommittedBody s node) none).getD false

/-- Body of the loop of `NodeSet::GetHighestPriorityUncommittedNode` (lines 254-261) on
the pair `(node, priorityHighest)`. -/
def NodeSet.highestBody {P : Type} [LinearOrder P] (s : NodeSet P) (i : Nat)
    (st : Option Nat × P) : Option Nat × P :=
  match s.m_nodeSetInfo[i]? with
  | some info =>
    if !info.isCommitted && decide (st.2 < info.priority) then (some i, info.priority)
    else st
  | none => st

/-- `NodeSet::GetHighestPriorityUncommittedNode`; the constant `PRIORITY_MIN` is not among
the sources and is a parameter. -/
def NodeSet.GetHighestPriorityUncommittedNode {P : Type} [LinearOrder P] (PRIORITY_MIN : P)
    (s : NodeSet P) : Option Nat :=
  (forLoop s.size (NodeSet.highestBody s) (none, PRIORITY_MIN)).1

/-- Node `i` of the set is uncommitted. -/
def NodeSet.uncommitted {P : Type} (s : NodeSet P) (i : Nat) : Bool :=
  match s.m_nodeSetInfo[i]? with
  | some info => !info.isCommitted
  | none => false

/-- Number of uncommitted nodes of the set. -/
def NodeSet.uncommittedCount {P : Type} (s : NodeSet P) : Nat :=
  (List.range s.size).countP (fun i => s.uncommitted i)

/-- Well-formed node set: one `NodeInfo` per node, as the constructor's
`m_nodeSetInfo.resize(size())` makes it. -/
def NodeSet.WellFormed {P : Type} (s : NodeSet P) : Prop :=
  s.m_nodeSetInfo.length = s.size

/-- Test input for the lattice: a 4 × 4 image whose only UNKNOWN pixel is `(1,1)`, patches
3 × 3, lattice gaps 2; the mask query asks whether the region contains `(1,1)`. -/
def sampleLatticeInput : LatticeInput :=
  { latticeGapX := 2, latticeGapY := 2, patchWidth := 3, patchHeight := 3
    imageWidth := 4, imageHeight := 4
    RegionXywhHasAnyUnknown := fun x y w h =>
      decide (x ≤ 1 ∧ 1 < x + w ∧ y ≤ 1 ∧ 1 < y + h) }

/-- The lattice as its constructor leaves it, over an empty node storage. -/
def sampleEmptyLattice : Lattice :=
  { m_nodeStorage := [], m_pointNodeIndices := [], m_numCols := 0, m_numRows := 0 }

/-- A node set of three nodes with integer priorities `5, 7, 5`, the second one committed. -/
def sampleNodeSet : NodeSet Int :=
  { nodes := [⟨0, 0⟩, ⟨3, 0⟩, ⟨6, 0⟩]
    m_nodeSetInfo := [⟨5, false⟩, ⟨7, true⟩, ⟨5, false⟩]
    m_depth := 0 }

/-- A node set of one node in the state the `NodeInfo()` constructor gives it, with
`PRIORITY_MIN` taken as `0`: priority `PRIORITY_MIN`, not committed. -/
def sampleFreshNodeSet : NodeSet Int :=
  { nodes := [⟨0, 0⟩]
    m_nodeSetInfo := [⟨0, false⟩]
    m_depth := 0 }

end PriorityBp

namespace PriorityBp

open LfnIc

/-! ### NodeSet construction and metadata -/

/-- The constructor `Lattice::Lattice`: no columns, no rows, no point indices yet, over the
node storage it is given. -/
def Lattice.create (nodeStorage : List Node) : Lattice :=
  { m_nodeStorage := nodeStorage, m_pointNodeIndices := [], m_numCols := 0, m_numRows := 0 }

/-- The constructor `NodeSet::NodeInfo::NodeInfo()` (lines 295-299). -/
def NodeInfo.create {P : Type} (PRIORITY_MIN : P) : NodeInfo P :=
  { priority := PRIORITY_MIN, isCommitted := false }

/-- `std::vector<NodeInfo>::resize(n)`: truncate to `n` entries or pad with `NodeInfo()` up
to `n`. -/
def NodeSet.resizeInfo {P : Type} (PRIORITY_MIN : P) (v : List (NodeInfo P)) (n : Nat) :
    List (NodeInfo P) :=
  v.take n ++ List.replicate (n - v.length) (NodeInfo.create PRIORITY_MIN)

/-- The constructor `NodeSet::NodeSet` (lines 182-196): the node vector, empty at first, is
filled by the lattice, the metadata vector, empty at first, is resized to `size()`, and the
depth is 0. The call `lattice.ConnectNeighboringNodes()` only sets neighbour links inside the
nodes, which `Node` here does not carry. -/
def NodeSet.create {P : Type} (PRIORITY_MIN : P) (inp : LatticeInput) : NodeSet P :=
  let lattice := Lattice.CreateUnknownRegionNodes inp (Lattice.create [])
  { nodes := lattice.m_nodeStorage
    m_nodeSetInfo := NodeSet.resizeInfo PRIORITY_MIN [] lattice.m_nodeStorage.length
    m_depth := 0 }

/-- `NodeSet::GetScaleDepth`. -/
def NodeSet.GetScaleDepth {P : Type} (s : NodeSet P) : Int :=
  s.m_depth

/-- Body of the loop of `NodeSet::GetPriority` (lines 213-220) on the local `priority`;
the second component records that `break` has been executed. -/
def NodeSet.getPriorityBody {P : Type} (s : NodeSet P) (node : Nat) (i : Nat)
    (st : P × Bool) : P × Bool :=
  if st.2 then st
  else if i = node then
    match s.m_nodeSetInfo[i]? with
    | some info => (info.priority, true)
    | none => (st.1, true)
  else st

/-- `NodeSet::GetPriority`. -/
def NodeSet.GetPriority {P : Type} (PRIORITY_MIN : P) (s : NodeSet P) (node : Nat) : P :=
  (forLoop s.size (NodeSet.getPriorityBody s node) (PRIORITY_MIN, false)).1

/-- Body of the loop of `NodeSet::UpdatePriority` (lines 200-207); `CalculatePriority node`
is the value of `node.CalculatePriority()`, a method of the absent class `Node`. -/
def NodeSet.updatePriorityBody {P : Type} (node : Nat) (CalculatePriority : Nat → P)
    (i : Nat) (st : List (NodeInfo P) × Bool) : List (NodeInfo P) × Bool :=
  if st.2 then st
  else if i = node then
    match st.1[i]? with
    | some info =>
      (st.1.set i { priority := CalculatePriority node, isCommitted := info.isCommitted }, true)
    | none => (st.1, true)
  else st

/-- `NodeSet::UpdatePriority`. -/
def NodeSet.UpdatePriority {P : Type} (s : NodeSet P) (node : Nat)
    (CalculatePriority : Nat → P) : NodeSet P :=
  { nodes := s.nodes
    m_nodeSetInfo :=
      (forLoop s.size (NodeSet.updatePriorityBody node CalculatePriority)
        (s.m_nodeSetInfo, false)).1
    m_depth := s.m_depth }

end PriorityBp

namespace PriorityBp

open LfnIc

/-! ### HostImageLocal -/

/-- `HostImage::Rgb`: three `unsigned char` channels, given as naturals (below 256 in an
8-bit image). -/
structure Rgb where
  r : Nat
  g : Nat
  b : Nat
  deriving DecidableEq, Repr

instance : Inhabited Rgb := ⟨⟨0, 0, 0⟩⟩

/-- The members of `HostImageLocal`; `m_rgb` is `none` for `NULL` and otherwise the buffer
`new Rgb[numPixels]`. -/
structure HostImageLocal where
  m_width : Int
  m_height : Int
  m_rgb : Option (List Rgb)
  deriving DecidableEq, Repr

/-- The default constructor `HostImageLocal::HostImageLocal()`. -/
def HostImageLocal.create : HostImageLocal :=
  { m_width := 0, m_height := 0, m_rgb := none }

/-- `HostImageLocal::IsValidInternal` (lines 91-94). -/
def HostImageLocal.IsValidInternal (self : HostImageLocal) : Bool :=
  decide (0 < self.m_width) && decide (0 < self.m_height) && self.m_rgb.isSome

/-- `HostImageLocal::InitInternal` (lines 75-89): the new state and the value returned.
The old buffer is deleted and every member is overwritten, so the old state has no part in
the result. The result is `none` when the `int` product `width * height` overflows
(undefined behaviour). -/
def HostImageLocal.InitInternal (width height : Int) : Option (HostImageLocal × Bool) :=
  let numPixels := width * height
  if -2147483648 ≤ numPixels ∧ numPixels ≤ 2147483647 then
    let self : HostImageLocal :=
      { m_width := max width 0
        m_height := max height 0
        m_rgb := if 0 < numPixels then some (List.replicate numPixels.toNat default)
                 else none }
    some (self, self.IsValidInternal)
  else none

/-- `HostImageLocal::Init`. -/
def HostImageLocal.Init (_self : HostImageLocal) (width height : Int) :
    Option (HostImageLocal × Bool) :=
  HostImageLocal.InitInternal width height

/-- The constructor `HostImageLocal::HostImageLocal(int width, int height)`. -/
def HostImageLocal.createSized (width height : Int) : Option HostImageLocal :=
  (HostImageLocal.InitInternal width height).map (fun res => res.1)

/-- `HostImageLocal::IsValid`. -/
def HostImageLocal.IsValid (self : HostImageLocal) : Bool :=
  self.IsValidInternal

/-- `HostImageLocal::GetRgb`. -/
def HostImageLocal.GetRgb (self : HostImageLocal) : Option (List Rgb) :=
  self.m_rgb

/-- `HostImageLocal::GetWidth`. -/
def HostImageLocal.GetWidth (self : HostImageLocal) : Int :=
  self.m_width

/-- `HostImageLocal::GetHeight`. -/
def HostImageLocal.GetHeight (self : HostImageLocal) : Int :=
  self.m_height

/-! ### ImageFloat -/

/-- `RgbFloat`: three `float` channels, here exact rationals. -/
structure RgbFloat where
  r : ℚ
  g : ℚ
  b : ℚ
  deriving DecidableEq

instance : Inhabited RgbFloat := ⟨⟨0, 0, 0⟩⟩

/-- The members of `ImageFloat`. -/
structure ImageFloat where
  m_width : Int
  m_height : Int
  m_data : List RgbFloat
  deriving DecidableEq

/-- `std::vector<RgbFloat>::resize(n)`. -/
def resizeRgbFloat (v : List RgbFloat) (n : Nat) : List RgbFloat :=
  v.take n ++ List.replicate (n - v.length) default

/-- The constructor `ImageFloat::ImageFloat()`. -/
def ImageFloat.createEmpty : ImageFloat :=
  { m_width := 0, m_height := 0, m_data := [] }

/-- The constructor `ImageFloat::ImageFloat(int width, int height)`: `width * height`
pixels (a negative product makes the C++ vector constructor throw). -/
def ImageFloat.createSized (width height : Int) : ImageFloat :=
  { m_width := width, m_height := height
    m_data := List.replicate (width * height).toNat default }

/-- The constructor `ImageFloat::ImageFloat(int width, int height, const RgbFloat&)`. -/
def ImageFloat.createFilled (width height : Int) (initialRgb : RgbFloat) : ImageFloat :=
  { m_width := width, m_height := height
    m_data := List.replicate (width * height).toNat initialRgb }

/-- `ImageFloat::Create` (lines 71-76). -/
def ImageFloat.Create (self : ImageFloat) (width height : Int) : ImageFloat :=
  { m_width := width, m_height := height
    m_data := resizeRgbFloat self.m_data (width * height).toNat }

/-- `ImageFloat::GetPixel` (lines 102-110): `m_data[GetRowMajorIndex(m_width, x, y)]`. -/
def ImageFloat.GetPixel (self : ImageFloat) (x y : Int) : RgbFloat :=
  self.m_data.getD (GetRowMajorIndex self.m_width x y).toNat default

/-- `ImageFloat::SetPixel` (lines 112-115). -/
def ImageFloat.SetPixel (self : ImageFloat) (x y : Int) (pixel : RgbFloat) : ImageFloat :=
  { m_width := self.m_width, m_height := self.m_height
    m_data := self.m_data.set (GetRowMajorIndex self.m_width x y).toNat pixel }

/-- Body of the loop of `ImageFloat::ImageFloat(const Image&)` (lines 47-54); `rgbData`
is the buffer `input.GetRgb()`. -/
def ImageFloat.fromImageBody (rgbData : List Rgb) (i : Nat) (m_data : List RgbFloat) :
    List RgbFloat :=
  let inRgb := rgbData.getD i default
  m_data.set i { r := (inRgb.r : ℚ) / 255, g := (inRgb.g : ℚ) / 255, b := (inRgb.b : ℚ) / 255 }

/-- The constructor `ImageFloat::ImageFloat(const Image& input)` (lines 39-55); the input
image is a `HostImage`, here `HostImageLocal`. -/
def ImageFloat.fromImage (input : HostImageLocal) : ImageFloat :=
  let width := input.GetWidth
  let height := input.GetHeight
  let created := ImageFloat.Create ImageFloat.createEmpty width height
  let rgbData := (input.GetRgb).getD []
  let numPixels := width * height
  { m_width := created.m_width, m_height := created.m_height
    m_data := forLoop numPixels.toNat (ImageFloat.fromImageBody rgbData) created.m_data }

/-- Modelled from the spec: `LfnTech::Clamp0To1` of `tech/MathUtils.h` is not among the
sources; the spec says channels are converted with clamp-and-scale, so the value is clamped
to `[0,1]`. -/
def Clamp0To1 (x : ℚ) : ℚ :=
  max 0 (min x 1)

/-- The conversion `(unsigned char)(f)` of a `float`: the fractional part is dropped; the
values converted here lie in `[0,255]`. -/
def toUnsignedChar (f : ℚ) : Nat :=
  (Int.toNat ⌊f⌋) % 256

/-- Variables of the loops of `ImageFloat::CopyTo(HostImage&)`: the index `i` and the
output buffer. -/
structure CopyToState where
  i : Nat
  outRgbData : Option (List Rgb)

/-- Body of the inner loop of `ImageFloat::CopyTo(HostImage&)` (lines 91-98) with its
increment `++i`. -/
def ImageFloat.copyToColBody (self : ImageFloat) (s : CopyToState) : CopyToState :=
  let inRgb := self.m_data.getD s.i default
  let outRgb : Rgb :=
    { r := toUnsignedChar (Clamp0To1 inRgb.r * 255)
      g := toUnsignedChar (Clamp0To1 inRgb.g * 255)
      b := toUnsignedChar (Clamp0To1 inRgb.b * 255) }
  { i := s.i + 1, outRgbData := s.outRgbData.map (fun buf => buf.set s.i outRgb) }

/-- `ImageFloat::CopyTo(HostImage& output)` (lines 84-100): the output image after the
call, `none` when `output.Init` overflows. -/
def ImageFloat.CopyTo (self : ImageFloat) (output : HostImageLocal) : Option HostImageLocal :=
  match output.Init self.m_width self.m_height with
  | none => none
  | some (out, _) =>
    let final := forLoop self.m_height.toNat
      (fun _ st => forLoop self.m_width.toNat (fun _ => ImageFloat.copyToColBody self) st)
      { i := 0, outRgbData := out.GetRgb }
    some { m_width := out.m_width, m_height := out.m_height, m_rgb := final.outRgbData }

/-- A valid 2 × 1 8-bit test image. -/
def sampleHostImage : HostImageLocal :=
  { m_width := 2, m_height := 1, m_rgb := some [⟨0, 128, 255⟩, ⟨1, 2, 254⟩] }

/-- A 3 × 2 float test image with pixel `k` holding `(k, k/2, 0)`. -/
def sampleImageFloat : ImageFloat :=
  { m_width := 3, m_height := 2
    m_data := (List.range 6).map (fun k => ⟨k, k / 2, 0⟩) }

end PriorityBp

namespace PriorityBp

/-- The 8-bit pixel that the inner loop body of `CopyTo(HostImage&)` stores at index
`i`. -/
def ImageFloat.copyToPixel (self : ImageFloat) (i : Nat) : Rgb :=
  { r := toUnsignedChar (Clamp0To1 (self.m_data.getD i default).r * 255)
    g := toUnsignedChar (Clamp0To1 (self.m_data.getD i default).g * 255)
    b := toUnsignedChar (Clamp0To1 (self.m_data.getD i default).b * 255) }

end PriorityBp

namespace LfnIc

/-- A 3 × 3 test image that agrees with `sampleImage3x3` on the columns and rows 0 and 1
and differs from it in the last column and in the last row. -/
def sampleImage3x3Edge : ImageConst :=
  { GetWidth := 3, GetHeight := 3,
    GetData := (List.range 9).map (fun (k : Nat) =>
      if (k % 3 = 2 ∨ k / 3 = 2 : Prop) then (⟨7, 7, 7⟩ : Pixel)
      else ⟨(k : ℚ), 10 * (k : ℚ), 100 * (k : ℚ)⟩) }

end LfnIc

namespace LfnIc

/-! ### PatchTypeDebugPatchOrder -/

/-- `LfnIc::PixelFloat`: three `float` channels `channel[0..2]`, built by
`PixelFloat(r, g, b)`; the same shape as `Pixel`, channels exact rationals. -/
abbrev PixelFloat := Pixel

/-- The table `refColors` of `GetRainbowColor` (lines 34-43), with its decimal constants
taken exactly. -/
def refColors : List PixelFloat :=
  [⟨1, 0, 0⟩,                          -- red
   ⟨1, 65 / 100, 0⟩,                   -- orange
   ⟨1, 1, 0⟩,                          -- yellow
   ⟨0, 1 / 2, 0⟩,                      -- green
   ⟨0, 0, 1⟩,                          -- blue
   ⟨3 / 10, 0, 51 / 100⟩,              -- indigo
   ⟨93 / 100, 51 / 100, 93 / 100⟩]     -- violet

/-- `numRefColors = sizeof(refColors) / sizeof(refColors[0])`. -/
def numRefColors : Nat := refColors.length

/-- `penultimateRefColorIndex = numRefColors - 2`. -/
def penultimateRefColorIndex : Nat := numRefColors - 2

/-- `refAlphaStep = 1.0f / float(numRefColors - 1)`. -/
def refAlphaStep : ℚ := 1 / ((numRefColors - 1 : Nat) : ℚ)

/-- The `while` loop of `GetRainbowColor` (lines 50-62) on `(refIndex, refAlphaLow)`. The
first argument bounds the number of iterations; every iteration that does not leave the loop
increments `refIndex`, so `penultimateRefColorIndex` iterations are enough from
`refIndex = 0`. -/
def GetRainbowColor.loop (alpha : ℚ) : Nat → Nat → ℚ → Nat × ℚ
  | 0, refIndex, refAlphaLow => (refIndex, refAlphaLow)
  | fuel + 1, refIndex, refAlphaLow =>
    if refIndex < penultimateRefColorIndex then
      if alpha < refAlphaLow + refAlphaStep then (refIndex, refAlphaLow)
      else GetRainbowColor.loop alpha fuel (refIndex + 1) (refAlphaLow + refAlphaStep)
    else (refIndex, refAlphaLow)

/-- `GetRainbowColor` (lines 31-72). -/
def GetRainbowColor (alpha : ℚ) : PixelFloat :=
  let found := GetRainbowColor.loop alpha penultimateRefColorIndex 0 0
  let refIndex := found.1
  let refAlphaLow := found.2
  let colorLow := refColors.getD refIndex default
  let colorHigh := refColors.getD (refIndex + 1) default
  let blendAlpha := (alpha - refAlphaLow) / refAlphaStep
  ⟨colorLow.channel 0 + blendAlpha * (colorHigh.channel 0 - colorLow.channel 0),
   colorLow.channel 1 + blendAlpha * (colorHigh.channel 1 - colorLow.channel 1),
   colorLow.channel 2 + blendAlpha * (colorHigh.channel 2 - colorLow.channel 2)⟩

/-- The assertion `wxASSERT(alpha >= 0.0f && alpha <= 1.0f)` of `GetRainbowColor`; `none`
is a `float` that is not a number, for which both comparisons are false. -/
def GetRainbowColor_assert (alpha : Option ℚ) : Bool :=
  match alpha with
  | some a => decide (0 ≤ a ∧ a ≤ 1)
  | none => false

/-- The patch image `LfnIc::ImageFloat` that `PatchTypeDebugPatchOrder` fills, through
`GetWidth()`, `GetHeight()` and `GetData()`. -/
structure ImageFloat where
  m_width : Int
  m_height : Int
  m_data : List PixelFloat
  deriving DecidableEq

/-- The constructor `ImageFloat::ImageFloat(int width, int height)` (`ImageFloat.cpp`, lines
57-62): a buffer of `width * height` pixels. -/
def ImageFloat.createSized (width height : Int) : ImageFloat :=
  { m_width := width, m_height := height
    m_data := List.replicate (width * height).toNat default }

/-- The members of `PatchTypeDebugPatchOrder`. The type `Patch` is not among the sources;
only the number of patches and the identity of each element are used. A reference to a patch
is the index of the patch in `m_patches`; an index that is not below the size refers to a
patch outside the vector. -/
structure PatchTypeDebugPatchOrder (Patch : Type) where
  m_patches : List Patch
  m_patchImage : ImageFloat

/-- The constructor `PatchTypeDebugPatchOrder::PatchTypeDebugPatchOrder` (lines 79-83). -/
def PatchTypeDebugPatchOrder.create {Patch : Type} (patches : List Patch)
    (patchWidth patchHeight : Int) : PatchTypeDebugPatchOrder Patch :=
  { m_patches := patches, m_patchImage := ImageFloat.createSized patchWidth patchHeight }

/-- The value `float(patchIdx) / float(patchesNum - 1)` (line 92). For `patchesNum = 1`
the quotient is `0.0f / 0.0f`, which is not a number: `none`. -/
def PatchTypeDebugPatchOrder.rainbowAlpha (patchIdx patchesNum : Nat) : Option ℚ :=
  if (patchesNum : Int) - 1 = 0 then none
  else some ((patchIdx : ℚ) / (((patchesNum : Int) - 1 : Int) : ℚ))

/-- Body of the first loop of `PatchTypeDebugPatchOrder::Get` (lines 88-96) on the local
`rgb`; `none` is a colour computed from an alpha that is not a number, and the second
component records that `break` has been executed. -/
def PatchTypeDebugPatchOrder.getBody (patch patchesNum : Nat) (patchIdx : Nat)
    (st : Option PixelFloat × Bool) : Option PixelFloat × Bool :=
  if st.2 then st
  else if patchIdx = patch then
    ((PatchTypeDebugPatchOrder.rainbowAlpha patchIdx patchesNum).map GetRainbowColor, true)
  else st

/-- The colour `rgb` after the first loop of `Get`. -/
def PatchTypeDebugPatchOrder.getColor {Patch : Type} (self : PatchTypeDebugPatchOrder Patch)
    (patch : Nat) : Option PixelFloat :=
  (forLoop self.m_patches.length
    (PatchTypeDebugPatchOrder.getBody patch self.m_patches.length)
    (some ⟨0, 0, 0⟩, false)).1

/-- `PatchTypeDebugPatchOrder::Get` (lines 85-106): the patch image returned, every pixel
of which the second loop sets to `rgb`; `none` when `rgb` is not a number. -/
def PatchTypeDebugPatchOrder.Get {Patch : Type} (self : PatchTypeDebugPatchOrder Patch)
    (patch : Nat) : Option ImageFloat :=
  match self.getColor patch with
  | some rgb =>
    some { m_width := self.m_patchImage.m_width
           m_height := self.m_patchImage.m_height
           m_data := forLoop (self.m_patchImage.m_width * self.m_patchImage.m_height).toNat
             (fun i data => data.set i rgb) self.m_patchImage.m_data }
  | none => none

/-- The assertion of `GetRainbowColor` as met during `Get(patch)`: it is evaluated once, on
the alpha of the patch, when the patch is found in the vector. -/
def PatchTypeDebugPatchOrder.Get_assert {Patch : Type} (self : PatchTypeDebugPatchOrder Patch)
    (patch : Nat) : Bool :=
  if patch < self.m_patches.length then
    GetRainbowColor_assert
      (PatchTypeDebugPatchOrder.rainbowAlpha patch self.m_patches.length)
  else true

end LfnIc

namespace LfnIc

/-- A patch-order compositor over one patch, with 3 × 3 patch images. -/
def sampleOnePatch : PatchTypeDebugPatchOrder Unit :=
  PatchTypeDebugPatchOrder.create [()] 3 3

/-- A patch-order compositor over three patches, with 2 × 1 patch images. -/
def sampleThreePatches : PatchTypeDebugPatchOrder Unit :=
  PatchTypeDebugPatchOrder.create [(), (), ()] 2 1

end LfnIc

namespace PriorityBp

/-- Test input for lattice coverage: a 9 × 9 image whose only UNKNOWN pixel is `(8,0)`,
patches 5 × 5, lattice gaps 5; the mask query asks whether the region contains `(8,0)`. -/
def sampleUncoveredInput : LatticeInput :=
  { latticeGapX := 5, latticeGapY := 5, patchWidth := 5, patchHeight := 5
    imageWidth := 9, imageHeight := 9
    RegionXywhHasAnyUnknown := fun x y w h =>
      decide (x ≤ 8 ∧ 8 < x + w ∧ y ≤ 0 ∧ 0 < y + h) }

/-- Pixel `(px,py)` lies in the `patchWidth × patchHeight` neighbourhood of `node`, whose
top-left corner is `(node.x - patchWidth/2, node.y - patchHeight/2)`. -/
def Lattice.inNeighborhood (inp : LatticeInput) (node : Node) (px py : Int) : Bool :=
  decide (node.x - inp.patchWidth.tdiv 2 ≤ px
    ∧ px < node.x - inp.patchWidth.tdiv 2 + inp.patchWidth
    ∧ node.y - inp.patchHeight.tdiv 2 ≤ py
    ∧ py < node.y - inp.patchHeight.tdiv 2 + inp.patchHeight)

end PriorityBp

namespace PriorityBp

/-! ### The channel round trip in IEEE binary32 -/

/-- Search, from `s` upwards, for the least scale `s` with `2^23 ≤ (num/den) * 2^s`, the
scale at which the quotient has 24 significant bits. -/
def float32Scale : Nat → Nat → Nat → Nat → Nat
  | 0, _, _, s => s
  | fuel + 1, num, den, s =>
    if 2 ^ 23 * den ≤ num * 2 ^ s then s else float32Scale fuel num den (s + 1)

/-- Rounding of the rational `num / den` (with `0 ≤ num/den < 2^23`) to the nearest `float`
(IEEE binary32: 24 significant bits, ties to even). The result `(m, s)` stands for
`m / 2^s`. -/
def roundFloat32 (num den : Nat) : Nat × Nat :=
  if num = 0 then (0, 0)
  else
    let s := float32Scale 64 num den 0
    let scaled := num * 2 ^ s
    let q := scaled / den
    let r := scaled % den
    let m := if 2 * r < den then q else if den < 2 * r then q + 1
             else if q % 2 = 0 then q else q + 1
    (m, s)

/-- One 8-bit channel through `float(v) / 255.0f` and then
`(unsigned char)(Clamp0To1(f) * 255)`, with both the quotient and the product rounded to
`float`. -/
def float32RoundTrip (v : Nat) : Nat :=
  let f := roundFloat32 v 255
  let clamped := if 2 ^ f.2 < f.1 then (2 ^ f.2, f.2) else f
  let product := roundFloat32 (clamped.1 * 255) (2 ^ clamped.2)
  (product.1 / 2 ^ product.2) % 256

end PriorityBp

namespace Lafarren

open LfnIc

/-! ### CmdLine -/

/-- `CmdLine::Param`: the names, the description and the `isSet` flag. `Param` is an
abstract class whose subclasses are declared in `tech/CmdLine.h`, which is not among the
sources: the result of the virtual `IsOption()` is the field `IsOption`, and the state a
subclass adds is the field `value` of a type `σ` that is a parameter. -/
structure CmdLine.Param (σ : Type) where
  shortName : String
  longName : String
  description : String
  isSet : Bool
  IsOption : Bool
  value : σ

/-- Constructor `CmdLine::Param::Param` (lines 29-35): `isSet(false)`. -/
def CmdLine.Param.create {σ : Type} (shortName longName description : String)
    (IsOption : Bool) (value : σ) : CmdLine.Param σ :=
  { shortName := shortName
    longName := longName
    description := description
    isSet := false
    IsOption := IsOption
    value := value }

/-- `CmdLine::Param::Set` (lines 37-39). -/
def CmdLine.Param.Set {σ : Type} (p : CmdLine.Param σ) : CmdLine.Param σ :=
  { p with isSet := true }

/-- Call `param->ReadOption(option)` of the virtual method: the subclass's implementation
`ReadOption` is a parameter acting on the subclass's state. -/
def CmdLine.Param.ReadOption {σ : Type} (ReadOption : String → σ → σ) (p : CmdLine.Param σ)
    (option : String) : CmdLine.Param σ :=
  { p with value := ReadOption option p.value }

/-- `CmdLine`: the vector `m_params` of registered parameters. The vector holds pointers;
here it holds the parameter objects themselves, and a `Param*` into it is an index. -/
structure CmdLine (σ : Type) where
  m_params : List (CmdLine.Param σ)

/-- A `CmdLine` as constructed: no parameter registered. -/
def CmdLine.create {σ : Type} : CmdLine σ :=
  { m_params := [] }

/-- Body of the loop of `CmdLine::AddParam` (lines 45-54) on the variable `add`; the loop
is left by `break` right after `add = false`, so `add = false` also records the `break`. -/
def CmdLine.addParamBody {σ : Type} (c : CmdLine σ) (param : CmdLine.Param σ) (i : Nat)
    (add : Bool) : Bool :=
  if add then
    match c.m_params[i]? with
    | some q =>
      let isDuplicate := (q.shortName == param.shortName || q.shortName == param.longName)
      if isDuplicate then false else add
    | none => add
  else add

/-- `CmdLine::AddParam` (lines 41-60). -/
def CmdLine.AddParam {σ : Type} (c : CmdLine σ) (param : CmdLine.Param σ) : CmdLine σ :=
  let add := forLoop c.m_params.length (c.addParamBody param) true
  if add then { m_params := c.m_params ++ [param] } else c

/-- The check `wxASSERT(!isDuplicate)` of `AddParam` holds in every iteration of its
loop. -/
def CmdLine.AddParam_assert {σ : Type} (c : CmdLine σ) (param : CmdLine.Param σ) : Bool :=
  forLoop c.m_params.length (c.addParamBody param) true

/-- Calls of `AddParam` one after the other, in the order of the list. -/
def CmdLine.addParams {σ : Type} (c : CmdLine σ) (params : List (CmdLine.Param σ)) :
    CmdLine σ :=
  params.foldl CmdLine.AddParam c

/-- Body of the loop of `CmdLine::GetParam` (lines 128-135) on the variable `param`;
`some i` is the pointer `m_params[i]` and records the `break`. -/
def CmdLine.getParamBody {σ : Type} (c : CmdLine σ) (arg : String) (i : Nat)
    (param : Option Nat) : Option Nat :=
  match param with
  | some p => some p
  | none =>
    match c.m_params[i]? with
    | some q => if q.shortName == arg || q.longName == arg then some i else none
    | none => none

/-- `CmdLine::GetParam` (lines 125-138): the index of the parameter returned, `none` for
`NULL`. -/
def CmdLine.GetParam {σ : Type} (c : CmdLine σ) (arg : String) : Option Nat :=
  forLoop c.m_params.length (c.getParamBody arg) none

/-- The loop of `CmdLine::Read` (lines 66-94) from the loop variable `i` on, on the
registered parameters and with the result `outError`, which is empty unless the loop is
left by `break`. The loop variable is also advanced inside the body, so the loop is not a
counted one: the first argument bounds the number of iterations still allowed, and the
result is `none` when it is used up. Reading `argv` outside its entries is undefined and
also gives `none`. -/
def CmdLine.readLoop {σ : Type} (ReadOption : String → σ → σ) (argc : Nat)
    (argv : List String) : Nat → Nat → CmdLine σ → Option (CmdLine σ × String)
  | 0, i, c => if i < argc then none else some (c, "")
  | fuel + 1, i, c =>
    if i < argc then
      match argv[i]? with
      | none => none
      | some arg =>
        match c.GetParam arg with
        | none => some (c, "Invalid argument: " ++ arg ++ "\n")
        | some param =>
          match c.m_params[param]? with
          | none => none
          | some p =>
            if p.IsOption then
              if i + 1 = argc then
                some ({ m_params := c.m_params.set param p.Set },
                  "Argument was missing value: " ++ arg ++ "\n")
              else
                match argv[i + 1]? with
                | none => none
                | some option =>
                  CmdLine.readLoop ReadOption argc argv fuel (i + 1 + 1)
                    { m_params := c.m_params.set param (p.Set.ReadOption ReadOption option) }
            else
              CmdLine.readLoop ReadOption argc argv fuel (i + 1)
                { m_params := c.m_params.set param p.Set }
    else some (c, "")

/-- `CmdLine::Read` (lines 62-97): the value returned (`outError.IsEmpty()`), `outError`
and the registered parameters on return. `argc` iterations are allowed to the loop. -/
def CmdLine.Read {σ : Type} (ReadOption : String → σ → σ) (c : CmdLine σ) (argc : Nat)
    (argv : List String) : Option (Bool × String × CmdLine σ) :=
  (CmdLine.readLoop ReadOption argc argv argc 1 c).map
    (fun r => (r.2.length == 0, r.2, r.1))

/-- The registered parameter `GetParam` returns for the argument `argv[k]`. -/
def CmdLine.named {σ : Type} (c : CmdLine σ) (argv : List String) (k : Nat) : Option Nat :=
  match argv[k]? with
  | some arg => c.GetParam arg
  | none => none

/-- Argument `argv[k]` names a registered parameter that is an option. -/
def CmdLine.isOptionAt {σ : Type} (c : CmdLine σ) (argv : List String) (k : Nat) : Bool :=
  match c.named argv k with
  | some j =>
    match c.m_params[j]? with
    | some p => p.IsOption
    | none => false
  | none => false

/-- Argument `argv[k]` names a registered parameter that is not an option. -/
def CmdLine.isSwitchAt {σ : Type} (c : CmdLine σ) (argv : List String) (k : Nat) : Bool :=
  match c.named argv k with
  | some j =>
    match c.m_params[j]? with
    | some p => !p.IsOption
    | none => false
  | none => false

/-- Parameter-name positions of an argument vector, as the claim about `Read` words them:
position 1 is one; the position after a parameter-name position that names a parameter
without a value is one; and the position two after a parameter-name position that names
an option is one (the position in between holds the option's value). -/
def CmdLine.namePosition {σ : Type} (c : CmdLine σ) (argv : List String) : Nat → Bool
  | 0 => false
  | 1 => true
  | k + 2 =>
    (CmdLine.namePosition c argv (k + 1) && c.isSwitchAt argv (k + 1))
      || (CmdLine.namePosition c argv k && c.isOptionAt argv k)

/-- A `ReadOption` that records its argument: the state is the list of the arguments read
so far, oldest first. -/
def recordOption (option : String) (value : List String) : List String :=
  value ++ [option]

/-- Sample parameters: a switch `-a`/`--all`, an option `-o`/`--out`. -/
def sampleSwitch : CmdLine.Param (List String) :=
  CmdLine.Param.create "-a" "--all" "all of it" false []

def sampleOption : CmdLine.Param (List String) :=
  CmdLine.Param.create "-o" "--out" "output file" true []

/-- A second switch with the long name of `sampleSwitch`. -/
def sampleSwitchSameLong : CmdLine.Param (List String) :=
  CmdLine.Param.create "-b" "--all" "all of it, again" false []

/-- A switch whose short name is the long name of `sampleSwitch`. -/
def sampleSwitchShortIsLong : CmdLine.Param (List String) :=
  CmdLine.Param.create "--all" "--everything" "all of it, once more" false []

def sampleCmdLine : CmdLine (List String) :=
  CmdLine.create.addParams [sampleSwitch, sampleOption]

end Lafarren

namespace Lafarren

open LfnIc

/-- Parameter `j` is named by an argument in a parameter-name position below `i`. -/
def CmdLine.namedBelow {σ : Type} (c : CmdLine σ) (argv : List String) (i j : Nat) : Bool :=
  (List.range i).any (fun k => c.namePosition argv k && (c.named argv k == some j))

/-- The arguments that immediately follow the parameter-name positions below `i` at which
the option `j` is named, in the order of the positions. -/
def CmdLine.valuesBelow {σ : Type} (c : CmdLine σ) (argv : List String) (i j : Nat) :
    List String :=
  (List.range i).filterMap (fun k =>
    if c.namePosition argv k && c.isOptionAt argv k && (c.named argv k == some j)
    then argv[k + 1]? else none)

/-- Parameter `j` of `c` after the arguments below `i` were read: it is marked set if it
was named, and its `ReadOption` has been called, in their order, with the values that
followed it. -/
def CmdLine.Param.after {σ : Type} (ReadOption : String → σ → σ) (p : CmdLine.Param σ)
    (c : CmdLine σ) (argv : List String) (i j : Nat) : CmdLine.Param σ :=
  { p with
    isSet := p.isSet || c.namedBelow argv i j
    value := (c.valuesBelow argv i j).foldl (fun value option => ReadOption option value)
      p.value }

/-- No argument in a parameter-name position below `i` stops `Read`: each names a
registered parameter, and each that names an option is followed by a value. -/
def CmdLine.acceptsBelow {σ : Type} (c : CmdLine σ) (argc : Nat) (argv : List String)
    (i : Nat) : Prop :=
  ∀ k, k < i → c.namePosition argv k = true →
    (c.named argv k).isSome = true ∧ (c.isOptionAt argv k = true → k + 1 < argc)

/-- The registered parameters `c'` are those of `c` after the arguments below `i` were
read. -/
def CmdLine.readBelow {σ : Type} (ReadOption : String → σ → σ) (c c' : CmdLine σ)
    (argv : List String) (i : Nat) : Prop :=
  c'.m_params.length = c.m_params.length
    ∧ ∀ (j : Nat) (p : CmdLine.Param σ), c.m_params[j]? = some p →
        c'.m_params[j]? = some (p.after ReadOption c argv i j)

/-- Sample arguments: the program name, the option `-o` with the value `-a`, and the
switch by its long name. -/
def sampleArgv : List String :=
  ["completer", "-o", "-a", "--all"]

end Lafarren

namespace LfnIc

/-! ## Theorems -/

/-- Loop invariant rule for `forLoop`. -/
theorem forLoop_invariant {σ : Type} (P : Nat → σ → Prop) (body : Nat → σ → σ) (s : σ)
    (n : Nat) (h0 : P 0 s)
    (hstep : ∀ i st, i < n → P i st → P (i + 1) (body i st)) :
    P n (forLoop n body s) := by
  induction n with
  | zero => exact h0
  | succ k ih =>
    have hk : P k (forLoop k body s) :=
      ih (fun i st hi hP => hstep i st (Nat.lt_succ_of_lt hi) hP)
    exact hstep k _ (Nat.lt_succ_self k) hk

theorem getD_set_ne {α : Type} (l : List α) (i j : Nat) (p d : α) (h : i ≠ j) :
    (l.set i p).getD j d = l.getD j d := by
  simp [List.getD_eq_getElem?_getD, List.getElem?_set_ne h]

theorem getD_set_eq {α : Type} (l : List α) (i : Nat) (p d : α) (h : i < l.length) :
    (l.set i p).getD i d = p := by
  simp [List.getD_eq_getElem?_getD, List.getElem?_set_self, h]

theorem getD_beyond {α : Type} (l : List α) (i : Nat) (d : α) (h : l.length ≤ i) :
    l.getD i d = d := by
  simp [List.getD_eq_getElem?_getD, List.getElem?_eq_none h]

theorem colBody_m_rgb (otherWidth : Nat) (otherRgb : List Pixel) (s : ScaledDownCol) :
    (ImageScaledDown.colBody otherWidth otherRgb s).m_rgb
      = s.m_rgb.set s.rgbCurrent
          (ImageScaledDown.colPixel otherWidth otherRgb s.otherX s.otherRgbCurrentUpper
            s.otherRgbCurrentLower) := by
  simp [ImageScaledDown.colBody, ImageScaledDown.colPixel]

/-- What the inner loop of `ImageScaledDown` has done after `n` iterations started in `s0`:
the buffer keeps its length, entries outside `[rgbCurrent, rgbCurrent + n)` are untouched and
entry `rgbCurrent + k` holds the pixel computed from the `k`-th pair of source columns. -/
theorem colLoop_spec (otherWidth : Nat) (otherRgb : List Pixel) (s0 : ScaledDownCol)
    (n : Nat) :
    (forLoop n (fun _ => ImageScaledDown.colBody otherWidth otherRgb) s0).m_rgb.length
        = s0.m_rgb.length
    ∧ (∀ j, (j < s0.rgbCurrent ∨ s0.rgbCurrent + n ≤ j) →
        (forLoop n (fun _ => ImageScaledDown.colBody otherWidth otherRgb) s0).m_rgb.getD j
          default = s0.m_rgb.getD j default)
    ∧ (∀ k, k < n → s0.rgbCurrent + k < s0.m_rgb.length →
        (forLoop n (fun _ => ImageScaledDown.colBody otherWidth otherRgb) s0).m_rgb.getD
          (s0.rgbCurrent + k) default
          = ImageScaledDown.colPixel otherWidth otherRgb (s0.otherX + 2 * k)
              (s0.otherRgbCurrentUpper + 2 * k) (s0.otherRgbCurrentLower + 2 * k)) := by
  have key := forLoop_invariant
    (fun i (st : ScaledDownCol) =>
      st.rgbCurrent = s0.rgbCurrent + i ∧ st.otherX = s0.otherX + 2 * i
      ∧ st.otherRgbCurrentUpper = s0.otherRgbCurrentUpper + 2 * i
      ∧ st.otherRgbCurrentLower = s0.otherRgbCurrentLower + 2 * i
      ∧ st.m_rgb.length = s0.m_rgb.length
      ∧ (∀ j, (j < s0.rgbCurrent ∨ s0.rgbCurrent + i ≤ j) →
          st.m_rgb.getD j default = s0.m_rgb.getD j default)
      ∧ (∀ k, k < i → s0.rgbCurrent + k < s0.m_rgb.length →
          st.m_rgb.getD (s0.rgbCurrent + k) default
            = ImageScaledDown.colPixel otherWidth otherRgb (s0.otherX + 2 * k)
                (s0.otherRgbCurrentUpper + 2 * k) (s0.otherRgbCurrentLower + 2 * k)))
    (fun _ => ImageScaledDown.colBody otherWidth otherRgb) s0 n
    ⟨rfl, rfl, rfl, rfl, rfl, fun _ _ => rfl, fun k hk => absurd hk (Nat.not_lt_zero k)⟩
    (by
      intro i st _ hP
      obtain ⟨h1, h2, h3, h4, h5, h6, h7⟩ := hP
      refine ⟨?_, ?_, ?_, ?_, ?_, ?_, ?_⟩
      · simp [ImageScaledDown.colBody, h1]; omega
      · simp [ImageScaledDown.colBody, h2]; omega
      · simp [ImageScaledDown.colBody, h3]; omega
      · simp [ImageScaledDown.colBody, h4]; omega
      · rw [colBody_m_rgb, List.length_set, h5]
      · intro j hj
        rw [colBody_m_rgb, getD_set_ne _ _ _ _ _ (by omega)]
        exact h6 j (by omega)
      · intro k hk hlen
        rw [colBody_m_rgb]
        by_cases hki : k = i
        · subst hki
          rw [h1, getD_set_eq _ _ _ _ (by omega), h2, h3, h4]
        · rw [getD_set_ne _ _ _ _ _ (by omega)]
          exact h7 k (by omega) hlen)
  exact ⟨key.2.2.2.2.1, key.2.2.2.2.2.1, key.2.2.2.2.2.2⟩

theorem rowMajor_lt (w h x y : Nat) (hx : x < w) (hy : y < h) : y * w + x < w * h := by
  have h1 : (y + 1) * w ≤ h * w := Nat.mul_le_mul_right w hy
  have h2 : (y + 1) * w = y * w + w := Nat.succ_mul y w
  have h3 : h * w = w * h := Nat.mul_comm h w
  omega

theorem rowMajor_lt_row (w x y i : Nat) (hx : x < w) (hy : y < i) : y * w + x < i * w := by
  have h1 : (y + 1) * w ≤ i * w := Nat.mul_le_mul_right w hy
  have h2 : (y + 1) * w = y * w + w := Nat.succ_mul y w
  omega

/-- What the outer loop of `ImageScaledDown` has done after `n ≤ m_height` rows: `otherY` is
`2n`, the buffer keeps its length and every pixel of the rows done holds `rowPixel`. -/
theorem rowLoop_spec (w h otherWidth otherHeight : Nat) (otherRgb buf0 : List Pixel)
    (hbuf : buf0.length = w * h) (n : Nat) (hn : n ≤ h) :
    (forLoop n (ImageScaledDown.rowBody w otherWidth otherHeight otherRgb)
        { m_rgb := buf0, otherY := 0 }).m_rgb.length = w * h
    ∧ (∀ y x, y < n → x < w →
        (forLoop n (ImageScaledDown.rowBody w otherWidth otherHeight otherRgb)
          { m_rgb := buf0, otherY := 0 }).m_rgb.getD (y * w + x) default
          = ImageScaledDown.rowPixel otherWidth otherHeight otherRgb x y) := by
  have key := forLoop_invariant
    (fun i (st : ScaledDownRow) =>
      i ≤ h ∧ st.otherY = 2 * i ∧ st.m_rgb.length = w * h
      ∧ (∀ y x, y < i → x < w →
          st.m_rgb.getD (y * w + x) default
            = ImageScaledDown.rowPixel otherWidth otherHeight otherRgb x y))
    (ImageScaledDown.rowBody w otherWidth otherHeight otherRgb)
    { m_rgb := buf0, otherY := 0 } n
    ⟨Nat.zero_le h, rfl, hbuf, fun y _ hy => absurd hy (Nat.not_lt_zero y)⟩
    (by
      intro i st hi hP
      obtain ⟨_, h2, h3, h4⟩ := hP
      have hih : i < h := Nat.lt_of_lt_of_le hi hn
      obtain ⟨c1, c2, c3⟩ := colLoop_spec otherWidth otherRgb
        { m_rgb := st.m_rgb
          rgbCurrent := GetRowMajorPointer 0 w 0 i
          otherX := 0
          otherRgbCurrentUpper := GetRowMajorPointer 0 otherWidth 0 st.otherY
          otherRgbCurrentLower :=
            if st.otherY + 1 < otherHeight then
              GetRowMajorPointer 0 otherWidth 0 (st.otherY + 1)
            else GetRowMajorPointer 0 otherWidth 0 st.otherY } w
      refine ⟨hih, ?_, ?_, ?_⟩
      · simp [ImageScaledDown.rowBody, h2]; omega
      · simp only [ImageScaledDown.rowBody]
        rw [c1]; exact h3
      · intro y x hy hx
        simp only [ImageScaledDown.rowBody]
        by_cases hyi : y = i
        · subst hyi
          have hlen : GetRowMajorPointer 0 w 0 y + x < st.m_rgb.length := by
            rw [h3]
            have := rowMajor_lt w h x y hx hih
            simp only [GetRowMajorPointer]; omega
          have hc := c3 x hx hlen
          have hidx : GetRowMajorPointer 0 w 0 y + x = y * w + x := by
            simp [GetRowMajorPointer]
          rw [hidx] at hc
          rw [hc, h2]
          rfl
        · have hlt : y < i := by omega
          have hrow := rowMajor_lt_row w x y i hx hlt
          have hc := c2 (y * w + x) (Or.inl (by simp only [GetRowMajorPointer]; omega))
          rw [hc]
          exact h4 y x hlt hx)
  exact ⟨key.2.2.1, key.2.2.2⟩

/-- Every pixel of the downsampled image is the one the loop body computes for it. -/
theorem ImageScaledDown_pixelAt (img : ImageConst) (x y : Nat)
    (hx : x < img.GetWidth / 2) (hy : y < img.GetHeight / 2) :
    (ImageScaledDown img).pixelAt x y
      = ImageScaledDown.rowPixel img.GetWidth img.GetHeight img.GetData x y := by
  have hspec := rowLoop_spec (img.GetWidth / 2) (img.GetHeight / 2) img.GetWidth
    img.GetHeight img.GetData
    (List.replicate (img.GetWidth / 2 * (img.GetHeight / 2)) default)
    (List.length_replicate _ _) (img.GetHeight / 2) (Nat.le_refl _)
  have hpix := hspec.2 y x hy hx
  simp only [ImageConst.pixelAt, ImageScaledDown, readPixel, GetRowMajorPointer]
  simpa using hpix

/-- With the whole block inside the source, the loop body stores the four-pixel mean. -/
theorem rowPixel_channel (otherWidth otherHeight : Nat) (otherRgb : List Pixel) (x y : Nat)
    (hx : 2 * x + 1 < otherWidth) (hy : 2 * y + 1 < otherHeight) (c : Fin 3) :
    (ImageScaledDown.rowPixel otherWidth otherHeight otherRgb x y).channel c
      = ((otherRgb.getD (2 * y * otherWidth + 2 * x) default).channel c
        + (otherRgb.getD (2 * y * otherWidth + (2 * x + 1)) default).channel c
        + (otherRgb.getD ((2 * y + 1) * otherWidth + 2 * x) default).channel c
        + (otherRgb.getD ((2 * y + 1) * otherWidth + (2 * x + 1)) default).channel c) / 4 := by
  have e1 : 0 + (2 * y * otherWidth + 0) + 2 * x + 0 = 2 * y * otherWidth + 2 * x := by omega
  have e2 : 0 + (2 * y * otherWidth + 0) + 2 * x + 1 = 2 * y * otherWidth + (2 * x + 1) := by
    omega
  have e3 : 0 + ((2 * y + 1) * otherWidth + 0) + 2 * x + 0
      = (2 * y + 1) * otherWidth + 2 * x := by omega
  have e4 : 0 + ((2 * y + 1) * otherWidth + 0) + 2 * x + 1
      = (2 * y + 1) * otherWidth + (2 * x + 1) := by omega
  have hx0 : 0 + 2 * x + 1 < otherWidth := by omega
  simp only [ImageScaledDown.rowPixel, ImageScaledDown.colPixel, ImageScaledDown.colBody,
    readPixel, GetRowMajorPointer, if_pos hx0, if_pos hy, e1, e2, e3, e4, List.set_cons_zero,
    List.getD_cons_zero]
  fin_cases c <;> simp only [Pixel.channel] <;> ring

theorem pixelAt_eq_getD (img : ImageConst) (x y : Nat) :
    img.pixelAt x y = img.GetData.getD (y * img.GetWidth + x) default := by
  simp only [ImageConst.pixelAt, readPixel, GetRowMajorPointer, Nat.zero_add, Nat.add_zero]

/-- Channel `c` of output pixel `(x,y)` is the mean of the four source pixels
`(2x,2y)`, `(2x+1,2y)`, `(2x,2y+1)`, `(2x+1,2y+1)`. -/
theorem ImageScaledDown_pixelAt_channel (img : ImageConst) (x y : Nat) (c : Fin 3)
    (hx : x < img.GetWidth / 2) (hy : y < img.GetHeight / 2) :
    ((ImageScaledDown img).pixelAt x y).channel c
      = ((img.pixelAt (2 * x) (2 * y)).channel c
        + (img.pixelAt (2 * x + 1) (2 * y)).channel c
        + (img.pixelAt (2 * x) (2 * y + 1)).channel c
        + (img.pixelAt (2 * x + 1) (2 * y + 1)).channel c) / 4 := by
  have hx1 : 2 * x + 1 < img.GetWidth := by omega
  have hy1 : 2 * y + 1 < img.GetHeight := by omega
  rw [ImageScaledDown_pixelAt img x y hx hy, rowPixel_channel _ _ _ x y hx1 hy1 c]
  simp only [pixelAt_eq_getD]

/-- C1: for a source of width and height at least 2 and an output coordinate `(x,y)` with
`x < W/2`, `y < H/2`, the downsampled image has size `W/2 × H/2` and every channel of its
pixel `(x,y)` is the arithmetic mean of that channel over the source block
`{2x,2x+1} × {2y,2y+1}`, a column or row outside the source being replaced by its in-image
neighbour. -/
theorem ImageScaledDown_block_mean (img : ImageConst) (x y : Nat) (c : Fin 3)
    (hW : 2 ≤ img.GetWidth) (hH : 2 ≤ img.GetHeight)
    (hx : x < img.GetWidth / 2) (hy : y < img.GetHeight / 2) :
    (ImageScaledDown img).GetWidth = img.GetWidth / 2
    ∧ (ImageScaledDown img).GetHeight = img.GetHeight / 2
    ∧ ((ImageScaledDown img).pixelAt x y).channel c = blockMean img x y c := by
  refine ⟨rfl, rfl, ?_⟩
  have m1 : min (2 * x) (img.GetWidth - 1) = 2 * x := Nat.min_eq_left (by omega)
  have m2 : min (2 * x + 1) (img.GetWidth - 1) = 2 * x + 1 := Nat.min_eq_left (by omega)
  have m3 : min (2 * y) (img.GetHeight - 1) = 2 * y := Nat.min_eq_left (by omega)
  have m4 : min (2 * y + 1) (img.GetHeight - 1) = 2 * y + 1 := Nat.min_eq_left (by omega)
  rw [ImageScaledDown_pixelAt_channel img x y c hx hy]
  simp only [blockMean, ImageConst.pixelOrNeighbour, m1, m2, m3, m4]

/-- C1 at the 3 × 3 sample image: the red channel of output pixel `(0,0)` is the mean of the
source values `0, 1, 3, 4`. -/
theorem ImageScaledDown_block_mean_witness :
    ((ImageScaledDown sampleImage3x3).pixelAt 0 0).channel 0 = 2 := by
  rw [(ImageScaledDown_block_mean sampleImage3x3 0 0 0 (by decide) (by decide) (by decide)
    (by decide)).2.2]
  norm_num [blockMean, ImageConst.pixelOrNeighbour, ImageConst.pixelAt, readPixel,
    GetRowMajorPointer, sampleImage3x3, Pixel.channel, List.range, List.range.loop]

/-! ### ImageScalable -/

theorem ImageScaledDown_iterate_size (img : ImageConst) (i : Nat) :
    (ImageScaledDown^[i] img).GetWidth = img.GetWidth / 2 ^ i
    ∧ (ImageScaledDown^[i] img).GetHeight = img.GetHeight / 2 ^ i := by
  induction i with
  | zero => simp
  | succ n ih =>
    rw [Function.iterate_succ_apply']
    refine ⟨?_, ?_⟩
    · show (ImageScaledDown^[n] img).GetWidth / 2 = _
      rw [ih.1, Nat.div_div_eq_div_mul, pow_succ]
    · show (ImageScaledDown^[n] img).GetHeight / 2 = _
      rw [ih.2, Nat.div_div_eq_div_mul, pow_succ]

theorem levels_length (img : ImageConst) (k : Nat) :
    (ImageScalable.levels img k).length = k + 1 := by
  simp [ImageScalable.levels]

theorem levels_getD (img : ImageConst) (k i : Nat) (hi : i ≤ k) :
    (ImageScalable.levels img k).getD i none = some (ImageScaledDown^[i] img) := by
  have hlt : i < k + 1 := Nat.lt_succ_of_le hi
  simp [ImageScalable.levels, List.getD_eq_getElem?_getD, List.getElem?_map,
    List.getElem?_range hlt]

theorem levels_succ (img : ImageConst) (k : Nat) :
    ImageScalable.levels img (k + 1)
      = ImageScalable.levels img k ++ [some (ImageScaledDown (ImageScaledDown^[k] img))] := by
  simp only [ImageScalable.levels]
  rw [List.range_succ, List.map_append, List.map_singleton, Function.iterate_succ_apply']

/-- `ScaleDown` at the last level: the downsample of the current level is pushed. -/
theorem ScaleDown_last (s : ImageScalable) (cur : ImageConst) (h0 : 0 ≤ s.m_depth)
    (hlast : s.m_depth + 1 = (s.m_resolutions.length : Int))
    (hint : s.m_resolutions.length < 2 ^ 31)
    (hcur : s.GetCurrentResolution = some cur) :
    s.ScaleDown = some { m_resolutions := s.m_resolutions ++ [some (ImageScaledDown cur)]
                         m_depth := s.m_depth + 1 } := by
  have hcond : toUnsignedInt s.m_depth = sizeMinusOne s.m_resolutions.length := by
    simp only [toUnsignedInt, sizeMinusOne]
    omega
  simp only [ImageScalable.ScaleDown, if_pos hcond, hcur]

/-- `ScaleDown` below the last level: only the depth changes. -/
theorem ScaleDown_inner (s : ImageScalable) (h0 : 0 ≤ s.m_depth)
    (hin : s.m_depth + 1 < (s.m_resolutions.length : Int))
    (hint : s.m_resolutions.length < 2 ^ 31) :
    s.ScaleDown = some { m_resolutions := s.m_resolutions, m_depth := s.m_depth + 1 } := by
  have hcond : ¬ toUnsignedInt s.m_depth = sizeMinusOne s.m_resolutions.length := by
    simp only [toUnsignedInt, sizeMinusOne]
    omega
  simp only [ImageScalable.ScaleDown, if_neg hcond]

/-- The state after `k` consecutive `ScaleDown` calls on a fresh pyramid. -/
theorem scaleDownTimes_create (img : ImageConst) (k : Nat) (hk : k + 1 < 2 ^ 31) :
    ImageScalable.scaleDownTimes k (ImageScalable.create img)
      = some { m_resolutions := ImageScalable.levels img k, m_depth := (k : Int) } := by
  induction k with
  | zero => rfl
  | succ n ih =>
    have hn : n + 1 < 2 ^ 31 := by omega
    have hcur : ImageScalable.GetCurrentResolution
        { m_resolutions := ImageScalable.levels img n, m_depth := (n : Int) }
        = some (ImageScaledDown^[n] img) := by
      have hg := levels_getD img n n (Nat.le_refl n)
      simp only [ImageScalable.GetCurrentResolution, Int.toNat_ofNat, hg]
      simp
    have hstep := ScaleDown_last
      { m_resolutions := ImageScalable.levels img n, m_depth := (n : Int) }
      (ImageScaledDown^[n] img) (by simp) (by simp [levels_length])
      (by simp only [levels_length]; exact hn) hcur
    simp only [ImageScalable.scaleDownTimes, ih hn, Option.some_bind, hstep, levels_succ]
    simp

/-- C2: after `k` consecutive `ScaleDown` calls on a fresh pyramid over a `W × H` image
with `W ≥ 2^k` and `H ≥ 2^k` (`W` being a 32-bit `int`), the depth is `k`, the current level
has width `W / 2^k ≥ 1` and height `H / 2^k ≥ 1`, and every level has the floor-halved width
and height of the level before it. -/
theorem scaleDownTimes_depth_size (img : ImageConst) (k : Nat)
    (hW : 2 ^ k ≤ img.GetWidth) (hH : 2 ^ k ≤ img.GetHeight)
    (hint : img.GetWidth < 2 ^ 31) :
    ∃ s cur, ImageScalable.scaleDownTimes k (ImageScalable.create img) = some s
      ∧ s.GetScaleDepth = (k : Int)
      ∧ s.GetCurrentResolution = some cur
      ∧ cur.GetWidth = img.GetWidth / 2 ^ k ∧ 1 ≤ cur.GetWidth
      ∧ cur.GetHeight = img.GetHeight / 2 ^ k ∧ 1 ≤ cur.GetHeight
      ∧ ∀ i, i < k → ∃ a b, s.m_resolutions.getD i none = some a
          ∧ s.m_resolutions.getD (i + 1) none = some b
          ∧ b.GetWidth = a.GetWidth / 2 ∧ b.GetHeight = a.GetHeight / 2 := by
  have hk : k < 31 := by
    by_contra hge
    have h31 : 2 ^ 31 ≤ 2 ^ k := Nat.pow_le_pow_right (by norm_num) (by omega)
    omega
  have hpos : 0 < 2 ^ k := Nat.pow_pos (by norm_num)
  have hsz := ImageScaledDown_iterate_size img k
  refine ⟨_, ImageScaledDown^[k] img, scaleDownTimes_create img k (by omega), rfl, ?_,
    hsz.1, ?_, hsz.2, ?_, ?_⟩
  · have hg := levels_getD img k k (Nat.le_refl k)
    simp only [ImageScalable.GetCurrentResolution, Int.toNat_ofNat, hg]
    simp
  · rw [hsz.1]; exact Nat.div_pos hW hpos
  · rw [hsz.2]; exact Nat.div_pos hH hpos
  · intro i hi
    refine ⟨ImageScaledDown^[i] img, ImageScaledDown^[i + 1] img,
      levels_getD img k i (by omega), levels_getD img k (i + 1) (by omega), ?_, ?_⟩
    · rw [Function.iterate_succ_apply']; rfl
    · rw [Function.iterate_succ_apply']; rfl

/-- C2 at the 3 × 3 sample image and `k = 1`. -/
theorem scaleDownTimes_depth_size_witness :
    ∃ s cur, ImageScalable.scaleDownTimes 1 (ImageScalable.create sampleImage3x3) = some s
      ∧ s.GetScaleDepth = ((1 : Nat) : Int)
      ∧ s.GetCurrentResolution = some cur
      ∧ cur.GetWidth = sampleImage3x3.GetWidth / 2 ^ 1 ∧ 1 ≤ cur.GetWidth
      ∧ cur.GetHeight = sampleImage3x3.GetHeight / 2 ^ 1 ∧ 1 ≤ cur.GetHeight
      ∧ ∀ i, i < 1 → ∃ a b, s.m_resolutions.getD i none = some a
          ∧ s.m_resolutions.getD (i + 1) none = some b
          ∧ b.GetWidth = a.GetWidth / 2 ∧ b.GetHeight = a.GetHeight / 2 :=
  scaleDownTimes_depth_size sampleImage3x3 1 (by decide) (by decide) (by decide)

theorem ScaleDown_length_le (s t : ImageScalable) (h : s.ScaleDown = some t) :
    s.m_resolutions.length ≤ t.m_resolutions.length := by
  unfold ImageScalable.ScaleDown at h
  split at h
  · split at h
    · cases h; simp
    · cases h
  · cases h; exact Nat.le_refl _

theorem ScaleUp_eq (s t : ImageScalable) (h : s.ScaleUp = some t) :
    (0 ≤ s.m_depth ∧ s.m_depth.toNat < s.m_resolutions.length)
    ∧ t = { m_resolutions := s.m_resolutions.set s.m_depth.toNat none
            m_depth := s.m_depth - 1 } := by
  unfold ImageScalable.ScaleUp at h
  split at h
  · rename_i hc
    cases h
    exact ⟨hc, rfl⟩
  · cases h

/-- Invariant of the reachable states whose level count fits an `int`: the depth is a valid
index and every slot past the depth holds `NULL`. -/
theorem Reachable_invariant (img : ImageConst) (s : ImageScalable)
    (hr : ImageScalable.Reachable img s) :
    s.m_resolutions.length < 2 ^ 31 →
      0 ≤ s.m_depth ∧ s.m_depth < (s.m_resolutions.length : Int)
      ∧ ∀ i : Nat, s.m_depth < (i : Int) → s.m_resolutions.getD i none = none := by
  induction hr with
  | create =>
    intro _
    refine ⟨by simp [ImageScalable.create], by simp [ImageScalable.create], ?_⟩
    intro i hi
    apply getD_beyond
    simp only [ImageScalable.create] at hi ⊢
    simp only [List.length_singleton]
    omega
  | scaleDown s t _ hstep ih =>
    intro hlen
    have hle := ScaleDown_length_le s t hstep
    obtain ⟨h0, h1, h2⟩ := ih (by omega)
    by_cases hlast : s.m_depth + 1 = (s.m_resolutions.length : Int)
    · cases hcur : s.GetCurrentResolution with
      | none =>
        have hcond : toUnsignedInt s.m_depth = sizeMinusOne s.m_resolutions.length := by
          simp only [toUnsignedInt, sizeMinusOne]
          omega
        simp [ImageScalable.ScaleDown, if_pos hcond, hcur] at hstep
      | some cur =>
        rw [ScaleDown_last s cur h0 hlast (by omega) hcur] at hstep
        cases hstep
        simp only [List.length_append, List.length_singleton] at hlen ⊢
        refine ⟨?_, ?_, ?_⟩
        · omega
        · omega
        · intro i hi
          apply getD_beyond
          simp only [List.length_append, List.length_singleton]
          omega
    · rw [ScaleDown_inner s h0 (by omega) (by omega)] at hstep
      cases hstep
      refine ⟨?_, ?_, ?_⟩
      · show 0 ≤ s.m_depth + 1
        omega
      · show s.m_depth + 1 < (s.m_resolutions.length : Int)
        omega
      · intro i hi
        exact h2 i (by
          have hi2 : s.m_depth + 1 < (i : Int) := hi
          omega)
  | scaleUp s t _ hpos hstep ih =>
    intro hlen
    obtain ⟨_, ht⟩ := ScaleUp_eq s t hstep
    subst ht
    simp only [List.length_set] at hlen ⊢
    obtain ⟨h0, h1, h2⟩ := ih hlen
    refine ⟨?_, ?_, ?_⟩
    · omega
    · omega
    · intro i hi
      by_cases hid : s.m_depth.toNat = i
      · subst hid
        exact getD_set_eq _ _ _ _ (by omega)
      · rw [getD_set_ne _ _ _ _ _ hid]
        exact h2 i (by omega)

theorem getD_append_last {α : Type} (l : List α) (x d : α) (i : Nat) (h : i = l.length) :
    (l ++ [x]).getD i d = x := by
  subst h
  simp [List.getD_eq_getElem?_getD]

/-- The level current after a push is the pushed one. -/
theorem GetCurrentResolution_pushed (s : ImageScalable) (lvl : ImageConst)
    (h0 : 0 ≤ s.m_depth) (hlast : s.m_depth + 1 = (s.m_resolutions.length : Int)) :
    ImageScalable.GetCurrentResolution
      { m_resolutions := s.m_resolutions ++ [some lvl], m_depth := s.m_depth + 1 }
      = some lvl := by
  have hpos : 0 ≤ s.m_depth + 1 := by omega
  simp only [ImageScalable.GetCurrentResolution, if_pos hpos]
  exact getD_append_last _ _ _ _ (by omega)

/-- C3, as the code has it: in a state reachable from construction (level count within
`int` range), `ScaleDown` at the last level, whose image is at least 2 × 2, pushes the 2x
downsample of the current level, advances the depth by one, makes the pushed image current and
meets all its assertions; when a slot past the depth exists (`ScaleUp` left it holding
`NULL`), `ScaleDown` only advances the depth, the level list is unchanged, the level then
current is `NULL` and the final assertion of `ScaleDown` fails. -/
theorem ScaleDown_reachable (img : ImageConst) (s : ImageScalable)
    (hr : ImageScalable.Reachable img s) (hint : s.m_resolutions.length < 2 ^ 31) :
    (∀ cur, s.m_depth + 1 = (s.m_resolutions.length : Int) →
        s.GetCurrentResolution = some cur → 2 ≤ cur.GetWidth → 2 ≤ cur.GetHeight →
        ∃ t, s.ScaleDown = some t ∧ t.m_depth = s.m_depth + 1
          ∧ t.m_resolutions = s.m_resolutions ++ [some (ImageScaledDown cur)]
          ∧ t.GetCurrentResolution = some (ImageScaledDown cur)
          ∧ s.ScaleDown_assert = true)
    ∧ (s.m_depth + 1 < (s.m_resolutions.length : Int) →
        ∃ t, s.ScaleDown = some t ∧ t.m_depth = s.m_depth + 1
          ∧ t.m_resolutions = s.m_resolutions
          ∧ t.GetCurrentResolution = none
          ∧ s.ScaleDown_assert = false) := by
  obtain ⟨h0, h1, h2⟩ := Reachable_invariant img s hr hint
  refine ⟨?_, ?_⟩
  · intro cur hlast hcur hw hh
    have hsd := ScaleDown_last s cur h0 hlast hint hcur
    have hpush := GetCurrentResolution_pushed s (ImageScaledDown cur) h0 hlast
    refine ⟨_, hsd, rfl, rfl, hpush, ?_⟩
    have hcond : toUnsignedInt s.m_depth = sizeMinusOne s.m_resolutions.length := by
      simp only [toUnsignedInt, sizeMinusOne]
      omega
    have hasrt : ImageScaledDown_assert cur = true := by
      simp only [ImageScaledDown_assert, decide_eq_true_eq]
      omega
    simp only [ImageScalable.ScaleDown_assert, hsd, hpush, if_pos hcond, hcur, hasrt,
      List.length_append, List.length_singleton, Option.isSome_some, Bool.and_true,
      Bool.and_eq_true, decide_eq_true_eq]
    refine ⟨h0, ?_⟩
    push_cast
    omega
  · intro hin
    have hsd := ScaleDown_inner s h0 hin hint
    have hnull : ImageScalable.GetCurrentResolution
        { m_resolutions := s.m_resolutions, m_depth := s.m_depth + 1 } = none := by
      have hpos : 0 ≤ s.m_depth + 1 := by omega
      simp only [ImageScalable.GetCurrentResolution, if_pos hpos]
      exact h2 (s.m_depth + 1).toNat (by omega)
    refine ⟨_, hsd, rfl, rfl, hnull, ?_⟩
    simp only [ImageScalable.ScaleDown_assert, hsd, hnull, Option.isSome_none,
      Bool.and_false]

/-- C3 at a fresh pyramid over the 3 × 3 sample image. -/
theorem ScaleDown_reachable_witness :
    (∀ cur, (ImageScalable.create sampleImage3x3).m_depth + 1
          = ((ImageScalable.create sampleImage3x3).m_resolutions.length : Int) →
        (ImageScalable.create sampleImage3x3).GetCurrentResolution = some cur →
        2 ≤ cur.GetWidth → 2 ≤ cur.GetHeight →
        ∃ t, (ImageScalable.create sampleImage3x3).ScaleDown = some t
          ∧ t.m_depth = (ImageScalable.create sampleImage3x3).m_depth + 1
          ∧ t.m_resolutions = (ImageScalable.create sampleImage3x3).m_resolutions
              ++ [some (ImageScaledDown cur)]
          ∧ t.GetCurrentResolution = some (ImageScaledDown cur)
          ∧ (ImageScalable.create sampleImage3x3).ScaleDown_assert = true)
    ∧ ((ImageScalable.create sampleImage3x3).m_depth + 1
          < ((ImageScalable.create sampleImage3x3).m_resolutions.length : Int) →
        ∃ t, (ImageScalable.create sampleImage3x3).ScaleDown = some t
          ∧ t.m_depth = (ImageScalable.create sampleImage3x3).m_depth + 1
          ∧ t.m_resolutions = (ImageScalable.create sampleImage3x3).m_resolutions
          ∧ t.GetCurrentResolution = none
          ∧ (ImageScalable.create sampleImage3x3).ScaleDown_assert = false) :=
  ScaleDown_reachable sampleImage3x3 (ImageScalable.create sampleImage3x3)
    ImageScalable.Reachable.create (by decide)

/-- C3 as stated fails: `sampleDownUp` is reached from a fresh pyramid over the 3 × 3 sample
image by `ScaleDown` then `ScaleUp`, its current level is the 3 × 3 image, and `ScaleDown`
there leaves the level list `[image, NULL]` as it is and makes the `NULL` slot current. -/
theorem ScaleDown_after_ScaleUp_counterexample :
    ImageScalable.Reachable sampleImage3x3 sampleDownUp
    ∧ sampleDownUp.GetCurrentResolution = some sampleImage3x3
    ∧ 2 ≤ sampleImage3x3.GetWidth ∧ 2 ≤ sampleImage3x3.GetHeight
    ∧ sampleDownUp.ScaleDown
        = some { m_resolutions := [some sampleImage3x3, none], m_depth := 1 }
    ∧ ImageScalable.GetCurrentResolution
        { m_resolutions := [some sampleImage3x3, none], m_depth := 1 } = none
    ∧ sampleDownUp.ScaleDown_assert = false := by
  refine ⟨?_, rfl, by decide, by decide, rfl, by decide, by decide⟩
  have hdown : (ImageScalable.create sampleImage3x3).ScaleDown
      = some { m_resolutions := [some sampleImage3x3, some (ImageScaledDown sampleImage3x3)]
               m_depth := 1 } := rfl
  have hup : ImageScalable.ScaleUp
      { m_resolutions := [some sampleImage3x3, some (ImageScaledDown sampleImage3x3)]
        m_depth := 1 } = some sampleDownUp := rfl
  exact ImageScalable.Reachable.scaleUp _ _
    (ImageScalable.Reachable.scaleDown _ _ ImageScalable.Reachable.create hdown)
    (by decide) hup

/-- `ScaleDown` followed by `ScaleUp`, in general: from every reachable state whose current
level is the last slot, the two calls lead to a reachable state with the same depth and
current level and one more slot, which holds `NULL`; a further `ScaleDown` there only
advances the depth, leaves the level list as it is, makes the `NULL` slot current and fails
the final assertion. -/
theorem ScaleDown_ScaleUp_ScaleDown (img : ImageConst) (s : ImageScalable)
    (hr : ImageScalable.Reachable img s) (hint : s.m_resolutions.length + 1 < 2 ^ 31)
    (cur : ImageConst) (hlast : s.m_depth + 1 = (s.m_resolutions.length : Int))
    (hcur : s.GetCurrentResolution = some cur) :
    ∃ t u w, s.ScaleDown = some t ∧ t.ScaleUp_assert = true ∧ t.ScaleUp = some u
      ∧ ImageScalable.Reachable img u
      ∧ u.m_depth = s.m_depth ∧ u.m_resolutions = s.m_resolutions ++ [none]
      ∧ u.GetCurrentResolution = some cur
      ∧ u.ScaleDown = some w ∧ w.m_depth = u.m_depth + 1
      ∧ w.m_resolutions = u.m_resolutions
      ∧ w.GetCurrentResolution = none
      ∧ u.ScaleDown_assert = false := by
  have hint1 : s.m_resolutions.length < 2 ^ 31 := by omega
  obtain ⟨h0, _, _⟩ := Reachable_invariant img s hr hint1
  have hsd := ScaleDown_last s cur h0 hlast hint1 hcur
  have htoNat : (s.m_depth + 1).toNat = s.m_resolutions.length := by omega
  have hset : (s.m_resolutions ++ [some (ImageScaledDown cur)]).set
      (s.m_depth + 1).toNat none = s.m_resolutions ++ [none] := by
    rw [htoNat]
    simp
  have hup : ImageScalable.ScaleUp
      { m_resolutions := s.m_resolutions ++ [some (ImageScaledDown cur)]
        m_depth := s.m_depth + 1 }
      = some { m_resolutions := s.m_resolutions ++ [none], m_depth := s.m_depth } := by
    have hc : 0 ≤ s.m_depth + 1
        ∧ (s.m_depth + 1).toNat < (s.m_resolutions ++ [some (ImageScaledDown cur)]).length := by
      rw [List.length_append, List.length_singleton]
      omega
    simp only [ImageScalable.ScaleUp, if_pos hc, hset, Int.add_sub_cancel]
  have hupa : ImageScalable.ScaleUp_assert
      { m_resolutions := s.m_resolutions ++ [some (ImageScaledDown cur)]
        m_depth := s.m_depth + 1 } = true := by
    simp only [ImageScalable.ScaleUp_assert, decide_eq_true_eq]
    omega
  have hru : ImageScalable.Reachable img
      { m_resolutions := s.m_resolutions ++ [none], m_depth := s.m_depth } :=
    ImageScalable.Reachable.scaleUp _ _ (ImageScalable.Reachable.scaleDown _ _ hr hsd)
      (by show 0 < s.m_depth + 1; omega) hup
  have hlenu : (s.m_resolutions ++ [none]).length = s.m_resolutions.length + 1 := by
    rw [List.length_append, List.length_singleton]
  have hcuru : ImageScalable.GetCurrentResolution
      { m_resolutions := s.m_resolutions ++ [none], m_depth := s.m_depth } = some cur := by
    have hlt : s.m_depth.toNat < s.m_resolutions.length := by omega
    simp only [ImageScalable.GetCurrentResolution, if_pos h0] at hcur ⊢
    rw [← hcur]
    simp [List.getD_eq_getElem?_getD, List.getElem?_append_left hlt]
  have hin : s.m_depth + 1 < (((s.m_resolutions ++ [none] : List (Option ImageConst)).length
      : Nat) : Int) := by
    rw [hlenu]
    push_cast
    omega
  have hsdu := ScaleDown_inner
    { m_resolutions := s.m_resolutions ++ [none], m_depth := s.m_depth } h0 hin
    (by rw [hlenu]; exact hint)
  have hnull : ImageScalable.GetCurrentResolution
      { m_resolutions := s.m_resolutions ++ [none], m_depth := s.m_depth + 1 } = none := by
    have hpos : 0 ≤ s.m_depth + 1 := by omega
    simp only [ImageScalable.GetCurrentResolution, if_pos hpos]
    exact getD_append_last _ _ _ _ htoNat
  refine ⟨_, _, _, hsd, hupa, hup, hru, rfl, rfl, hcuru, hsdu, rfl, rfl, hnull, ?_⟩
  simp only [ImageScalable.ScaleDown_assert, hsdu, hnull, Option.isSome_none, Bool.and_false]

theorem ImageScaledDown_data_length (img : ImageConst) :
    (ImageScaledDown img).GetData.length = img.GetWidth / 2 * (img.GetHeight / 2) :=
  (rowLoop_spec (img.GetWidth / 2) (img.GetHeight / 2) img.GetWidth img.GetHeight
    img.GetData (List.replicate (img.GetWidth / 2 * (img.GetHeight / 2)) default)
    (List.length_replicate _ _) (img.GetHeight / 2) (Nat.le_refl _)).1

/-- C4 fails on the code: `ScaleDown` at the last level of a pyramid (level count within
`int` range) whose current image has width < 2 or height < 2 does not refuse: it pushes the
level that `ImageScaledDown` builds, of width `W / 2` and height `H / 2`, one of them zero and
with no pixels, and advances the depth by one, breaking the constructor's own assertion
`m_width > 0 && m_height > 0`, which says that no level of zero width or height is made. -/
theorem ScaleDown_too_coarse (s : ImageScalable) (cur : ImageConst)
    (h0 : 0 ≤ s.m_depth) (hlast : s.m_depth + 1 = (s.m_resolutions.length : Int))
    (hint : s.m_resolutions.length < 2 ^ 31)
    (hcur : s.GetCurrentResolution = some cur)
    (hsmall : cur.GetWidth < 2 ∨ cur.GetHeight < 2) :
    s.ScaleDown = some { m_resolutions := s.m_resolutions ++ [some (ImageScaledDown cur)]
                         m_depth := s.m_depth + 1 }
    ∧ (ImageScaledDown cur).GetWidth = cur.GetWidth / 2
    ∧ (ImageScaledDown cur).GetHeight = cur.GetHeight / 2
    ∧ ((ImageScaledDown cur).GetWidth = 0 ∨ (ImageScaledDown cur).GetHeight = 0)
    ∧ (ImageScaledDown cur).GetData = []
    ∧ ImageScaledDown_assert cur = false
    ∧ s.ScaleDown_assert = false := by
  have hsd := ScaleDown_last s cur h0 hlast hint hcur
  have hzero : cur.GetWidth / 2 = 0 ∨ cur.GetHeight / 2 = 0 := by omega
  have hasrt : ImageScaledDown_assert cur = false := by
    simp only [ImageScaledDown_assert, decide_eq_false_iff_not]
    omega
  have hcond : toUnsignedInt s.m_depth = sizeMinusOne s.m_resolutions.length := by
    simp only [toUnsignedInt, sizeMinusOne]
    omega
  refine ⟨hsd, rfl, rfl, hzero, ?_, hasrt, ?_⟩
  · apply List.length_eq_zero.mp
    rw [ImageScaledDown_data_length]
    rcases hzero with hz | hz
    · rw [hz, Nat.zero_mul]
    · rw [hz, Nat.mul_zero]
  · simp only [ImageScalable.ScaleDown_assert, if_pos hcond, hcur, hasrt, Bool.and_false,
      Bool.false_and]

/-- C4 at a fresh pyramid over the 1 × 1 sample image. -/
theorem ScaleDown_too_coarse_witness :
    (ImageScalable.create sampleImage1x1).ScaleDown
      = some { m_resolutions := (ImageScalable.create sampleImage1x1).m_resolutions
                 ++ [some (ImageScaledDown sampleImage1x1)]
               m_depth := (ImageScalable.create sampleImage1x1).m_depth + 1 }
    ∧ (ImageScaledDown sampleImage1x1).GetWidth = sampleImage1x1.GetWidth / 2
    ∧ (ImageScaledDown sampleImage1x1).GetHeight = sampleImage1x1.GetHeight / 2
    ∧ ((ImageScaledDown sampleImage1x1).GetWidth = 0
        ∨ (ImageScaledDown sampleImage1x1).GetHeight = 0)
    ∧ (ImageScaledDown sampleImage1x1).GetData = []
    ∧ ImageScaledDown_assert sampleImage1x1 = false
    ∧ (ImageScalable.create sampleImage1x1).ScaleDown_assert = false :=
  ScaleDown_too_coarse (ImageScalable.create sampleImage1x1) sampleImage1x1 (by decide)
    (by decide) (by decide) rfl (Or.inl (by decide))

/-- The failing input of C4 evaluated: on a fresh pyramid over a 1 × 1 image `ScaleDown`
does not fail; it returns with depth 1 and a second level of width 0 and height 0, and the
assertion of the `ImageScaledDown` constructor does not hold. -/
theorem ScaleDown_one_by_one_zero_level :
    (ImageScalable.create sampleImage1x1).ScaleDown
      = some { m_resolutions := [some sampleImage1x1,
                 some { GetWidth := 0, GetHeight := 0, GetData := [] }]
               m_depth := 1 }
    ∧ ImageScaledDown_assert sampleImage1x1 = false
    ∧ (ImageScalable.create sampleImage1x1).ScaleDown_assert = false := by
  refine ⟨rfl, by decide, by decide⟩

theorem Pixel_eq_of_channel (p q : Pixel) (h : ∀ c : Fin 3, p.channel c = q.channel c) :
    p = q := by
  obtain ⟨p0, p1, p2⟩ := p
  obtain ⟨q0, q1, q2⟩ := q
  have h0 := h 0
  have h1 := h 1
  have h2 := h 2
  simp only [Pixel.channel] at h0 h1 h2
  rw [h0, h1, h2]

/-- C5: downsampling a source of width and height at least 2 (even or odd) whose pixels all
equal one colour `c` gives an image whose pixels all equal `c`: its buffer is
`W/2 * H/2` copies of `c`. -/
theorem ImageScaledDown_uniform (img : ImageConst) (c : Pixel)
    (hW : 2 ≤ img.GetWidth) (hH : 2 ≤ img.GetHeight)
    (huni : ∀ x y, x < img.GetWidth → y < img.GetHeight → img.pixelAt x y = c) :
    (∀ x y, x < img.GetWidth / 2 → y < img.GetHeight / 2 →
        (ImageScaledDown img).pixelAt x y = c)
    ∧ (ImageScaledDown img).GetData
        = List.replicate (img.GetWidth / 2 * (img.GetHeight / 2)) c := by
  have hpix : ∀ x y, x < img.GetWidth / 2 → y < img.GetHeight / 2 →
      (ImageScaledDown img).pixelAt x y = c := by
    intro x y hx hy
    apply Pixel_eq_of_channel
    intro ch
    rw [ImageScaledDown_pixelAt_channel img x y ch hx hy]
    rw [huni _ _ (by omega) (by omega), huni _ _ (by omega) (by omega),
      huni _ _ (by omega) (by omega), huni _ _ (by omega) (by omega)]
    ring
  refine ⟨hpix, ?_⟩
  have hlen := ImageScaledDown_data_length img
  have hh : 0 < img.GetHeight / 2 := by omega
  apply List.ext_getElem
  · rw [hlen, List.length_replicate]
  · intro i h1 h2
    rw [List.getElem_replicate]
    have hw : 0 < img.GetWidth / 2 := by omega
    have hi : i < img.GetWidth / 2 * (img.GetHeight / 2) := by rw [← hlen]; exact h1
    have hx : i % (img.GetWidth / 2) < img.GetWidth / 2 := Nat.mod_lt _ hw
    have hy : i / (img.GetWidth / 2) < img.GetHeight / 2 := by
      have := Nat.div_lt_of_lt_mul hi
      omega
    have hp := hpix _ _ hx hy
    have hidx : i / (img.GetWidth / 2) * (img.GetWidth / 2) + i % (img.GetWidth / 2) = i :=
      Nat.div_add_mod' i (img.GetWidth / 2)
    have hw2 : (ImageScaledDown img).GetWidth = img.GetWidth / 2 := rfl
    simp only [ImageConst.pixelAt, readPixel, GetRowMajorPointer, hw2, Nat.zero_add,
      Nat.add_zero, hidx, List.getD_eq_getElem?_getD, List.getElem?_eq_getElem h1,
      Option.getD_some] at hp
    exact hp

/-- C5 at the uniform 3 × 2 sample image: the one output pixel has the source colour. -/
theorem ImageScaledDown_uniform_witness :
    (∀ x y, x < sampleUniform3x2.GetWidth / 2 → y < sampleUniform3x2.GetHeight / 2 →
        (ImageScaledDown sampleUniform3x2).pixelAt x y = ⟨1 / 3, 1 / 2, 1⟩)
    ∧ (ImageScaledDown sampleUniform3x2).GetData
        = List.replicate (sampleUniform3x2.GetWidth / 2 * (sampleUniform3x2.GetHeight / 2))
            ⟨1 / 3, 1 / 2, 1⟩ :=
  ImageScaledDown_uniform sampleUniform3x2 ⟨1 / 3, 1 / 2, 1⟩ (by decide) (by decide)
    (by
      intro x y hx hy
      have hx3 : x < 3 := hx
      have hy2 : y < 2 := hy
      interval_cases x <;> interval_cases y <;> rfl)

end LfnIc

namespace PriorityBp

open LfnIc

/-! ### NodeSet -/

/-- The loop of `GetHighestPriorityUncommittedNode` after `n` iterations: either no node has
been chosen, `priorityHighest` is still `PRIORITY_MIN` and no uncommitted node seen exceeds
it, or the chosen node is uncommitted, holds `priorityHighest`, is not exceeded by any
uncommitted node seen and strictly exceeds the uncommitted nodes before it. -/
theorem highest_invariant {P : Type} [LinearOrder P] (PRIORITY_MIN : P) (s : NodeSet P)
    (n : Nat) :
    ((forLoop n (NodeSet.highestBody s) (none, PRIORITY_MIN)).1 = none →
      (forLoop n (NodeSet.highestBody s) (none, PRIORITY_MIN)).2 = PRIORITY_MIN
      ∧ ∀ j info, j < n → s.m_nodeSetInfo[j]? = some info → info.isCommitted = false →
          info.priority ≤ PRIORITY_MIN)
    ∧ (∀ i, (forLoop n (NodeSet.highestBody s) (none, PRIORITY_MIN)).1 = some i →
        i < n ∧ ∃ infoI, s.m_nodeSetInfo[i]? = some infoI ∧ infoI.isCommitted = false
          ∧ (forLoop n (NodeSet.highestBody s) (none, PRIORITY_MIN)).2 = infoI.priority
          ∧ PRIORITY_MIN < infoI.priority
          ∧ (∀ j info, j < n → s.m_nodeSetInfo[j]? = some info →
              info.isCommitted = false → info.priority ≤ infoI.priority)
          ∧ (∀ j info, j < i → s.m_nodeSetInfo[j]? = some info →
              info.isCommitted = false → info.priority < infoI.priority)) := by
  induction n with
  | zero =>
    refine ⟨fun _ => ⟨rfl, fun j _ hj => absurd hj (Nat.not_lt_zero j)⟩, ?_⟩
    intro i hi
    simp [forLoop] at hi
  | succ n ih =>
    obtain ⟨ihNone, ihSome⟩ := ih
    generalize hst : forLoop n (NodeSet.highestBody s) (none, PRIORITY_MIN) = st at ihNone ihSome
    have hunf : forLoop (n + 1) (NodeSet.highestBody s) (none, PRIORITY_MIN)
        = NodeSet.highestBody s n st := by
      rw [← hst]; rfl
    rw [hunf]
    obtain ⟨node, ph⟩ := st
    cases hinfo : s.m_nodeSetInfo[n]? with
    | none =>
      have hbody : NodeSet.highestBody s n (node, ph) = (node, ph) := by
        simp [NodeSet.highestBody, hinfo]
      rw [hbody]
      refine ⟨?_, ?_⟩
      · intro hnone
        obtain ⟨h1, h2⟩ := ihNone hnone
        refine ⟨h1, ?_⟩
        intro j info hj hget hc
        by_cases hjn : j = n
        · subst hjn; rw [hinfo] at hget; cases hget
        · exact h2 j info (by omega) hget hc
      · intro i hi
        obtain ⟨h1, infoI, h2, h3, h4, h5, h6, h7⟩ := ihSome i hi
        refine ⟨by omega, infoI, h2, h3, h4, h5, ?_, h7⟩
        intro j info hj hget hc
        by_cases hjn : j = n
        · subst hjn; rw [hinfo] at hget; cases hget
        · exact h6 j info (by omega) hget hc
    | some infoN =>
      by_cases htake : infoN.isCommitted = false ∧ ph < infoN.priority
      · have hbody : NodeSet.highestBody s n (node, ph) = (some n, infoN.priority) := by
          simp [NodeSet.highestBody, hinfo, htake.1, htake.2]
        rw [hbody]
        have hle : ∀ j info, j < n → s.m_nodeSetInfo[j]? = some info →
            info.isCommitted = false → info.priority ≤ ph ∧ PRIORITY_MIN ≤ ph := by
          intro j info hj hget hc
          cases hnode : node with
          | none =>
            obtain ⟨h1, h2⟩ := ihNone hnode
            have h1b : ph = PRIORITY_MIN := h1
            rw [h1b]
            exact ⟨h2 j info hj hget hc, le_refl _⟩
          | some i0 =>
            obtain ⟨_, infoI, _, _, h4, h5, h6, _⟩ := ihSome i0 hnode
            have h4b : ph = infoI.priority := h4
            rw [h4b]
            exact ⟨h6 j info hj hget hc, le_of_lt h5⟩
        have hmin : PRIORITY_MIN ≤ ph := by
          cases hnode : node with
          | none => exact le_of_eq (ihNone hnode).1.symm
          | some i0 =>
            obtain ⟨_, infoI, _, _, h4, h5, _, _⟩ := ihSome i0 hnode
            have h4b : ph = infoI.priority := h4
            rw [h4b]; exact le_of_lt h5
        refine ⟨fun hnone => absurd hnone (by simp), ?_⟩
        intro i hi
        have hin : n = i := by simpa using hi
        subst hin
        refine ⟨Nat.lt_succ_self _, infoN, hinfo, htake.1, rfl,
          lt_of_le_of_lt hmin htake.2, ?_, ?_⟩
        · intro j info hj hget hc
          by_cases hjn : j = n
          · subst hjn; rw [hinfo] at hget; cases hget; exact le_refl _
          · exact le_of_lt (lt_of_le_of_lt (hle j info (by omega) hget hc).1 htake.2)
        · intro j info hj hget hc
          exact lt_of_le_of_lt (hle j info hj hget hc).1 htake.2
      · have hbody : NodeSet.highestBody s n (node, ph) = (node, ph) := by
          simp only [NodeSet.highestBody, hinfo]
          have hcond : (!infoN.isCommitted && decide (ph < infoN.priority)) = false := by
            by_cases hc : infoN.isCommitted = false
            · have hnlt : ¬ ph < infoN.priority := fun h => htake ⟨hc, h⟩
              simp [hc, hnlt]
            · simp at hc; simp [hc]
          simp [hcond]
        rw [hbody]
        have hnew : infoN.isCommitted = false → infoN.priority ≤ ph := by
          intro hc
          exact not_lt.mp (fun h => htake ⟨hc, h⟩)
        refine ⟨?_, ?_⟩
        · intro hnone
          obtain ⟨h1, h2⟩ := ihNone hnone
          refine ⟨h1, ?_⟩
          intro j info hj hget hc
          by_cases hjn : j = n
          · subst hjn; rw [hinfo] at hget; cases hget
            have h1b : ph = PRIORITY_MIN := h1
            rw [← h1b]; exact hnew hc
          · exact h2 j info (by omega) hget hc
        · intro i hi
          obtain ⟨h1, infoI, h2, h3, h4, h5, h6, h7⟩ := ihSome i hi
          refine ⟨by omega, infoI, h2, h3, h4, h5, ?_, h7⟩
          intro j info hj hget hc
          by_cases hjn : j = n
          · subst hjn; rw [hinfo] at hget; cases hget
            have h4b : ph = infoI.priority := h4
            rw [← h4b]; exact hnew hc
          · exact h6 j info (by omega) hget hc

theorem GetHighest_spec {P : Type} [LinearOrder P] (PRIORITY_MIN : P) (s : NodeSet P)
    (i : Nat) (h : s.GetHighestPriorityUncommittedNode PRIORITY_MIN = some i) :
    i < s.size ∧ ∃ infoI, s.m_nodeSetInfo[i]? = some infoI ∧ infoI.isCommitted = false
      ∧ PRIORITY_MIN < infoI.priority
      ∧ (∀ j info, j < s.size → s.m_nodeSetInfo[j]? = some info →
          info.isCommitted = false → info.priority ≤ infoI.priority)
      ∧ (∀ j info, j < i → s.m_nodeSetInfo[j]? = some info →
          info.isCommitted = false → info.priority < infoI.priority) := by
  obtain ⟨h1, infoI, h2, h3, _, h5, h6, h7⟩ :=
    (highest_invariant PRIORITY_MIN s s.size).2 i h
  exact ⟨h1, infoI, h2, h3, h5, h6, h7⟩

/-- The loop of `IsCommitted` after `n` iterations. -/
theorem isCommitted_loop {P : Type} (s : NodeSet P) (node n : Nat) :
    forLoop n (NodeSet.isCommittedBody s node) none
      = if node < n then (s.m_nodeSetInfo[node]?).map (fun info => info.isCommitted)
        else none := by
  induction n with
  | zero => simp [forLoop]
  | succ k ih =>
    show NodeSet.isCommittedBody s node k (forLoop k (NodeSet.isCommittedBody s node) none) = _
    rw [ih]
    by_cases hlt : node < k
    · have hlt2 : node < k + 1 := by omega
      rw [if_pos hlt, if_pos hlt2]
      cases hinfo : s.m_nodeSetInfo[node]? with
      | none =>
        have hne : k ≠ node := by omega
        simp [NodeSet.isCommittedBody, hne]
      | some info => simp [NodeSet.isCommittedBody]
    · rw [if_neg hlt]
      by_cases heq : k = node
      · subst heq
        have hlt2 : k < k + 1 := by omega
        rw [if_pos hlt2]
        cases hinfo : s.m_nodeSetInfo[k]? <;> simp [NodeSet.isCommittedBody, hinfo]
      · have hlt2 : ¬ node < k + 1 := by omega
        rw [if_neg hlt2]
        simp [NodeSet.isCommittedBody, heq]

theorem IsCommitted_eq {P : Type} (s : NodeSet P) (node : Nat) (info : NodeInfo P)
    (hlt : node < s.size) (hinfo : s.m_nodeSetInfo[node]? = some info) :
    s.IsCommitted node = info.isCommitted := by
  simp [NodeSet.IsCommitted, isCommitted_loop, hlt, hinfo]

/-- The loop of `SetCommitted` after `n` iterations. -/
theorem setCommitted_loop {P : Type} (infos : List (NodeInfo P)) (node : Nat) (c : Bool)
    (n : Nat) :
    forLoop n (NodeSet.setCommittedBody node c) (infos, false)
      = if node < n then
          match infos[node]? with
          | some info => (infos.set node { priority := info.priority, isCommitted := c }, true)
          | none => (infos, true)
        else (infos, false) := by
  induction n with
  | zero => simp [forLoop]
  | succ k ih =>
    show NodeSet.setCommittedBody node c k
      (forLoop k (NodeSet.setCommittedBody node c) (infos, false)) = _
    rw [ih]
    by_cases hlt : node < k
    · have hlt2 : node < k + 1 := by omega
      rw [if_pos hlt, if_pos hlt2]
      cases hinfo : infos[node]? <;> simp [NodeSet.setCommittedBody]
    · rw [if_neg hlt]
      by_cases heq : k = node
      · subst heq
        have hlt2 : k < k + 1 := by omega
        rw [if_pos hlt2]
        cases hinfo : infos[k]? <;> simp [NodeSet.setCommittedBody, hinfo]
      · have hlt2 : ¬ node < k + 1 := by omega
        rw [if_neg hlt2]
        simp [NodeSet.setCommittedBody, heq]

theorem SetCommitted_eq {P : Type} (s : NodeSet P) (node : Nat) (c : Bool)
    (info : NodeInfo P) (hlt : node < s.size) (hinfo : s.m_nodeSetInfo[node]? = some info) :
    s.SetCommitted node c
      = { nodes := s.nodes
          m_nodeSetInfo := s.m_nodeSetInfo.set node
            { priority := info.priority, isCommitted := c }
          m_depth := s.m_depth } := by
  simp [NodeSet.SetCommitted, setCommitted_loop, hlt, hinfo]

/-- Counting over `0..n-1`: switching a predicate off at one index lowers the count by
one. -/
theorem countP_range_switch_off (p q : Nat → Bool) (k : Nat) (hp : p k = true)
    (hq : q k = false) (hsame : ∀ j, j ≠ k → q j = p j) (n : Nat) :
    (List.range n).countP q + (if k < n then 1 else 0) = (List.range n).countP p := by
  induction n with
  | zero => simp
  | succ m ih =>
    rw [List.range_succ, List.countP_append, List.countP_append]
    simp only [List.countP_cons, List.countP_nil, Nat.zero_add]
    by_cases hkm : k = m
    · subst hkm
      have h1 : ¬ k < k := Nat.lt_irrefl k
      have h2 : k < k + 1 := Nat.lt_succ_self k
      simp only [if_neg h1, if_pos h2, Nat.add_zero] at ih ⊢
      simp [hp, hq, ih]
    · have hqm : q m = p m := hsame m (fun h => hkm h.symm)
      by_cases hlt : k < m
      · have h2 : k < m + 1 := by omega
        simp only [if_pos hlt, if_pos h2] at ih ⊢
        rw [hqm]; omega
      · have h2 : ¬ k < m + 1 := by omega
        simp only [if_neg hlt, if_neg h2] at ih ⊢
        rw [hqm]; omega

/-- `GetHighestPriorityUncommittedNode` returns `NULL` exactly when no uncommitted node has
a stored priority above `PRIORITY_MIN`. -/
theorem GetHighest_none_iff {P : Type} [LinearOrder P] (PRIORITY_MIN : P) (s : NodeSet P) :
    s.GetHighestPriorityUncommittedNode PRIORITY_MIN = none
      ↔ ∀ j info, j < s.size → s.m_nodeSetInfo[j]? = some info →
          info.isCommitted = false → info.priority ≤ PRIORITY_MIN := by
  constructor
  · intro h
    exact ((highest_invariant PRIORITY_MIN s s.size).1 h).2
  · intro hall
    cases hres : s.GetHighestPriorityUncommittedNode PRIORITY_MIN with
    | none => rfl
    | some i =>
      obtain ⟨h1, infoI, h2, h3, h4, _, _⟩ := GetHighest_spec PRIORITY_MIN s i hres
      exact absurd (hall i infoI h1 h2 h3) (not_le.mpr h4)

/-- C8: if `GetHighestPriorityUncommittedNode` returns the node at index `i`, then node `i`
is in the set and uncommitted, no uncommitted node has a stored priority strictly greater
than node `i`'s, and every uncommitted node of lower index has a strictly lower priority. -/
theorem GetHighestPriorityUncommittedNode_max {P : Type} [LinearOrder P] (PRIORITY_MIN : P)
    (s : NodeSet P) (i : Nat)
    (h : s.GetHighestPriorityUncommittedNode PRIORITY_MIN = some i) :
    i < s.size ∧ s.IsCommitted i = false
    ∧ ∃ infoI, s.m_nodeSetInfo[i]? = some infoI
      ∧ (∀ j info, j < s.size → s.m_nodeSetInfo[j]? = some info →
          s.IsCommitted j = false → ¬ infoI.priority < info.priority)
      ∧ (∀ j info, j < i → s.m_nodeSetInfo[j]? = some info →
          s.IsCommitted j = false → info.priority < infoI.priority) := by
  obtain ⟨h1, infoI, h2, h3, _, h5, h6⟩ := GetHighest_spec PRIORITY_MIN s i h
  refine ⟨h1, ?_, infoI, h2, ?_, ?_⟩
  · rw [IsCommitted_eq s i infoI h1 h2]; exact h3
  · intro j info hj hget hc
    rw [IsCommitted_eq s j info hj hget] at hc
    exact not_lt.mpr (h5 j info hj hget hc)
  · intro j info hj hget hc
    rw [IsCommitted_eq s j info (by omega) hget] at hc
    exact h6 j info hj hget hc

/-- C8 at the sample node set (priorities 5, 7, 5, the node of priority 7 committed): the
node returned is node 0, the first of the two uncommitted nodes of priority 5. -/
theorem GetHighestPriorityUncommittedNode_max_witness :
    0 < sampleNodeSet.size ∧ sampleNodeSet.IsCommitted 0 = false
    ∧ ∃ infoI, sampleNodeSet.m_nodeSetInfo[0]? = some infoI
      ∧ (∀ j info, j < sampleNodeSet.size → sampleNodeSet.m_nodeSetInfo[j]? = some info →
          sampleNodeSet.IsCommitted j = false → ¬ infoI.priority < info.priority)
      ∧ (∀ j info, j < 0 → sampleNodeSet.m_nodeSetInfo[j]? = some info →
          sampleNodeSet.IsCommitted j = false → info.priority < infoI.priority) :=
  GetHighestPriorityUncommittedNode_max (0 : Int) sampleNodeSet 0 (by decide)

/-- C9 fails on the code: a node set of one node in its initial state (uncommitted,
priority `PRIORITY_MIN`) has one uncommitted node, yet
`GetHighestPriorityUncommittedNode` returns `NULL`. -/
theorem GetHighestPriorityUncommittedNode_fresh_null :
    sampleFreshNodeSet.size = 1
    ∧ sampleFreshNodeSet.IsCommitted 0 = false
    ∧ sampleFreshNodeSet.uncommittedCount = 1
    ∧ sampleFreshNodeSet.GetHighestPriorityUncommittedNode (0 : Int) = none := by
  decide

theorem uncommitted_SetCommitted {P : Type} (s : NodeSet P) (node : Nat)
    (info : NodeInfo P) (hlt : node < s.size) (hinfo : s.m_nodeSetInfo[node]? = some info)
    (j : Nat) :
    (s.SetCommitted node true).uncommitted j
      = if j = node then false else s.uncommitted j := by
  rw [SetCommitted_eq s node true info hlt hinfo]
  simp only [NodeSet.uncommitted]
  by_cases hj : j = node
  · subst hj
    have hlen : j < s.m_nodeSetInfo.length := by
      by_contra hge
      rw [List.getElem?_eq_none (by omega)] at hinfo
      cases hinfo
    simp [List.getElem?_set_self hlen]
  · have hne : node ≠ j := fun h => hj h.symm
    simp [List.getElem?_set_ne hne, hj]

/-- C10: when `GetHighestPriorityUncommittedNode` returns node `N`, `SetCommitted(N, true)`
lowers the number of uncommitted nodes by exactly one and makes `N` committed, and in no
state in which `N` is committed does `GetHighestPriorityUncommittedNode` return `N`. -/
theorem SetCommitted_decreases_uncommitted {P : Type} [LinearOrder P] (PRIORITY_MIN : P)
    (s : NodeSet P) (N : Nat)
    (h : s.GetHighestPriorityUncommittedNode PRIORITY_MIN = some N) :
    (s.SetCommitted N true).uncommittedCount + 1 = s.uncommittedCount
    ∧ (s.SetCommitted N true).IsCommitted N = true
    ∧ ∀ t : NodeSet P, t.IsCommitted N = true →
        t.GetHighestPriorityUncommittedNode PRIORITY_MIN ≠ some N := by
  obtain ⟨h1, infoN, h2, h3, _, _, _⟩ := GetHighest_spec PRIORITY_MIN s N h
  have hsize : (s.SetCommitted N true).size = s.size := rfl
  refine ⟨?_, ?_, ?_⟩
  · have hcount := countP_range_switch_off (fun j => s.uncommitted j)
      (fun j => (s.SetCommitted N true).uncommitted j) N
      (by simp [NodeSet.uncommitted, h2, h3])
      (by simp [uncommitted_SetCommitted s N infoN h1 h2])
      (by intro j hj; simp [uncommitted_SetCommitted s N infoN h1 h2, hj]) s.size
    simp only [if_pos h1] at hcount
    simp only [NodeSet.uncommittedCount, hsize]
    exact hcount
  · have hlen : N < s.m_nodeSetInfo.length := by
      by_contra hge
      rw [List.getElem?_eq_none (by omega)] at h2
      cases h2
    rw [IsCommitted_eq (s.SetCommitted N true) N
      { priority := infoN.priority, isCommitted := true } h1
      (by rw [SetCommitted_eq s N true infoN h1 h2]; simp [List.getElem?_set_self hlen])]
  · intro t ht hret
    obtain ⟨g1, infoT, g2, g3, _, _, _⟩ := GetHighest_spec PRIORITY_MIN t N hret
    rw [IsCommitted_eq t N infoT g1 g2, g3] at ht
    cases ht

/-- C10 at the sample node set, whose highest-priority uncommitted node is node 0. -/
theorem SetCommitted_decreases_uncommitted_witness :
    (sampleNodeSet.SetCommitted 0 true).uncommittedCount + 1 = sampleNodeSet.uncommittedCount
    ∧ (sampleNodeSet.SetCommitted 0 true).IsCommitted 0 = true
    ∧ ∀ t : NodeSet Int, t.IsCommitted 0 = true →
        t.GetHighestPriorityUncommittedNode (0 : Int) ≠ some 0 :=
  SetCommitted_decreases_uncommitted (0 : Int) sampleNodeSet 0 (by decide)

/-! ### Lattice -/

theorem rowMajor_div_mod (nC r c : Nat) (hc : c < nC) :
    (r * nC + c) % nC = c ∧ (r * nC + c) / nC = r := by
  have hpos : 0 < nC := by omega
  refine ⟨?_, ?_⟩
  · rw [Nat.add_comm, Nat.mul_comm, Nat.add_mul_mod_self_left, Nat.mod_eq_of_lt hc]
  · rw [Nat.add_comm, Nat.mul_comm, Nat.add_mul_div_left _ _ hpos, Nat.div_eq_of_lt hc,
      Nat.zero_add]

theorem getElem?_append_some {α : Type} (l : List α) (x v : α) (i : Nat)
    (h : l[i]? = some v) : (l ++ [x])[i]? = some v := by
  have hlt : i < l.length := by
    by_contra hge
    rw [List.getElem?_eq_none (by omega)] at h
    cases h
  rw [List.getElem?_append_left hlt]
  exact h

/-- One iteration of the inner loop of `CreateUnknownRegionNodes` at lattice point
`(c, r)`, whose row-major index is the current `pointIndex`. -/
theorem createColBody_step (inp : LatticeInput) (nC r c : Nat) (s : CreateCol)
    (hc : c < nC) (hidx : s.pointIndex = r * nC + c) (hx : s.x = Lattice.pointX inp c)
    (hlen : s.pointIndex < s.m_pointNodeIndices.length)
    (hdone : Lattice.PointsDone inp nC s.pointIndex s.m_pointNodeIndices s.m_nodeStorage) :
    (Lattice.createColBody inp (Lattice.pointY inp r - inp.patchHeight.tdiv 2)
        (Lattice.pointY inp r) s).pointIndex = r * nC + (c + 1)
    ∧ (Lattice.createColBody inp (Lattice.pointY inp r - inp.patchHeight.tdiv 2)
        (Lattice.pointY inp r) s).x = Lattice.pointX inp (c + 1)
    ∧ (Lattice.createColBody inp (Lattice.pointY inp r - inp.patchHeight.tdiv 2)
        (Lattice.pointY inp r) s).m_pointNodeIndices.length = s.m_pointNodeIndices.length
    ∧ Lattice.PointsDone inp nC (r * nC + (c + 1))
        (Lattice.createColBody inp (Lattice.pointY inp r - inp.patchHeight.tdiv 2)
          (Lattice.pointY inp r) s).m_pointNodeIndices
        (Lattice.createColBody inp (Lattice.pointY inp r - inp.patchHeight.tdiv 2)
          (Lattice.pointY inp r) s).m_nodeStorage := by
  obtain ⟨hmod, hdiv⟩ := rowMajor_div_mod nC r c hc
  have hxnext : s.x + inp.latticeGapX = Lattice.pointX inp (c + 1) := by
    rw [hx]; simp only [Lattice.pointX]; push_cast; ring
  cases hq : Lattice.pointHasUnknown inp c r with
  | true =>
    have hq2 : inp.RegionXywhHasAnyUnknown (s.x - inp.patchWidth.tdiv 2)
        (Lattice.pointY inp r - inp.patchHeight.tdiv 2) inp.patchWidth inp.patchHeight
        = true := by
      rw [hx]; exact hq
    simp only [Lattice.createColBody, hq2, if_true]
    refine ⟨by omega, hxnext, List.length_set _ _ _, ?_⟩
    intro p hp
    by_cases hpb : p = s.pointIndex
    · subst hpb
      rw [hidx, hmod, hdiv]
      refine ⟨fun _ => ⟨s.m_nodeStorage.length, ?_, ?_⟩, fun hf => ?_⟩
      · rw [← hidx]; exact getD_set_eq _ _ _ _ hlen
      · rw [hx]; simp
      · rw [hq] at hf; cases hf
    · obtain ⟨d1, d2⟩ := hdone p (by omega)
      rw [getD_set_ne _ _ _ _ _ (fun h => hpb h.symm)]
      refine ⟨fun ht => ?_, d2⟩
      obtain ⟨idx, e1, e2⟩ := d1 ht
      exact ⟨idx, e1, getElem?_append_some _ _ _ _ e2⟩
  | false =>
    have hq2 : inp.RegionXywhHasAnyUnknown (s.x - inp.patchWidth.tdiv 2)
        (Lattice.pointY inp r - inp.patchHeight.tdiv 2) inp.patchWidth inp.patchHeight
        = false := by
      rw [hx]; exact hq
    simp only [Lattice.createColBody, hq2]
    refine ⟨by simp only [Bool.false_eq_true, if_false]; omega,
      by simp only [Bool.false_eq_true, if_false]; exact hxnext,
      by simp only [Bool.false_eq_true, if_false]; exact List.length_set _ _ _, ?_⟩
    simp only [Bool.false_eq_true, if_false]
    intro p hp
    by_cases hpb : p = s.pointIndex
    · subst hpb
      rw [hidx, hmod, hdiv]
      refine ⟨fun ht => ?_, fun _ => ?_⟩
      · rw [hq] at ht; cases ht
      · rw [← hidx]; exact getD_set_eq _ _ _ _ hlen
    · obtain ⟨d1, d2⟩ := hdone p (by omega)
      rw [getD_set_ne _ _ _ _ _ (fun h => hpb h.symm)]
      exact ⟨d1, d2⟩

/-- The inner loop of `CreateUnknownRegionNodes` over a whole row `r`. -/
theorem createColLoop_spec (inp : LatticeInput) (nC r total : Nat) (s0 : CreateCol)
    (hidx : s0.pointIndex = r * nC) (hx : s0.x = Lattice.pointX inp 0)
    (hlen : s0.m_pointNodeIndices.length = total) (hfit : r * nC + nC ≤ total)
    (hdone : Lattice.PointsDone inp nC (r * nC) s0.m_pointNodeIndices s0.m_nodeStorage) :
    (forLoop nC (fun _ => Lattice.createColBody inp
        (Lattice.pointY inp r - inp.patchHeight.tdiv 2) (Lattice.pointY inp r)) s0).pointIndex
      = r * nC + nC
    ∧ (forLoop nC (fun _ => Lattice.createColBody inp
        (Lattice.pointY inp r - inp.patchHeight.tdiv 2) (Lattice.pointY inp r))
        s0).m_pointNodeIndices.length = total
    ∧ Lattice.PointsDone inp nC (r * nC + nC)
        (forLoop nC (fun _ => Lattice.createColBody inp
          (Lattice.pointY inp r - inp.patchHeight.tdiv 2) (Lattice.pointY inp r))
          s0).m_pointNodeIndices
        (forLoop nC (fun _ => Lattice.createColBody inp
          (Lattice.pointY inp r - inp.patchHeight.tdiv 2) (Lattice.pointY inp r))
          s0).m_nodeStorage := by
  have key := forLoop_invariant
    (fun c (st : CreateCol) =>
      st.pointIndex = r * nC + c ∧ st.x = Lattice.pointX inp c
      ∧ st.m_pointNodeIndices.length = total
      ∧ Lattice.PointsDone inp nC (r * nC + c) st.m_pointNodeIndices st.m_nodeStorage)
    (fun _ => Lattice.createColBody inp
      (Lattice.pointY inp r - inp.patchHeight.tdiv 2) (Lattice.pointY inp r)) s0 nC
    ⟨by rw [hidx, Nat.add_zero], hx, hlen, by rw [Nat.add_zero]; exact hdone⟩
    (by
      intro c st hc hP
      obtain ⟨p1, p2, p3, p4⟩ := hP
      have hstep := createColBody_step inp nC r c st hc p1 p2 (by omega)
        (by rw [p1]; exact p4)
      exact ⟨hstep.1, hstep.2.1, by rw [hstep.2.2.1]; exact p3, hstep.2.2.2⟩)
  exact ⟨key.1, key.2.2.1, key.2.2.2⟩

/-- The outer loop of `CreateUnknownRegionNodes` after `n ≤ nR` rows. -/
theorem createRowLoop_spec (inp : LatticeInput) (nC nR : Nat) (indices0 : List Int)
    (storage0 : List Node) (hlen : indices0.length = nC * nR) (n : Nat) (hn : n ≤ nR) :
    Lattice.PointsDone inp nC (n * nC)
      (forLoop n (fun _ => Lattice.createRowBody inp (nC : Int))
        { pointIndex := 0, y := -inp.latticeGapY, m_pointNodeIndices := indices0,
          m_nodeStorage := storage0 }).m_pointNodeIndices
      (forLoop n (fun _ => Lattice.createRowBody inp (nC : Int))
        { pointIndex := 0, y := -inp.latticeGapY, m_pointNodeIndices := indices0,
          m_nodeStorage := storage0 }).m_nodeStorage := by
  have key := forLoop_invariant
    (fun r (st : CreateRow) =>
      st.pointIndex = r * nC ∧ st.y = Lattice.pointY inp r
      ∧ st.m_pointNodeIndices.length = nC * nR
      ∧ Lattice.PointsDone inp nC (r * nC) st.m_pointNodeIndices st.m_nodeStorage)
    (fun _ => Lattice.createRowBody inp (nC : Int))
    { pointIndex := 0, y := -inp.latticeGapY, m_pointNodeIndices := indices0,
      m_nodeStorage := storage0 } n
    ⟨by simp, by simp [Lattice.pointY], hlen,
      fun p hp => absurd hp (by simp)⟩
    (by
      intro r st hr hP
      obtain ⟨p1, p2, p3, p4⟩ := hP
      have hfit : r * nC + nC ≤ nC * nR := by
        have h1 : (r + 1) * nC ≤ nR * nC := Nat.mul_le_mul_right nC (by omega)
        have h2 : (r + 1) * nC = r * nC + nC := Nat.succ_mul r nC
        have h3 : nR * nC = nC * nR := Nat.mul_comm nR nC
        omega
      have hcol := createColLoop_spec inp nC r (nC * nR)
        { pointIndex := st.pointIndex, x := -inp.latticeGapX,
          m_pointNodeIndices := st.m_pointNodeIndices, m_nodeStorage := st.m_nodeStorage }
        p1 (by simp [Lattice.pointX]) p3 hfit p4
      have hsucc : (r + 1) * nC = r * nC + nC := Nat.succ_mul r nC
      simp only [Lattice.createRowBody, Int.toNat_ofNat, p2]
      refine ⟨?_, ?_, hcol.2.1, ?_⟩
      · rw [hsucc]; exact hcol.1
      · simp only [Lattice.pointY]; push_cast; ring
      · rw [hsucc]; exact hcol.2.2)
  exact key.2.2.2

theorem vectorResize_length (v : List Int) (n : Nat) : (vectorResize v n).length = n := by
  simp only [vectorResize, List.length_append, List.length_take, List.length_replicate]
  omega

/-- `GetNode` on a lattice whose points are all done: the node found at `(c, r)` is the one
stored for that point, and there is none when the mask query fails there. -/
theorem GetNode_of_PointsDone (inp : LatticeInput) (l : Lattice) (nC nR : Nat)
    (hC : l.m_numCols = (nC : Int)) (hR : l.m_numRows = (nR : Int))
    (hdone : Lattice.PointsDone inp nC (nR * nC) l.m_pointNodeIndices l.m_nodeStorage)
    (c r : Nat) (hc : c < nC) (hr : r < nR) :
    (Lattice.pointHasUnknown inp c r = true →
      ∃ idx, l.GetNode (c : Int) (r : Int) = some idx
        ∧ l.m_nodeStorage[idx]? = some { x := Lattice.pointX inp c, y := Lattice.pointY inp r })
    ∧ (Lattice.pointHasUnknown inp c r = false → l.GetNode (c : Int) (r : Int) = none) := by
  obtain ⟨hmod, hdiv⟩ := rowMajor_div_mod nC r c hc
  have hp : r * nC + c < nR * nC := by
    have := rowMajor_lt nC nR c r hc hr
    rw [Nat.mul_comm nR nC]; exact this
  obtain ⟨d1, d2⟩ := hdone (r * nC + c) hp
  rw [hmod, hdiv] at d1 d2
  have hrange : (0 : Int) ≤ (c : Int) ∧ (0 : Int) ≤ (r : Int) ∧ (c : Int) < (nC : Int)
      ∧ (r : Int) < (nR : Int) := by omega
  have hpi : (GetRowMajorIndex (nC : Int) (c : Int) (r : Int)).toNat = r * nC + c := by
    simp only [GetRowMajorIndex]
    have : (r : Int) * (nC : Int) + (c : Int) = ((r * nC + c : Nat) : Int) := by push_cast; ring
    rw [this, Int.toNat_ofNat]
  refine ⟨fun ht => ?_, fun hf => ?_⟩
  · obtain ⟨idx, e1, e2⟩ := d1 ht
    have hlt : idx < l.m_nodeStorage.length := by
      by_contra hge
      rw [List.getElem?_eq_none (by omega)] at e2
      cases e2
    refine ⟨idx, ?_, e2⟩
    have hin : (0 : Int) ≤ (idx : Int) ∧ (idx : Int) < (l.m_nodeStorage.length : Int) := by
      omega
    simp only [Lattice.GetNode, hC, hR, if_pos hrange, hpi, e1, if_pos hin, Int.toNat_ofNat]
  · have e1 := d2 hf
    have hin : ¬ ((0 : Int) ≤ INVALID_INDEX
        ∧ INVALID_INDEX < (l.m_nodeStorage.length : Int)) := by
      simp only [INVALID_INDEX]; omega
    simp only [Lattice.GetNode, hC, hR, if_pos hrange, hpi, e1, if_neg hin]

/-- The lattice built by `CreateUnknownRegionNodes` for positive gaps and a non-negative
image size: the numbers of columns and rows, and all points done. -/
theorem CreateUnknownRegionNodes_spec (inp : LatticeInput) (l : Lattice)
    (hgx : 0 < inp.latticeGapX) (hgy : 0 < inp.latticeGapY)
    (hW : 0 ≤ inp.imageWidth) (hH : 0 ≤ inp.imageHeight) :
    ∃ nC nR : Nat,
      (Lattice.CreateUnknownRegionNodes inp l).m_numCols = (nC : Int)
      ∧ (Lattice.CreateUnknownRegionNodes inp l).m_numRows = (nR : Int)
      ∧ (nC : Int) = (inp.imageWidth + 2 * inp.latticeGapX) / inp.latticeGapX
      ∧ (nR : Int) = (inp.imageHeight + 2 * inp.latticeGapY) / inp.latticeGapY
      ∧ Lattice.PointsDone inp nC (nR * nC)
          (Lattice.CreateUnknownRegionNodes inp l).m_pointNodeIndices
          (Lattice.CreateUnknownRegionNodes inp l).m_nodeStorage := by
  have hwe : inp.imageWidth + inp.latticeGapX - 1 - -inp.latticeGapX + 1
      = inp.imageWidth + 2 * inp.latticeGapX := by ring
  have hhe : inp.imageHeight + inp.latticeGapY - 1 - -inp.latticeGapY + 1
      = inp.imageHeight + 2 * inp.latticeGapY := by ring
  have hcdiv : (inp.imageWidth + 2 * inp.latticeGapX).tdiv inp.latticeGapX
      = (inp.imageWidth + 2 * inp.latticeGapX) / inp.latticeGapX :=
    Int.tdiv_eq_ediv (by omega) (by omega)
  have hrdiv : (inp.imageHeight + 2 * inp.latticeGapY).tdiv inp.latticeGapY
      = (inp.imageHeight + 2 * inp.latticeGapY) / inp.latticeGapY :=
    Int.tdiv_eq_ediv (by omega) (by omega)
  have hcnn : 0 ≤ (inp.imageWidth + 2 * inp.latticeGapX) / inp.latticeGapX :=
    Int.ediv_nonneg (by omega) (by omega)
  have hrnn : 0 ≤ (inp.imageHeight + 2 * inp.latticeGapY) / inp.latticeGapY :=
    Int.ediv_nonneg (by omega) (by omega)
  obtain ⟨nC, hnC⟩ := Int.eq_ofNat_of_zero_le hcnn
  obtain ⟨nR, hnR⟩ := Int.eq_ofNat_of_zero_le hrnn
  have hprod : ((nC : Int) * (nR : Int)).toNat = nC * nR := by
    have : (nC : Int) * (nR : Int) = ((nC * nR : Nat) : Int) := by push_cast; ring
    rw [this, Int.toNat_ofNat]
  have hrows := createRowLoop_spec inp nC nR
    (vectorResize l.m_pointNodeIndices (nC * nR)) l.m_nodeStorage
    (vectorResize_length _ _) nR (Nat.le_refl nR)
  refine ⟨nC, nR, ?_, ?_, hnC.symm, hnR.symm, ?_⟩
  · simp only [Lattice.CreateUnknownRegionNodes, hwe, hcdiv, hnC]
  · simp only [Lattice.CreateUnknownRegionNodes, hhe, hrdiv, hnR]
  · simp only [Lattice.CreateUnknownRegionNodes, hwe, hhe, hcdiv, hrdiv, hnC, hnR, hprod,
      Int.toNat_ofNat]
    exact hrows

theorem GetNode_in_range (l : Lattice) (col row : Int) (idx : Nat)
    (h : l.GetNode col row = some idx) :
    0 ≤ col ∧ 0 ≤ row ∧ col < l.m_numCols ∧ row < l.m_numRows := by
  by_contra hn
  simp [Lattice.GetNode, hn] at h

theorem GetNode_out_of_range (l : Lattice) (col row : Int)
    (h : ¬ (0 ≤ col ∧ 0 ≤ row ∧ col < l.m_numCols ∧ row < l.m_numRows)) :
    l.GetNode col row = none := by
  simp only [Lattice.GetNode, if_neg h]

/-- On the lattice built by `CreateUnknownRegionNodes`, `GetNode` at an in-range point
returns a node exactly when the mask query holds for the point's patch neighbourhood, and
the node returned is stored at the point's image position. -/
theorem GetNode_created (inp : LatticeInput) (l : Lattice)
    (hgx : 0 < inp.latticeGapX) (hgy : 0 < inp.latticeGapY)
    (hW : 0 ≤ inp.imageWidth) (hH : 0 ≤ inp.imageHeight) (col row : Int)
    (hc0 : 0 ≤ col) (hc1 : col < (Lattice.CreateUnknownRegionNodes inp l).m_numCols)
    (hr0 : 0 ≤ row) (hr1 : row < (Lattice.CreateUnknownRegionNodes inp l).m_numRows) :
    ((Lattice.CreateUnknownRegionNodes inp l).GetNode col row).isSome
      = inp.RegionXywhHasAnyUnknown ((col - 1) * inp.latticeGapX - inp.patchWidth.tdiv 2)
          ((row - 1) * inp.latticeGapY - inp.patchHeight.tdiv 2) inp.patchWidth
          inp.patchHeight
    ∧ ∀ idx, (Lattice.CreateUnknownRegionNodes inp l).GetNode col row = some idx →
        (Lattice.CreateUnknownRegionNodes inp l).m_nodeStorage[idx]?
          = some { x := (col - 1) * inp.latticeGapX, y := (row - 1) * inp.latticeGapY } := by
  obtain ⟨nC, nR, hC, hR, _, _, hdone⟩ := CreateUnknownRegionNodes_spec inp l hgx hgy hW hH
  rw [hC] at hc1
  rw [hR] at hr1
  obtain ⟨c, hc⟩ := Int.eq_ofNat_of_zero_le hc0
  obtain ⟨r, hr⟩ := Int.eq_ofNat_of_zero_le hr0
  subst hc
  subst hr
  have hx : Lattice.pointX inp c = ((c : Int) - 1) * inp.latticeGapX := by
    simp only [Lattice.pointX]; ring
  have hy : Lattice.pointY inp r = ((r : Int) - 1) * inp.latticeGapY := by
    simp only [Lattice.pointY]; ring
  obtain ⟨g1, g2⟩ := GetNode_of_PointsDone inp _ nC nR hC hR hdone c r (by omega) (by omega)
  have hq : Lattice.pointHasUnknown inp c r
      = inp.RegionXywhHasAnyUnknown (((c : Int) - 1) * inp.latticeGapX - inp.patchWidth.tdiv 2)
          (((r : Int) - 1) * inp.latticeGapY - inp.patchHeight.tdiv 2) inp.patchWidth
          inp.patchHeight := by
    simp only [Lattice.pointHasUnknown, hx, hy]
  rw [← hq, ← hx, ← hy]
  cases hval : Lattice.pointHasUnknown inp c r with
  | true =>
    obtain ⟨idx, e1, e2⟩ := g1 hval
    refine ⟨by rw [e1]; rfl, ?_⟩
    intro idx2 h2
    rw [e1] at h2
    cases h2
    exact e2
  | false =>
    have e1 := g2 hval
    refine ⟨by rw [e1]; rfl, ?_⟩
    intro idx2 h2
    rw [e1] at h2
    cases h2

/-- C6: for positive lattice gaps and a non-negative image size, `CreateUnknownRegionNodes`
makes `NumCols = floor((imageWidth + 2*latticeGapX) / latticeGapX)` columns and likewise
rows; for every lattice point `(col,row)` in range, with image position
`(x,y) = ((col-1)*latticeGapX, (row-1)*latticeGapY)`, `GetNode(col,row)` returns a node iff
the mask region of size `patchWidth × patchHeight` with top-left
`(x - patchWidth/2, y - patchHeight/2)` has an UNKNOWN pixel, and that node is positioned at
`(x,y)`; outside the range `GetNode` returns no node. -/
theorem CreateUnknownRegionNodes_GetNode (inp : LatticeInput) (l : Lattice)
    (hgx : 0 < inp.latticeGapX) (hgy : 0 < inp.latticeGapY)
    (hW : 0 ≤ inp.imageWidth) (hH : 0 ≤ inp.imageHeight) :
    (Lattice.CreateUnknownRegionNodes inp l).m_numCols
      = (inp.imageWidth + 2 * inp.latticeGapX) / inp.latticeGapX
    ∧ (Lattice.CreateUnknownRegionNodes inp l).m_numRows
      = (inp.imageHeight + 2 * inp.latticeGapY) / inp.latticeGapY
    ∧ (∀ col row : Int,
        0 ≤ col → col < (Lattice.CreateUnknownRegionNodes inp l).m_numCols →
        0 ≤ row → row < (Lattice.CreateUnknownRegionNodes inp l).m_numRows →
        (((Lattice.CreateUnknownRegionNodes inp l).GetNode col row).isSome = true
          ↔ inp.RegionXywhHasAnyUnknown
              ((col - 1) * inp.latticeGapX - inp.patchWidth.tdiv 2)
              ((row - 1) * inp.latticeGapY - inp.patchHeight.tdiv 2) inp.patchWidth
              inp.patchHeight = true)
        ∧ ∀ idx, (Lattice.CreateUnknownRegionNodes inp l).GetNode col row = some idx →
            (Lattice.CreateUnknownRegionNodes inp l).m_nodeStorage[idx]?
              = some { x := (col - 1) * inp.latticeGapX, y := (row - 1) * inp.latticeGapY })
    ∧ (∀ col row : Int,
        ¬ (0 ≤ col ∧ col < (Lattice.CreateUnknownRegionNodes inp l).m_numCols
            ∧ 0 ≤ row ∧ row < (Lattice.CreateUnknownRegionNodes inp l).m_numRows) →
        (Lattice.CreateUnknownRegionNodes inp l).GetNode col row = none) := by
  obtain ⟨nC, nR, hC, hR, hCv, hRv, _⟩ := CreateUnknownRegionNodes_spec inp l hgx hgy hW hH
  refine ⟨by rw [hC, hCv], by rw [hR, hRv], ?_, ?_⟩
  · intro col row hc0 hc1 hr0 hr1
    obtain ⟨g1, g2⟩ := GetNode_created inp l hgx hgy hW hH col row hc0 hc1 hr0 hr1
    exact ⟨by rw [g1], g2⟩
  · intro col row hout
    apply GetNode_out_of_range
    intro hin
    exact hout ⟨hin.1, hin.2.2.1, hin.2.1, hin.2.2.2⟩

/-- C6 at the sample input (4 × 4 image, UNKNOWN pixel `(1,1)`, 3 × 3 patches, gaps 2) on
an empty lattice. -/
theorem CreateUnknownRegionNodes_GetNode_witness :
    (Lattice.CreateUnknownRegionNodes sampleLatticeInput sampleEmptyLattice).m_numCols = 4
    ∧ (Lattice.CreateUnknownRegionNodes sampleLatticeInput sampleEmptyLattice).GetNode 1 1
        = some 0
    ∧ (Lattice.CreateUnknownRegionNodes sampleLatticeInput sampleEmptyLattice).m_nodeStorage[0]?
        = some { x := 0, y := 0 } := by
  have h := CreateUnknownRegionNodes_GetNode sampleLatticeInput sampleEmptyLattice
    (by decide) (by decide) (by decide) (by decide)
  have hget : (Lattice.CreateUnknownRegionNodes sampleLatticeInput sampleEmptyLattice).GetNode
      1 1 = some 0 := by decide
  refine ⟨by rw [h.1]; decide, hget, ?_⟩
  have hpos := (h.2.2.1 1 1 (by decide) (by decide) (by decide) (by decide)).2 0 hget
  rw [hpos]
  decide

/-! ### ConnectNeighboringNodes -/

theorem collect_succ {α : Type} (n : Nat) (f : Nat → List α) :
    collect (n + 1) f = collect n f ++ f n := rfl

/-- A loop whose iteration `i` appends `f i` appends `collect n f` in all. -/
theorem forLoop_eq_append_collect {α : Type} (body : Nat → List α → List α)
    (f : Nat → List α) (hb : ∀ i acc, body i acc = acc ++ f i) (n : Nat) (init : List α) :
    forLoop n body init = init ++ collect n f := by
  induction n with
  | zero => simp [forLoop, collect]
  | succ k ih =>
    show body k (forLoop k body init) = _
    rw [hb, ih, collect_succ, List.append_assoc]

theorem mem_collect {α : Type} (n : Nat) (f : Nat → List α) (x : α) :
    x ∈ collect n f ↔ ∃ i, i < n ∧ x ∈ f i := by
  induction n with
  | zero => simp [collect, forLoop]
  | succ k ih =>
    rw [collect_succ, List.mem_append, ih]
    constructor
    · rintro (⟨i, hi, hx⟩ | hx)
      · exact ⟨i, by omega, hx⟩
      · exact ⟨k, by omega, hx⟩
    · rintro ⟨i, hi, hx⟩
      by_cases hik : i = k
      · subst hik; exact Or.inr hx
      · exact Or.inl ⟨i, by omega, hx⟩

/-- If at most one iteration appends elements satisfying `p`, and it appends at most one,
the collected list has at most one. -/
theorem countP_collect_le_one {α : Type} (p : α → Bool) (f : Nat → List α) (n : Nat)
    (h1 : ∀ i, i < n → (f i).countP p ≤ 1)
    (h2 : ∀ i j x y, i < n → j < n → x ∈ f i → y ∈ f j → p x = true → p y = true → i = j) :
    (collect n f).countP p ≤ 1 := by
  induction n with
  | zero => simp [collect, forLoop]
  | succ k ih =>
    rw [collect_succ, List.countP_append]
    have ihk := ih (fun i hi => h1 i (by omega))
      (fun i j x y hi hj => h2 i j x y (by omega) (by omega))
    by_cases hex : ∃ y, y ∈ f k ∧ p y = true
    · obtain ⟨y, hy, hpy⟩ := hex
      have hzero : (collect k f).countP p = 0 := by
        rw [List.countP_eq_zero]
        intro x hx hpx
        obtain ⟨i, hi, hxi⟩ := (mem_collect k f x).mp hx
        have := h2 i k x y (by omega) (by omega) hxi hy hpx hpy
        omega
      have := h1 k (by omega)
      omega
    · have hzero : (f k).countP p = 0 := by
        rw [List.countP_eq_zero]
        intro y hy hpy
        exact hex ⟨y, hy, hpy⟩
      omega

theorem connectEdgeBody_eq (l : Lattice) (col row : Int) (node edgeIdx : Nat)
    (calls : List AddNeighborCall) :
    Lattice.connectEdgeBody l col row node edgeIdx calls
      = calls ++ Lattice.edgeCalls l col row node edgeIdx := by
  simp only [Lattice.edgeCalls, Lattice.connectEdgeBody]
  cases l.GetNode (col + (GetNeighborEdgeDirection (NeighborEdge.ofIdx edgeIdx)).1)
    (row + (GetNeighborEdgeDirection (NeighborEdge.ofIdx edgeIdx)).2) <;> simp

theorem connectColBody_eq (l : Lattice) (row col : Nat) (calls : List AddNeighborCall) :
    Lattice.connectColBody l row col calls = calls ++ Lattice.colCalls l row col := by
  simp only [Lattice.colCalls, Lattice.connectColBody]
  cases l.GetNode (col : Int) (row : Int) with
  | none => simp
  | some node =>
    simp only
    rw [forLoop_eq_append_collect _ _ (connectEdgeBody_eq l col row node) 4 calls,
      forLoop_eq_append_collect _ _ (connectEdgeBody_eq l col row node) 4 []]
    simp

/-- The calls of `ConnectNeighboringNodes`, row by row and column by column. -/
theorem ConnectNeighboringNodes_eq (l : Lattice) :
    l.ConnectNeighboringNodes
      = collect l.m_numRows.toNat
          (fun row => collect l.m_numCols.toNat (Lattice.colCalls l row)) := by
  simp only [Lattice.ConnectNeighboringNodes]
  rw [forLoop_eq_append_collect _
    (fun row => collect l.m_numCols.toNat (Lattice.colCalls l row))
    (fun row calls => forLoop_eq_append_collect _ _ (connectColBody_eq l row) _ calls)]
  simp

theorem mem_edgeCalls (l : Lattice) (col row : Int) (node edgeIdx : Nat)
    (c : AddNeighborCall) :
    c ∈ Lattice.edgeCalls l col row node edgeIdx
      ↔ ∃ nb, l.GetNode (col + (GetNeighborEdgeDirection (NeighborEdge.ofIdx edgeIdx)).1)
            (row + (GetNeighborEdgeDirection (NeighborEdge.ofIdx edgeIdx)).2) = some nb
          ∧ c = { node := node, neighbor := nb, edge := NeighborEdge.ofIdx edgeIdx } := by
  simp only [Lattice.edgeCalls, Lattice.connectEdgeBody]
  cases l.GetNode (col + (GetNeighborEdgeDirection (NeighborEdge.ofIdx edgeIdx)).1)
    (row + (GetNeighborEdgeDirection (NeighborEdge.ofIdx edgeIdx)).2) <;> simp

theorem mem_colCalls (l : Lattice) (row col : Nat) (c : AddNeighborCall) :
    c ∈ Lattice.colCalls l row col
      ↔ ∃ node, l.GetNode (col : Int) (row : Int) = some node
          ∧ ∃ k, k < 4 ∧ c ∈ Lattice.edgeCalls l col row node k := by
  simp only [Lattice.colCalls, Lattice.connectColBody]
  cases l.GetNode (col : Int) (row : Int) with
  | none => simp
  | some node =>
    simp only
    rw [forLoop_eq_append_collect _ _ (connectEdgeBody_eq l col row node) 4 [],
      List.nil_append, mem_collect]
    simp

/-- A call is made by `ConnectNeighboringNodes` exactly when its node is the node of some
lattice point, its edge is one of the four edges and its neighbour is the node of the point
one step along that edge. -/
theorem mem_ConnectNeighboringNodes (l : Lattice) (c : AddNeighborCall) :
    c ∈ l.ConnectNeighboringNodes
      ↔ ∃ (col row : Int) (k : Nat), k < 4 ∧ c.edge = NeighborEdge.ofIdx k
          ∧ l.GetNode col row = some c.node
          ∧ l.GetNode (col + (GetNeighborEdgeDirection (NeighborEdge.ofIdx k)).1)
              (row + (GetNeighborEdgeDirection (NeighborEdge.ofIdx k)).2)
            = some c.neighbor := by
  rw [ConnectNeighboringNodes_eq, mem_collect]
  constructor
  · rintro ⟨row, _, hrow⟩
    obtain ⟨col, _, hcol⟩ := (mem_collect _ _ _).mp hrow
    obtain ⟨node, hnode, k, hk, hedge⟩ := (mem_colCalls l row col c).mp hcol
    obtain ⟨nb, hnb, hc⟩ := (mem_edgeCalls l col row node k c).mp hedge
    subst hc
    exact ⟨col, row, k, hk, rfl, hnode, hnb⟩
  · rintro ⟨col, row, k, hk, hedge, hnode, hnb⟩
    obtain ⟨hc0, hr0, hc1, hr1⟩ := GetNode_in_range l col row c.node hnode
    obtain ⟨cn, hcn⟩ := Int.eq_ofNat_of_zero_le hc0
    obtain ⟨rn, hrn⟩ := Int.eq_ofNat_of_zero_le hr0
    subst hcn
    subst hrn
    refine ⟨rn, by omega, (mem_collect _ _ _).mpr ⟨cn, by omega, ?_⟩⟩
    refine (mem_colCalls l rn cn c).mpr ⟨c.node, hnode, k, hk, ?_⟩
    refine (mem_edgeCalls l cn rn c.node k c).mpr ⟨c.neighbor, hnb, ?_⟩
    cases c
    simp only at hedge
    simp [hedge]

/-- On the lattice built by `CreateUnknownRegionNodes` a node belongs to one lattice point
only. -/
theorem GetNode_injective (inp : LatticeInput) (l : Lattice)
    (hgx : 0 < inp.latticeGapX) (hgy : 0 < inp.latticeGapY)
    (hW : 0 ≤ inp.imageWidth) (hH : 0 ≤ inp.imageHeight) (col row col2 row2 : Int)
    (idx : Nat)
    (h1 : (Lattice.CreateUnknownRegionNodes inp l).GetNode col row = some idx)
    (h2 : (Lattice.CreateUnknownRegionNodes inp l).GetNode col2 row2 = some idx) :
    col = col2 ∧ row = row2 := by
  obtain ⟨a0, b0, a1, b1⟩ := GetNode_in_range _ col row idx h1
  obtain ⟨c0, d0, c1, d1⟩ := GetNode_in_range _ col2 row2 idx h2
  have p1 := (GetNode_created inp l hgx hgy hW hH col row a0 a1 b0 b1).2 idx h1
  have p2 := (GetNode_created inp l hgx hgy hW hH col2 row2 c0 c1 d0 d1).2 idx h2
  rw [p1] at p2
  have hnode := Option.some.inj p2
  have hx : (col - 1) * inp.latticeGapX = (col2 - 1) * inp.latticeGapX :=
    congrArg Node.x hnode
  have hy : (row - 1) * inp.latticeGapY = (row2 - 1) * inp.latticeGapY :=
    congrArg Node.y hnode
  have ex := Int.eq_of_mul_eq_mul_right (ne_of_gt hgx) hx
  have ey := Int.eq_of_mul_eq_mul_right (ne_of_gt hgy) hy
  exact ⟨by omega, by omega⟩

theorem ofIdx_injective (i j : Nat) (hi : i < 4) (hj : j < 4)
    (h : NeighborEdge.ofIdx i = NeighborEdge.ofIdx j) : i = j := by
  interval_cases i <;> interval_cases j <;> simp [NeighborEdge.ofIdx] at h <;> rfl

theorem ofIdx_of_valid (e : NeighborEdge) (he : e ≠ NeighborEdge.InvalidNeighborEdge) :
    ∃ k, k < 4 ∧ e = NeighborEdge.ofIdx k := by
  cases e with
  | InvalidNeighborEdge => exact absurd rfl he
  | NeighborEdgeLeft => exact ⟨0, by omega, rfl⟩
  | NeighborEdgeTop => exact ⟨1, by omega, rfl⟩
  | NeighborEdgeRight => exact ⟨2, by omega, rfl⟩
  | NeighborEdgeBottom => exact ⟨3, by omega, rfl⟩

theorem edgeCalls_length_le (l : Lattice) (col row : Int) (node k : Nat) :
    (Lattice.edgeCalls l col row node k).length ≤ 1 := by
  simp only [Lattice.edgeCalls, Lattice.connectEdgeBody]
  cases l.GetNode (col + (GetNeighborEdgeDirection (NeighborEdge.ofIdx k)).1)
    (row + (GetNeighborEdgeDirection (NeighborEdge.ofIdx k)).2) <;> simp

theorem colCalls_eq_collect (l : Lattice) (row col node : Nat)
    (h : l.GetNode (col : Int) (row : Int) = some node) :
    Lattice.colCalls l row col = collect 4 (Lattice.edgeCalls l col row node) := by
  simp only [Lattice.colCalls, Lattice.connectColBody, h]
  rw [forLoop_eq_append_collect _ _ (connectEdgeBody_eq l col row node) 4 [], List.nil_append]

theorem colCalls_node (l : Lattice) (row col : Nat) (c : AddNeighborCall)
    (h : c ∈ Lattice.colCalls l row col) : l.GetNode (col : Int) (row : Int) = some c.node := by
  obtain ⟨node, hnode, k, _, hedge⟩ := (mem_colCalls l row col c).mp h
  obtain ⟨nb, _, hc⟩ := (mem_edgeCalls l col row node k c).mp hedge
  subst hc
  exact hnode

/-- On the lattice built by `CreateUnknownRegionNodes`, `AddNeighbor` is called at most once
for a node and an edge. -/
theorem ConnectNeighboringNodes_countP_le_one (inp : LatticeInput) (l : Lattice)
    (hgx : 0 < inp.latticeGapX) (hgy : 0 < inp.latticeGapY)
    (hW : 0 ≤ inp.imageWidth) (hH : 0 ≤ inp.imageHeight) (A : Nat) (e : NeighborEdge) :
    (Lattice.CreateUnknownRegionNodes inp l).ConnectNeighboringNodes.countP
      (fun c => decide (c.node = A ∧ c.edge = e)) ≤ 1 := by
  rw [ConnectNeighboringNodes_eq]
  have hcol : ∀ row col : Nat,
      (Lattice.colCalls (Lattice.CreateUnknownRegionNodes inp l) row col).countP
        (fun c => decide (c.node = A ∧ c.edge = e)) ≤ 1 := by
    intro row col
    cases hnode : (Lattice.CreateUnknownRegionNodes inp l).GetNode (col : Int) (row : Int) with
    | none => simp [Lattice.colCalls, Lattice.connectColBody, hnode]
    | some node =>
      rw [colCalls_eq_collect _ row col node hnode]
      apply countP_collect_le_one
      · intro k _
        exact Nat.le_trans (List.countP_le_length _) (edgeCalls_length_le _ _ _ _ _)
      · intro i j x y hi hj hx hy hpx hpy
        obtain ⟨_, _, hxe⟩ := (mem_edgeCalls _ _ _ _ _ _).mp hx
        obtain ⟨_, _, hye⟩ := (mem_edgeCalls _ _ _ _ _ _).mp hy
        subst hxe
        subst hye
        simp only [decide_eq_true_eq] at hpx hpy
        exact ofIdx_injective i j hi hj (by rw [hpx.2, hpy.2])
  apply countP_collect_le_one
  · intro row _
    apply countP_collect_le_one
    · intro col _
      exact hcol row col
    · intro i j x y _ _ hx hy hpx hpy
      have nx := colCalls_node _ row i x hx
      have ny := colCalls_node _ row j y hy
      simp only [decide_eq_true_eq] at hpx hpy
      rw [hpx.1] at nx
      rw [hpy.1] at ny
      have := (GetNode_injective inp l hgx hgy hW hH _ _ _ _ A nx ny).1
      omega
  · intro i j x y _ _ hx hy hpx hpy
    obtain ⟨ci, _, hxi⟩ := (mem_collect _ _ _).mp hx
    obtain ⟨cj, _, hyj⟩ := (mem_collect _ _ _).mp hy
    have nx := colCalls_node _ i ci x hxi
    have ny := colCalls_node _ j cj y hyj
    simp only [decide_eq_true_eq] at hpx hpy
    rw [hpx.1] at nx
    rw [hpy.1] at ny
    have := (GetNode_injective inp l hgx hgy hW hH _ _ _ _ A nx ny).2
    omega

/-- C7: on the lattice built by `CreateUnknownRegionNodes` (positive gaps, non-negative
image size), with the edge directions `Left=(-1,0)`, `Top=(0,-1)`, `Right=(+1,0)`,
`Bottom=(0,+1)`: a node `A` at lattice point `(col,row)` receives neighbour `B` on edge `e`
exactly when `B` is the node at `(col+dx(e), row+dy(e))`; `AddNeighbor` is called at most once
for a node and an edge; the links are symmetric (`A` gets `B` on Left iff `B` gets `A` on
Right, `A` gets `B` on Top iff `B` gets `A` on Bottom); and no node is linked to itself. -/
theorem ConnectNeighboringNodes_links (inp : LatticeInput) (l : Lattice)
    (hgx : 0 < inp.latticeGapX) (hgy : 0 < inp.latticeGapY)
    (hW : 0 ≤ inp.imageWidth) (hH : 0 ≤ inp.imageHeight) :
    (∀ (col row : Int) (A : Nat),
        (Lattice.CreateUnknownRegionNodes inp l).GetNode col row = some A →
        ∀ e : NeighborEdge, e ≠ NeighborEdge.InvalidNeighborEdge → ∀ B : Nat,
          ({ node := A, neighbor := B, edge := e } : AddNeighborCall)
              ∈ (Lattice.CreateUnknownRegionNodes inp l).ConnectNeighboringNodes
            ↔ (Lattice.CreateUnknownRegionNodes inp l).GetNode
                (col + (GetNeighborEdgeDirection e).1) (row + (GetNeighborEdgeDirection e).2)
              = some B)
    ∧ (∀ (A : Nat) (e : NeighborEdge),
        (Lattice.CreateUnknownRegionNodes inp l).ConnectNeighboringNodes.countP
          (fun c => decide (c.node = A ∧ c.edge = e)) ≤ 1)
    ∧ (∀ A B : Nat,
        ({ node := A, neighbor := B, edge := NeighborEdge.NeighborEdgeLeft } : AddNeighborCall)
            ∈ (Lattice.CreateUnknownRegionNodes inp l).ConnectNeighboringNodes
          ↔ ({ node := B, neighbor := A, edge := NeighborEdge.NeighborEdgeRight }
              : AddNeighborCall)
            ∈ (Lattice.CreateUnknownRegionNodes inp l).ConnectNeighboringNodes)
    ∧ (∀ A B : Nat,
        ({ node := A, neighbor := B, edge := NeighborEdge.NeighborEdgeTop } : AddNeighborCall)
            ∈ (Lattice.CreateUnknownRegionNodes inp l).ConnectNeighboringNodes
          ↔ ({ node := B, neighbor := A, edge := NeighborEdge.NeighborEdgeBottom }
              : AddNeighborCall)
            ∈ (Lattice.CreateUnknownRegionNodes inp l).ConnectNeighboringNodes)
    ∧ (∀ c : AddNeighborCall,
        c ∈ (Lattice.CreateUnknownRegionNodes inp l).ConnectNeighboringNodes →
          c.node ≠ c.neighbor ∧ c.edge ≠ NeighborEdge.InvalidNeighborEdge) := by
  have hinj := GetNode_injective inp l hgx hgy hW hH
  refine ⟨?_, ConnectNeighboringNodes_countP_le_one inp l hgx hgy hW hH, ?_, ?_, ?_⟩
  · intro col row A hA e he B
    obtain ⟨k, hk, hek⟩ := ofIdx_of_valid e he
    rw [mem_ConnectNeighboringNodes]
    constructor
    · rintro ⟨col2, row2, k2, hk2, hedge, hnode, hnb⟩
      simp only at hedge hnode hnb
      obtain ⟨e1, e2⟩ := hinj col row col2 row2 A hA hnode
      rw [e1, e2, hedge]
      exact hnb
    · intro hB
      refine ⟨col, row, k, hk, hek, hA, ?_⟩
      rw [← hek]
      exact hB
  · intro A B
    rw [mem_ConnectNeighboringNodes, mem_ConnectNeighboringNodes]
    constructor
    · rintro ⟨col, row, k, hk, hedge, hnode, hnb⟩
      simp only at hedge hnode hnb
      have hk0 : k = 0 := ofIdx_injective k 0 hk (by omega) hedge.symm
      subst hk0
      simp only [NeighborEdge.ofIdx, GetNeighborEdgeDirection] at hnb
      refine ⟨col + -1, row + 0, 2, by omega, rfl, hnb, ?_⟩
      simp only [NeighborEdge.ofIdx, GetNeighborEdgeDirection]
      have e1 : col + -1 + 1 = col := by omega
      have e2 : row + 0 + 0 = row := by omega
      rw [e1, e2]
      exact hnode
    · rintro ⟨col, row, k, hk, hedge, hnode, hnb⟩
      simp only at hedge hnode hnb
      have hk2 : k = 2 := ofIdx_injective k 2 hk (by omega) hedge.symm
      subst hk2
      simp only [NeighborEdge.ofIdx, GetNeighborEdgeDirection] at hnb
      refine ⟨col + 1, row + 0, 0, by omega, rfl, hnb, ?_⟩
      simp only [NeighborEdge.ofIdx, GetNeighborEdgeDirection]
      have e1 : col + 1 + -1 = col := by omega
      have e2 : row + 0 + 0 = row := by omega
      rw [e1, e2]
      exact hnode
  · intro A B
    rw [mem_ConnectNeighboringNodes, mem_ConnectNeighboringNodes]
    constructor
    · rintro ⟨col, row, k, hk, hedge, hnode, hnb⟩
      simp only at hedge hnode hnb
      have hk1 : k = 1 := ofIdx_injective k 1 hk (by omega) hedge.symm
      subst hk1
      simp only [NeighborEdge.ofIdx, GetNeighborEdgeDirection] at hnb
      refine ⟨col + 0, row + -1, 3, by omega, rfl, hnb, ?_⟩
      simp only [NeighborEdge.ofIdx, GetNeighborEdgeDirection]
      have e1 : col + 0 + 0 = col := by omega
      have e2 : row + -1 + 1 = row := by omega
      rw [e1, e2]
      exact hnode
    · rintro ⟨col, row, k, hk, hedge, hnode, hnb⟩
      simp only at hedge hnode hnb
      have hk3 : k = 3 := ofIdx_injective k 3 hk (by omega) hedge.symm
      subst hk3
      simp only [NeighborEdge.ofIdx, GetNeighborEdgeDirection] at hnb
      refine ⟨col + 0, row + 1, 1, by omega, rfl, hnb, ?_⟩
      simp only [NeighborEdge.ofIdx, GetNeighborEdgeDirection]
      have e1 : col + 0 + 0 = col := by omega
      have e2 : row + 1 + -1 = row := by omega
      rw [e1, e2]
      exact hnode
  · intro c hc
    obtain ⟨col, row, k, hk, hedge, hnode, hnb⟩ := (mem_ConnectNeighboringNodes _ c).mp hc
    refine ⟨?_, ?_⟩
    · intro hself
      rw [← hself] at hnb
      obtain ⟨e1, e2⟩ := hinj _ _ _ _ c.node hnode hnb
      interval_cases k <;>
        simp only [NeighborEdge.ofIdx, GetNeighborEdgeDirection] at e1 e2 <;> omega
    · rw [hedge]
      interval_cases k <;> simp [NeighborEdge.ofIdx]

/-- C7 at the sample lattice (nodes 0..3 at lattice points `(1,1)`, `(2,1)`, `(1,2)`,
`(2,2)`): node 0 gets on its Right edge exactly the node at `(2,1)`, and no call links a
node to itself. -/
theorem ConnectNeighboringNodes_links_witness :
    (∀ B : Nat,
      ({ node := 0, neighbor := B, edge := NeighborEdge.NeighborEdgeRight } : AddNeighborCall)
          ∈ (Lattice.CreateUnknownRegionNodes sampleLatticeInput
              sampleEmptyLattice).ConnectNeighboringNodes
        ↔ (Lattice.CreateUnknownRegionNodes sampleLatticeInput sampleEmptyLattice).GetNode
            (1 + (GetNeighborEdgeDirection NeighborEdge.NeighborEdgeRight).1)
            (1 + (GetNeighborEdgeDirection NeighborEdge.NeighborEdgeRight).2) = some B)
    ∧ (∀ c : AddNeighborCall,
        c ∈ (Lattice.CreateUnknownRegionNodes sampleLatticeInput
              sampleEmptyLattice).ConnectNeighboringNodes →
          c.node ≠ c.neighbor ∧ c.edge ≠ NeighborEdge.InvalidNeighborEdge) :=
  ⟨fun B => (ConnectNeighboringNodes_links sampleLatticeInput sampleEmptyLattice (by decide)
      (by decide) (by decide) (by decide)).1 1 1 0 (by decide)
      NeighborEdge.NeighborEdgeRight (by decide) B,
    (ConnectNeighboringNodes_links sampleLatticeInput sampleEmptyLattice (by decide)
      (by decide) (by decide) (by decide)).2.2.2.2⟩

end PriorityBp

namespace PriorityBp

open LfnIc

/-! ### NodeSet construction and metadata -/

/-- The loop of `GetPriority` after `n` iterations. -/
theorem getPriority_loop {P : Type} (s : NodeSet P) (node : Nat) (p0 : P) (n : Nat) :
    forLoop n (NodeSet.getPriorityBody s node) (p0, false)
      = if node < n then
          match s.m_nodeSetInfo[node]? with
          | some info => (info.priority, true)
          | none => (p0, true)
        else (p0, false) := by
  induction n with
  | zero => simp [forLoop]
  | succ k ih =>
    show NodeSet.getPriorityBody s node k
      (forLoop k (NodeSet.getPriorityBody s node) (p0, false)) = _
    rw [ih]
    by_cases hlt : node < k
    · have hlt2 : node < k + 1 := by omega
      rw [if_pos hlt, if_pos hlt2]
      cases hinfo : s.m_nodeSetInfo[node]? <;> simp [NodeSet.getPriorityBody]
    · rw [if_neg hlt]
      by_cases heq : k = node
      · subst heq
        have hlt2 : k < k + 1 := by omega
        rw [if_pos hlt2]
        cases hinfo : s.m_nodeSetInfo[k]? <;> simp [NodeSet.getPriorityBody, hinfo]
      · have hlt2 : ¬ node < k + 1 := by omega
        rw [if_neg hlt2]
        simp [NodeSet.getPriorityBody, heq]

/-- The loop of `UpdatePriority` after `n` iterations. -/
theorem updatePriority_loop {P : Type} (infos : List (NodeInfo P)) (node : Nat)
    (calcPriority : Nat → P) (n : Nat) :
    forLoop n (NodeSet.updatePriorityBody node calcPriority) (infos, false)
      = if node < n then
          match infos[node]? with
          | some info =>
            (infos.set node { priority := calcPriority node, isCommitted := info.isCommitted }, true)
          | none => (infos, true)
        else (infos, false) := by
  induction n with
  | zero => simp [forLoop]
  | succ k ih =>
    show NodeSet.updatePriorityBody node calcPriority k
      (forLoop k (NodeSet.updatePriorityBody node calcPriority) (infos, false)) = _
    rw [ih]
    by_cases hlt : node < k
    · have hlt2 : node < k + 1 := by omega
      rw [if_pos hlt, if_pos hlt2]
      cases hinfo : infos[node]? <;> simp [NodeSet.updatePriorityBody]
    · rw [if_neg hlt]
      by_cases heq : k = node
      · subst heq
        have hlt2 : k < k + 1 := by omega
        rw [if_pos hlt2]
        cases hinfo : infos[k]? <;> simp [NodeSet.updatePriorityBody, hinfo]
      · have hlt2 : ¬ node < k + 1 := by omega
        rw [if_neg hlt2]
        simp [NodeSet.updatePriorityBody, heq]

/-- Value of `IsCommitted`: the stored flag of a node of the set, `false` otherwise. -/
theorem IsCommitted_val {P : Type} (s : NodeSet P) (node : Nat) :
    s.IsCommitted node
      = if node < s.size then
          ((s.m_nodeSetInfo[node]?).map (fun info => info.isCommitted)).getD false
        else false := by
  simp only [NodeSet.IsCommitted, isCommitted_loop]
  by_cases h : node < s.size <;> simp [h]

/-- Value of `GetPriority`: the stored priority of a node of the set, `PRIORITY_MIN`
otherwise. -/
theorem GetPriority_val {P : Type} (PRIORITY_MIN : P) (s : NodeSet P) (node : Nat) :
    s.GetPriority PRIORITY_MIN node
      = if node < s.size then
          ((s.m_nodeSetInfo[node]?).map (fun info => info.priority)).getD PRIORITY_MIN
        else PRIORITY_MIN := by
  simp only [NodeSet.GetPriority, getPriority_loop]
  by_cases h : node < s.size
  · simp only [if_pos h]
    cases s.m_nodeSetInfo[node]? <;> simp
  · simp [h]

theorem UpdatePriority_eq {P : Type} (s : NodeSet P) (node : Nat) (calcPriority : Nat → P)
    (info : NodeInfo P) (hlt : node < s.size) (hinfo : s.m_nodeSetInfo[node]? = some info) :
    s.UpdatePriority node calcPriority
      = { nodes := s.nodes
          m_nodeSetInfo := s.m_nodeSetInfo.set node
            { priority := calcPriority node, isCommitted := info.isCommitted }
          m_depth := s.m_depth } := by
  simp [NodeSet.UpdatePriority, updatePriority_loop, hlt, hinfo]

theorem SetCommitted_outside {P : Type} (s : NodeSet P) (node : Nat) (c : Bool)
    (h : s.size ≤ node) : s.SetCommitted node c = s := by
  have hn : ¬ node < s.size := by omega
  simp [NodeSet.SetCommitted, setCommitted_loop, hn]

theorem UpdatePriority_outside {P : Type} (s : NodeSet P) (node : Nat) (calcPriority : Nat → P)
    (h : s.size ≤ node) : s.UpdatePriority node calcPriority = s := by
  have hn : ¬ node < s.size := by omega
  simp [NodeSet.UpdatePriority, updatePriority_loop, hn]

theorem info_of_wellFormed {P : Type} (s : NodeSet P) (hwf : s.WellFormed) (node : Nat)
    (hlt : node < s.size) : ∃ info, s.m_nodeSetInfo[node]? = some info := by
  have hlen : node < s.m_nodeSetInfo.length := by
    rw [hwf]; exact hlt
  exact ⟨s.m_nodeSetInfo[node], List.getElem?_eq_getElem hlen⟩

end PriorityBp

namespace PriorityBp

open LfnIc

theorem resizeInfo_nil {P : Type} (PRIORITY_MIN : P) (n : Nat) :
    NodeSet.resizeInfo PRIORITY_MIN [] n = List.replicate n (NodeInfo.create PRIORITY_MIN) := by
  simp [NodeSet.resizeInfo]

/-- C11: a freshly constructed `NodeSet` has exactly one metadata entry per node, every
entry is the one `NodeInfo()` builds, so that for every node `N` of the set
`IsCommitted(N) = false` and `GetPriority(N) = PRIORITY_MIN`, and the scale depth is 0. -/
theorem NodeSet_create_fresh {P : Type} (PRIORITY_MIN : P) (inp : LatticeInput) :
    (NodeSet.create PRIORITY_MIN inp).m_nodeSetInfo.length
      = (NodeSet.create PRIORITY_MIN inp).size
    ∧ (∀ N, N < (NodeSet.create PRIORITY_MIN inp).size →
        (NodeSet.create PRIORITY_MIN inp).m_nodeSetInfo[N]?
          = some { priority := PRIORITY_MIN, isCommitted := false }
        ∧ (NodeSet.create PRIORITY_MIN inp).IsCommitted N = false
        ∧ (NodeSet.create PRIORITY_MIN inp).GetPriority PRIORITY_MIN N = PRIORITY_MIN)
    ∧ (NodeSet.create PRIORITY_MIN inp).GetScaleDepth = 0 := by
  have hinfo : (NodeSet.create PRIORITY_MIN inp).m_nodeSetInfo
      = List.replicate (NodeSet.create PRIORITY_MIN inp).size
          (NodeInfo.create PRIORITY_MIN) := by
    simp only [NodeSet.create, NodeSet.size, resizeInfo_nil]
  refine ⟨by rw [hinfo, List.length_replicate], ?_, rfl⟩
  intro N hN
  have hget : (NodeSet.create PRIORITY_MIN inp).m_nodeSetInfo[N]?
      = some { priority := PRIORITY_MIN, isCommitted := false } := by
    rw [hinfo, List.getElem?_replicate, if_pos hN]
    rfl
  refine ⟨hget, ?_, ?_⟩
  · rw [IsCommitted_val, if_pos hN, hget]
    rfl
  · rw [GetPriority_val, if_pos hN, hget]
    rfl

/-- C11 at the sample lattice input, with `PRIORITY_MIN = 0`: the node set has four nodes
and node 0 is uncommitted with priority 0. -/
theorem NodeSet_create_fresh_witness :
    (NodeSet.create (0 : Int) sampleLatticeInput).size = 4
    ∧ (NodeSet.create (0 : Int) sampleLatticeInput).IsCommitted 0 = false
    ∧ (NodeSet.create (0 : Int) sampleLatticeInput).GetPriority 0 0 = 0 := by
  have hsize : (NodeSet.create (0 : Int) sampleLatticeInput).size = 4 := by decide
  have h := (NodeSet_create_fresh (0 : Int) sampleLatticeInput).2.1 0 (by rw [hsize]; decide)
  exact ⟨hsize, h.2.1, h.2.2⟩

/-- C20: in a well-formed node set, for a node `N` of the set, `SetCommitted(N,c)` makes
`IsCommitted(N) = c` and leaves the committed flag of every other node and the priority of
every node as they were; `UpdatePriority(N)` makes the stored priority of `N` the value of
`N.CalculatePriority()` and leaves every other priority and every committed flag as they
were; for a node outside the set, `SetCommitted` and `UpdatePriority` change nothing,
`IsCommitted` is `false` and `GetPriority` is `PRIORITY_MIN`. -/
theorem NodeSet_metadata_isolated {P : Type} (PRIORITY_MIN : P) (s : NodeSet P)
    (hwf : s.WellFormed) :
    (∀ (N : Nat) (c : Bool), N < s.size →
      (s.SetCommitted N c).IsCommitted N = c
      ∧ (∀ M, M ≠ N → (s.SetCommitted N c).IsCommitted M = s.IsCommitted M)
      ∧ (∀ M, (s.SetCommitted N c).GetPriority PRIORITY_MIN M
            = s.GetPriority PRIORITY_MIN M))
    ∧ (∀ (N : Nat) (calcPriority : Nat → P), N < s.size →
      (s.UpdatePriority N calcPriority).GetPriority PRIORITY_MIN N = calcPriority N
      ∧ (∀ M, M ≠ N → (s.UpdatePriority N calcPriority).GetPriority PRIORITY_MIN M
            = s.GetPriority PRIORITY_MIN M)
      ∧ (∀ M, (s.UpdatePriority N calcPriority).IsCommitted M = s.IsCommitted M))
    ∧ (∀ (N : Nat) (c : Bool) (calcPriority : Nat → P), s.size ≤ N →
      s.SetCommitted N c = s ∧ s.UpdatePriority N calcPriority = s
      ∧ s.IsCommitted N = false ∧ s.GetPriority PRIORITY_MIN N = PRIORITY_MIN) := by
  refine ⟨?_, ?_, ?_⟩
  · intro N c hN
    obtain ⟨info, hinfo⟩ := info_of_wellFormed s hwf N hN
    have hlen : N < s.m_nodeSetInfo.length := by rw [hwf]; exact hN
    rw [SetCommitted_eq s N c info hN hinfo]
    refine ⟨?_, ?_, ?_⟩
    · rw [IsCommitted_val]
      simp only [NodeSet.size] at hN ⊢
      rw [if_pos hN, List.getElem?_set_self hlen]
      rfl
    · intro M hM
      rw [IsCommitted_val, IsCommitted_val]
      simp only [NodeSet.size]
      rw [List.getElem?_set_ne (fun h => hM h.symm)]
    · intro M
      rw [GetPriority_val, GetPriority_val]
      simp only [NodeSet.size]
      by_cases hMN : M = N
      · subst hMN
        rw [List.getElem?_set_self hlen, hinfo]
        rfl
      · rw [List.getElem?_set_ne (fun h => hMN h.symm)]
  · intro N calcPriority hN
    obtain ⟨info, hinfo⟩ := info_of_wellFormed s hwf N hN
    have hlen : N < s.m_nodeSetInfo.length := by rw [hwf]; exact hN
    rw [UpdatePriority_eq s N calcPriority info hN hinfo]
    refine ⟨?_, ?_, ?_⟩
    · rw [GetPriority_val]
      simp only [NodeSet.size] at hN ⊢
      rw [if_pos hN, List.getElem?_set_self hlen]
      rfl
    · intro M hM
      rw [GetPriority_val, GetPriority_val]
      simp only [NodeSet.size]
      rw [List.getElem?_set_ne (fun h => hM h.symm)]
    · intro M
      rw [IsCommitted_val, IsCommitted_val]
      simp only [NodeSet.size]
      by_cases hMN : M = N
      · subst hMN
        rw [List.getElem?_set_self hlen, hinfo]
        rfl
      · rw [List.getElem?_set_ne (fun h => hMN h.symm)]
  · intro N c calcPriority hN
    have hn : ¬ N < s.size := by omega
    refine ⟨SetCommitted_outside s N c hN, UpdatePriority_outside s N calcPriority hN, ?_, ?_⟩
    · rw [IsCommitted_val, if_neg hn]
    · rw [GetPriority_val, if_neg hn]

/-- C20 at the sample node set (priorities 5, 7, 5; node 1 committed), with
`PRIORITY_MIN = 0`. -/
theorem NodeSet_metadata_isolated_witness :
    (∀ (N : Nat) (c : Bool), N < sampleNodeSet.size →
      (sampleNodeSet.SetCommitted N c).IsCommitted N = c
      ∧ (∀ M, M ≠ N → (sampleNodeSet.SetCommitted N c).IsCommitted M
            = sampleNodeSet.IsCommitted M)
      ∧ (∀ M, (sampleNodeSet.SetCommitted N c).GetPriority 0 M
            = sampleNodeSet.GetPriority 0 M))
    ∧ (∀ (N : Nat) (calcPriority : Nat → Int), N < sampleNodeSet.size →
      (sampleNodeSet.UpdatePriority N calcPriority).GetPriority 0 N = calcPriority N
      ∧ (∀ M, M ≠ N → (sampleNodeSet.UpdatePriority N calcPriority).GetPriority 0 M
            = sampleNodeSet.GetPriority 0 M)
      ∧ (∀ M, (sampleNodeSet.UpdatePriority N calcPriority).IsCommitted M
            = sampleNodeSet.IsCommitted M))
    ∧ (∀ (N : Nat) (c : Bool) (calcPriority : Nat → Int), sampleNodeSet.size ≤ N →
      sampleNodeSet.SetCommitted N c = sampleNodeSet
      ∧ sampleNodeSet.UpdatePriority N calcPriority = sampleNodeSet
      ∧ sampleNodeSet.IsCommitted N = false ∧ sampleNodeSet.GetPriority 0 N = 0) :=
  NodeSet_metadata_isolated (0 : Int) sampleNodeSet rfl

end PriorityBp

namespace PriorityBp

open LfnIc

/-! ### HostImageLocal -/

/-- C14: a default-constructed `HostImageLocal` has width 0, height 0 and is not valid; and
for every width and height whose product fits in an `int`, `Init(width, height)` returns
`true` iff `width > 0` and `height > 0`, after which `GetWidth() = max(width, 0)`,
`GetHeight() = max(height, 0)` and `IsValid()` equals the value `Init` returned. -/
theorem HostImageLocal_validity :
    (HostImageLocal.create.GetWidth = 0 ∧ HostImageLocal.create.GetHeight = 0
      ∧ HostImageLocal.create.IsValid = false)
    ∧ ∀ (self : HostImageLocal) (width height : Int),
        -2147483648 ≤ width * height → width * height ≤ 2147483647 →
        ∃ (after : HostImageLocal) (result : Bool),
          self.Init width height = some (after, result)
          ∧ (result = true ↔ 0 < width ∧ 0 < height)
          ∧ after.GetWidth = max width 0 ∧ after.GetHeight = max height 0
          ∧ after.IsValid = result := by
  refine ⟨⟨rfl, rfl, rfl⟩, ?_⟩
  intro self width height hlo hhi
  have hfit : -2147483648 ≤ width * height ∧ width * height ≤ 2147483647 := ⟨hlo, hhi⟩
  have hinit : self.Init width height
      = some ({ m_width := max width 0, m_height := max height 0
                m_rgb := if 0 < width * height then
                    some (List.replicate (width * height).toNat default)
                  else none },
              HostImageLocal.IsValidInternal
                { m_width := max width 0, m_height := max height 0
                  m_rgb := if 0 < width * height then
                      some (List.replicate (width * height).toNat default)
                    else none }) := by
    simp only [HostImageLocal.Init, HostImageLocal.InitInternal, if_pos hfit]
  refine ⟨_, _, hinit, ?_, rfl, rfl, rfl⟩
  simp only [HostImageLocal.IsValidInternal, Bool.and_eq_true, decide_eq_true_eq]
  constructor
  · rintro ⟨⟨hw, hh⟩, _⟩
    exact ⟨by omega, by omega⟩
  · rintro ⟨hw, hh⟩
    have hpos : 0 < width * height := Int.mul_pos hw hh
    refine ⟨⟨by omega, by omega⟩, ?_⟩
    rw [if_pos hpos]
    rfl

/-- C14 at `Init(-2, -3)` on a default-constructed image: the product 6 is positive, a
buffer is allocated, yet the result is `false` with width 0 and height 0. -/
theorem HostImageLocal_validity_witness :
    ∃ (after : HostImageLocal) (result : Bool),
      HostImageLocal.create.Init (-2) (-3) = some (after, result)
      ∧ (result = true ↔ (0 : Int) < -2 ∧ (0 : Int) < -3)
      ∧ after.GetWidth = max (-2) 0 ∧ after.GetHeight = max (-3) 0
      ∧ after.IsValid = result :=
  HostImageLocal_validity.2 HostImageLocal.create (-2) (-3) (by decide) (by decide)

/-! ### ImageFloat -/

theorem rowMajorIndex_toNat (w x y : Int) (hx0 : 0 ≤ x) (hy0 : 0 ≤ y) (hw : 0 ≤ w) :
    (GetRowMajorIndex w x y).toNat = y.toNat * w.toNat + x.toNat := by
  obtain ⟨xn, rfl⟩ := Int.eq_ofNat_of_zero_le hx0
  obtain ⟨yn, rfl⟩ := Int.eq_ofNat_of_zero_le hy0
  obtain ⟨wn, rfl⟩ := Int.eq_ofNat_of_zero_le hw
  simp only [GetRowMajorIndex, Int.toNat_ofNat]
  have : (yn : Int) * (wn : Int) + (xn : Int) = ((yn * wn + xn : Nat) : Int) := by
    push_cast; ring
  rw [this, Int.toNat_ofNat]

/-- C12: in an `ImageFloat` of width `W > 0` and height `H > 0` whose buffer has `W * H`
pixels, for in-range `(x,y)`: after `SetPixel(x,y,p)`, `GetPixel(x,y)` returns `p`,
`GetPixel(x',y')` is unchanged for every other in-range coordinate, the width and the height
are unchanged, and the pixel written is the buffer entry at index `y*W + x`. -/
theorem ImageFloat_SetPixel_GetPixel (img : ImageFloat) (x y : Int) (p : RgbFloat)
    (hW : 0 < img.m_width) (hH : 0 < img.m_height)
    (hlen : img.m_data.length = (img.m_width * img.m_height).toNat)
    (hx0 : 0 ≤ x) (hx1 : x < img.m_width) (hy0 : 0 ≤ y) (hy1 : y < img.m_height) :
    (img.SetPixel x y p).GetPixel x y = p
    ∧ (∀ x2 y2 : Int, 0 ≤ x2 → x2 < img.m_width → 0 ≤ y2 → y2 < img.m_height →
        ¬ (x2 = x ∧ y2 = y) → (img.SetPixel x y p).GetPixel x2 y2 = img.GetPixel x2 y2)
    ∧ (img.SetPixel x y p).m_width = img.m_width
    ∧ (img.SetPixel x y p).m_height = img.m_height
    ∧ (img.SetPixel x y p).m_data[(y * img.m_width + x).toNat]? = some p := by
  obtain ⟨xn, rfl⟩ := Int.eq_ofNat_of_zero_le hx0
  obtain ⟨yn, rfl⟩ := Int.eq_ofNat_of_zero_le hy0
  obtain ⟨wn, hwn⟩ := Int.eq_ofNat_of_zero_le (le_of_lt hW)
  obtain ⟨hn, hhn⟩ := Int.eq_ofNat_of_zero_le (le_of_lt hH)
  rw [hwn] at hx1 hlen
  rw [hhn] at hy1 hlen
  have hprod : ((wn : Int) * (hn : Int)).toNat = wn * hn := by
    have : (wn : Int) * (hn : Int) = ((wn * hn : Nat) : Int) := by push_cast; ring
    rw [this, Int.toNat_ofNat]
  rw [hprod] at hlen
  have hidx : (GetRowMajorIndex img.m_width (xn : Int) (yn : Int)).toNat = yn * wn + xn := by
    rw [rowMajorIndex_toNat _ _ _ hx0 hy0 (le_of_lt hW), hwn]
    simp
  have hin : yn * wn + xn < img.m_data.length := by
    rw [hlen]
    exact rowMajor_lt wn hn xn yn (by omega) (by omega)
  refine ⟨?_, ?_, rfl, rfl, ?_⟩
  · simp only [ImageFloat.GetPixel, ImageFloat.SetPixel, hidx]
    exact getD_set_eq _ _ _ _ hin
  · intro x2 y2 ha hb hc hd hne
    obtain ⟨x2n, rfl⟩ := Int.eq_ofNat_of_zero_le ha
    obtain ⟨y2n, rfl⟩ := Int.eq_ofNat_of_zero_le hc
    have hidx2 : (GetRowMajorIndex img.m_width (x2n : Int) (y2n : Int)).toNat
        = y2n * wn + x2n := by
      rw [rowMajorIndex_toNat _ _ _ ha hc (le_of_lt hW), hwn]
      simp
    simp only [ImageFloat.GetPixel, ImageFloat.SetPixel, hidx, hidx2]
    apply getD_set_ne
    intro heq
    rw [hwn] at hb
    have h1 := rowMajor_div_mod wn yn xn (by omega)
    have h2 := rowMajor_div_mod wn y2n x2n (by omega)
    rw [heq] at h1
    apply hne
    constructor
    · have : x2n = xn := by rw [← h2.1, h1.1]
      omega
    · have : y2n = yn := by rw [← h2.2, h1.2]
      omega
  · have hcast : ((yn : Int) * img.m_width + (xn : Int)).toNat = yn * wn + xn := by
      have := hidx
      simp only [GetRowMajorIndex] at this
      exact this
    rw [hcast]
    simp only [ImageFloat.SetPixel, hidx]
    exact List.getElem?_set_self hin

/-- C12 at the 3 × 2 sample image: writing pixel `(1,1)` puts the value at buffer index
`1*3 + 1 = 4`. -/
theorem ImageFloat_SetPixel_GetPixel_witness :
    (sampleImageFloat.SetPixel 1 1 ⟨1, 1, 1⟩).GetPixel 1 1 = ⟨1, 1, 1⟩
    ∧ (sampleImageFloat.SetPixel 1 1 ⟨1, 1, 1⟩).m_data[4]? = some ⟨1, 1, 1⟩ := by
  have h := ImageFloat_SetPixel_GetPixel sampleImageFloat 1 1 ⟨1, 1, 1⟩ (by decide)
    (by decide) (by decide) (by decide) (by decide) (by decide) (by decide)
  exact ⟨h.1, h.2.2.2.2⟩

end PriorityBp

namespace PriorityBp

open LfnIc

/-- A loop that stores `f i` at index `i` for `i = 0..n-1` in a buffer of at least `n`
entries. -/
theorem forLoop_set_getElem {α : Type} (body : Nat → List α → List α) (f : Nat → α)
    (hb : ∀ i d, body i d = d.set i (f i)) (d0 : List α) (n : Nat) (hn : n ≤ d0.length) :
    (forLoop n body d0).length = d0.length
    ∧ ∀ i, i < n → (forLoop n body d0)[i]? = some (f i) := by
  have key := forLoop_invariant
    (fun k (d : List α) => d.length = d0.length ∧ ∀ i, i < k → d[i]? = some (f i))
    body d0 n ⟨rfl, fun i hi => absurd hi (Nat.not_lt_zero i)⟩
    (by
      intro k d hk hP
      obtain ⟨h1, h2⟩ := hP
      rw [hb]
      refine ⟨by rw [List.length_set, h1], ?_⟩
      intro i hi
      by_cases hik : i = k
      · subst hik
        exact List.getElem?_set_self (by omega)
      · rw [List.getElem?_set_ne (fun h => hik h.symm)]
        exact h2 i (by omega))
  exact key

/-- An 8-bit channel value survives the conversion to `float` and back. -/
theorem roundTrip_channel (v : Nat) (hv : v ≤ 255) :
    toUnsignedChar (Clamp0To1 ((v : ℚ) / 255) * 255) = v
    ∧ 0 ≤ (v : ℚ) / 255 ∧ (v : ℚ) / 255 ≤ 1 := by
  have h0 : (0 : ℚ) ≤ (v : ℚ) / 255 := by positivity
  have hvq : (v : ℚ) ≤ 255 := by exact_mod_cast hv
  have h1 : (v : ℚ) / 255 ≤ 1 := by
    rw [div_le_one (by norm_num)]
    exact hvq
  refine ⟨?_, h0, h1⟩
  have hclamp : Clamp0To1 ((v : ℚ) / 255) = (v : ℚ) / 255 := by
    simp only [Clamp0To1, min_eq_left h1, max_eq_right h0]
  have hmul : (v : ℚ) / 255 * 255 = ((v : Int) : ℚ) := by
    push_cast
    field_simp
  rw [hclamp, hmul]
  simp only [toUnsignedChar, Int.floor_intCast, Int.toNat_ofNat]
  omega

/-- The buffer built by `ImageFloat(const Image&)`: entry `k` holds the channels of input
pixel `k` divided by 255. -/
theorem fromImage_data (input : HostImageLocal) (data : List Rgb)
    (hrgb : input.m_rgb = some data) (k : Nat)
    (hk : k < (input.m_width * input.m_height).toNat) :
    (ImageFloat.fromImage input).m_data[k]?
      = some { r := ((data.getD k default).r : ℚ) / 255
               g := ((data.getD k default).g : ℚ) / 255
               b := ((data.getD k default).b : ℚ) / 255 } := by
  have hspec := forLoop_set_getElem (ImageFloat.fromImageBody data)
    (fun i => { r := ((data.getD i default).r : ℚ) / 255
                g := ((data.getD i default).g : ℚ) / 255
                b := ((data.getD i default).b : ℚ) / 255 })
    (fun _ _ => rfl)
    (resizeRgbFloat [] (input.m_width * input.m_height).toNat)
    (input.m_width * input.m_height).toNat (by simp [resizeRgbFloat])
  have := hspec.2 k hk
  simpa [ImageFloat.fromImage, ImageFloat.Create, ImageFloat.createEmpty,
    HostImageLocal.GetWidth, HostImageLocal.GetHeight, HostImageLocal.GetRgb, hrgb] using this

end PriorityBp

namespace PriorityBp

open LfnIc

theorem copyToColBody_eq (self : ImageFloat) (s : CopyToState) :
    ImageFloat.copyToColBody self s
      = { i := s.i + 1
          outRgbData := s.outRgbData.map (fun buf => buf.set s.i (self.copyToPixel s.i)) } :=
  rfl

/-- The inner loop of `CopyTo(HostImage&)` over one row of `w` pixels. -/
theorem copyToColLoop_spec (self : ImageFloat) (w total : Nat) (s0 : CopyToState)
    (b0 : List Rgb) (hbuf : s0.outRgbData = some b0) (hlen : b0.length = total)
    (hfit : s0.i + w ≤ total)
    (hdone : ∀ k, k < s0.i → b0[k]? = some (self.copyToPixel k)) :
    (forLoop w (fun _ => ImageFloat.copyToColBody self) s0).i = s0.i + w
    ∧ ∃ b, (forLoop w (fun _ => ImageFloat.copyToColBody self) s0).outRgbData = some b
        ∧ b.length = total ∧ ∀ k, k < s0.i + w → b[k]? = some (self.copyToPixel k) := by
  have key := forLoop_invariant
    (fun x (st : CopyToState) =>
      st.i = s0.i + x ∧ ∃ b, st.outRgbData = some b ∧ b.length = total
        ∧ ∀ k, k < s0.i + x → b[k]? = some (self.copyToPixel k))
    (fun _ => ImageFloat.copyToColBody self) s0 w
    ⟨rfl, b0, hbuf, hlen, hdone⟩
    (by
      intro x st hx hP
      obtain ⟨h1, b, h2, h3, h4⟩ := hP
      show (ImageFloat.copyToColBody self st).i = s0.i + (x + 1)
        ∧ ∃ b2, (ImageFloat.copyToColBody self st).outRgbData = some b2
          ∧ b2.length = total ∧ ∀ k, k < s0.i + (x + 1) → b2[k]? = some (self.copyToPixel k)
      rw [copyToColBody_eq]
      refine ⟨by simp only [h1]; omega, b.set st.i (self.copyToPixel st.i), by simp [h2],
        by rw [List.length_set, h3], ?_⟩
      intro k hk
      by_cases hki : k = st.i
      · subst hki
        exact List.getElem?_set_self (by omega)
      · rw [List.getElem?_set_ne (fun h => hki h.symm)]
        exact h4 k (by omega))
  exact key

/-- The two loops of `CopyTo(HostImage&)` over `h` rows of `w` pixels. -/
theorem copyToLoops_spec (self : ImageFloat) (w h : Nat) (b0 : List Rgb)
    (hlen : b0.length = w * h) :
    ∃ b, (forLoop h (fun _ st => forLoop w (fun _ => ImageFloat.copyToColBody self) st)
            { i := 0, outRgbData := some b0 }).outRgbData = some b
      ∧ b.length = w * h ∧ ∀ k, k < w * h → b[k]? = some (self.copyToPixel k) := by
  have key := forLoop_invariant
    (fun y (st : CopyToState) =>
      y ≤ h ∧ st.i = y * w ∧ ∃ b, st.outRgbData = some b ∧ b.length = w * h
        ∧ ∀ k, k < y * w → b[k]? = some (self.copyToPixel k))
    (fun _ st => forLoop w (fun _ => ImageFloat.copyToColBody self) st)
    { i := 0, outRgbData := some b0 } h
    ⟨Nat.zero_le h, by simp, b0, rfl, hlen, fun k hk => absurd hk (by simp)⟩
    (by
      intro y st hy hP
      obtain ⟨_, h1, b, h2, h3, h4⟩ := hP
      have hsucc : (y + 1) * w = y * w + w := Nat.succ_mul y w
      have hfit : st.i + w ≤ w * h := by
        have e1 : (y + 1) * w ≤ h * w := Nat.mul_le_mul_right w hy
        have e2 : h * w = w * h := Nat.mul_comm h w
        omega
      obtain ⟨c1, b2, c2, c3, c4⟩ := copyToColLoop_spec self w (w * h) st b h2 h3 hfit
        (by rw [h1]; exact h4)
      refine ⟨hy, by rw [c1, h1, hsucc], b2, c2, c3, ?_⟩
      intro k hk
      exact c4 k (by rw [h1]; omega))
  obtain ⟨_, _, b, k1, k2, k3⟩ := key
  refine ⟨b, k1, k2, ?_⟩
  intro k hk
  exact k3 k (by rw [Nat.mul_comm h w]; exact hk)

/-- C13: for a valid 8-bit image (width and height positive, a buffer of `width * height`
pixels with every channel at most 255, the product within `int` range), the `ImageFloat`
constructed from it holds every channel `v` as `v / 255`, which lies in `[0,1]`, and
`CopyTo(HostImage&)` then yields an image of the same width and height whose buffer equals
the original one, channel by channel. -/
theorem ImageFloat_roundTrip (input output : HostImageLocal) (data : List Rgb)
    (hW : 0 < input.m_width) (hH : 0 < input.m_height)
    (hfit : input.m_width * input.m_height ≤ 2147483647)
    (hrgb : input.m_rgb = some data)
    (hlen : data.length = (input.m_width * input.m_height).toNat)
    (h8 : ∀ px, px ∈ data → px.r ≤ 255 ∧ px.g ≤ 255 ∧ px.b ≤ 255) :
    (∀ k (hk : k < data.length),
      ∃ f, (ImageFloat.fromImage input).m_data[k]? = some f
        ∧ f.r = (data[k].r : ℚ) / 255 ∧ f.g = (data[k].g : ℚ) / 255
        ∧ f.b = (data[k].b : ℚ) / 255
        ∧ 0 ≤ f.r ∧ f.r ≤ 1 ∧ 0 ≤ f.g ∧ f.g ≤ 1 ∧ 0 ≤ f.b ∧ f.b ≤ 1)
    ∧ ∃ out, (ImageFloat.fromImage input).CopyTo output = some out
        ∧ out.GetWidth = input.GetWidth ∧ out.GetHeight = input.GetHeight
        ∧ out.GetRgb = some data := by
  obtain ⟨wn, hwn⟩ := Int.eq_ofNat_of_zero_le (le_of_lt hW)
  obtain ⟨hn, hhn⟩ := Int.eq_ofNat_of_zero_le (le_of_lt hH)
  have hprod : (input.m_width * input.m_height).toNat = wn * hn := by
    rw [hwn, hhn]
    have : (wn : Int) * (hn : Int) = ((wn * hn : Nat) : Int) := by push_cast; ring
    rw [this, Int.toNat_ofNat]
  have hpos : 0 < input.m_width * input.m_height := Int.mul_pos hW hH
  have hget : ∀ k (hk : k < data.length), data.getD k default = data[k] := by
    intro k hk
    simp [List.getD_eq_getElem?_getD, List.getElem?_eq_getElem hk]
  have hfloat : ∀ k (hk : k < data.length),
      (ImageFloat.fromImage input).m_data[k]?
        = some { r := (data[k].r : ℚ) / 255, g := (data[k].g : ℚ) / 255
                 b := (data[k].b : ℚ) / 255 } := by
    intro k hk
    rw [fromImage_data input data hrgb k (by rw [← hlen]; exact hk), hget k hk]
  refine ⟨?_, ?_⟩
  · intro k hk
    obtain ⟨c1, c2, c3⟩ := h8 data[k] (List.getElem_mem hk)
    refine ⟨_, hfloat k hk, rfl, rfl, rfl, (roundTrip_channel _ c1).2.1,
      (roundTrip_channel _ c1).2.2, (roundTrip_channel _ c2).2.1,
      (roundTrip_channel _ c2).2.2, (roundTrip_channel _ c3).2.1,
      (roundTrip_channel _ c3).2.2⟩
  · have hinitfit : -2147483648 ≤ input.m_width * input.m_height
        ∧ input.m_width * input.m_height ≤ 2147483647 := ⟨by omega, hfit⟩
    obtain ⟨b, k1, k2, k3⟩ := copyToLoops_spec (ImageFloat.fromImage input) wn hn
      (List.replicate (wn * hn) default) (List.length_replicate _ _)
    have hfw : (ImageFloat.fromImage input).m_width = input.m_width := rfl
    have hfh : (ImageFloat.fromImage input).m_height = input.m_height := rfl
    have hcopy : (ImageFloat.fromImage input).CopyTo output
        = some { m_width := max input.m_width 0, m_height := max input.m_height 0
                 m_rgb := some b } := by
      simp only [ImageFloat.CopyTo, HostImageLocal.Init, HostImageLocal.InitInternal, hfw, hfh,
        if_pos hinitfit, if_pos hpos, HostImageLocal.GetRgb, hprod]
      rw [hwn, hhn]
      simp only [Int.toNat_ofNat]
      rw [k1]
    refine ⟨_, hcopy, ?_, ?_, ?_⟩
    · simp only [HostImageLocal.GetWidth]; omega
    · simp only [HostImageLocal.GetHeight]; omega
    · simp only [HostImageLocal.GetRgb]
      congr 1
      apply List.ext_getElem?
      intro k
      by_cases hk : k < data.length
      · rw [k3 k (by rw [← hprod, ← hlen]; exact hk), List.getElem?_eq_getElem hk]
        obtain ⟨c1, c2, c3⟩ := h8 data[k] (List.getElem_mem hk)
        have hd : (ImageFloat.fromImage input).m_data.getD k default
            = { r := (data[k].r : ℚ) / 255, g := (data[k].g : ℚ) / 255
                b := (data[k].b : ℚ) / 255 } := by
          rw [List.getD_eq_getElem?_getD, hfloat k hk]
          rfl
        simp only [ImageFloat.copyToPixel, hd, (roundTrip_channel _ c1).1,
          (roundTrip_channel _ c2).1, (roundTrip_channel _ c3).1]
      · rw [List.getElem?_eq_none (by omega), List.getElem?_eq_none (by omega)]

/-- C13 at the 2 × 1 sample image with channel values 0, 128, 255, 1, 2, 254. -/
theorem ImageFloat_roundTrip_witness :
    ∃ out, (ImageFloat.fromImage sampleHostImage).CopyTo HostImageLocal.create = some out
      ∧ out.GetWidth = sampleHostImage.GetWidth ∧ out.GetHeight = sampleHostImage.GetHeight
      ∧ out.GetRgb = some [⟨0, 128, 255⟩, ⟨1, 2, 254⟩] :=
  (ImageFloat_roundTrip sampleHostImage HostImageLocal.create [⟨0, 128, 255⟩, ⟨1, 2, 254⟩]
    (by decide) (by decide) (by decide) rfl (by decide) (by decide)).2

end PriorityBp

namespace LfnIc

/-! ### ImageScaledDown: blocks read -/

theorem colLoop_otherX (otherWidth : Nat) (otherRgb : List Pixel) (s0 : ScaledDownCol)
    (n : Nat) :
    (forLoop n (fun _ => ImageScaledDown.colBody otherWidth otherRgb) s0).otherX
      = s0.otherX + 2 * n := by
  induction n with
  | zero => rfl
  | succ k ih =>
    show (ImageScaledDown.colBody otherWidth otherRgb
      (forLoop k (fun _ => ImageScaledDown.colBody otherWidth otherRgb) s0)).otherX = _
    simp only [ImageScaledDown.colBody, ih]
    omega

theorem rowLoop_otherY (m_width otherWidth otherHeight : Nat) (otherRgb : List Pixel)
    (s0 : ScaledDownRow) (n : Nat) :
    (forLoop n (ImageScaledDown.rowBody m_width otherWidth otherHeight otherRgb) s0).otherY
      = s0.otherY + 2 * n := by
  induction n with
  | zero => rfl
  | succ k ih =>
    show (ImageScaledDown.rowBody m_width otherWidth otherHeight otherRgb k
      (forLoop k (ImageScaledDown.rowBody m_width otherWidth otherHeight otherRgb) s0)).otherY
      = _
    simp only [ImageScaledDown.rowBody, ih]
    omega

/-- Two images of the same size, with full buffers, that agree at every coordinate have the
same buffer. -/
theorem data_eq_of_pixelAt (a b : ImageConst) (hw : a.GetWidth = b.GetWidth)
    (ha : a.GetData.length = a.GetWidth * a.GetHeight)
    (hb : b.GetData.length = a.GetWidth * a.GetHeight)
    (hpix : ∀ x y, x < a.GetWidth → y < a.GetHeight → a.pixelAt x y = b.pixelAt x y) :
    a.GetData = b.GetData := by
  apply List.ext_getElem
  · rw [ha, hb]
  · intro i h1 h2
    have hi : i < a.GetWidth * a.GetHeight := by rw [← ha]; exact h1
    have hwpos : 0 < a.GetWidth := by
      by_contra hz
      have : a.GetWidth = 0 := by omega
      rw [this, Nat.zero_mul] at hi
      omega
    have hx : i % a.GetWidth < a.GetWidth := Nat.mod_lt _ hwpos
    have hy : i / a.GetWidth < a.GetHeight := Nat.div_lt_of_lt_mul hi
    have hp := hpix _ _ hx hy
    have hidx : i / a.GetWidth * a.GetWidth + i % a.GetWidth = i :=
      Nat.div_add_mod' i a.GetWidth
    rw [pixelAt_eq_getD, pixelAt_eq_getD, ← hw, hidx] at hp
    simp only [List.getD_eq_getElem?_getD, List.getElem?_eq_getElem h1,
      List.getElem?_eq_getElem h2, Option.getD_some] at hp
    exact hp

end LfnIc

namespace LfnIc

/-- C17: in `ImageScaledDown` every block read lies inside the source: for every output
coordinate `(x,y)`, `2x+1 < W` and `2y+1 < H`; when an iteration of the row loop starts,
`otherY + 1 < otherHeight` (the lower-row fallback is not taken), and when an iteration of
the column loop starts, `otherX + 1 < otherWidth` (the two-pixel branch is not taken), so
every output channel is the sum of four source pixels divided by 4; and two sources of the
same size that agree on the columns below `2*(W/2)` and the rows below `2*(H/2)`, that is
everywhere but in the last column of an odd width and the last row of an odd height,
downsample to the same image. -/
theorem ImageScaledDown_reads_inside (img : ImageConst) :
    (∀ x y, x < (ImageScaledDown img).GetWidth → y < (ImageScaledDown img).GetHeight →
        2 * x + 1 < img.GetWidth ∧ 2 * y + 1 < img.GetHeight)
    ∧ (∀ y, y < img.GetHeight / 2 →
        (forLoop y (ImageScaledDown.rowBody (img.GetWidth / 2) img.GetWidth img.GetHeight
            img.GetData)
          { m_rgb := List.replicate (img.GetWidth / 2 * (img.GetHeight / 2)) default
            otherY := 0 }).otherY + 1 < img.GetHeight)
    ∧ (∀ (s0 : ScaledDownCol) (x : Nat), s0.otherX = 0 → x < img.GetWidth / 2 →
        (forLoop x (fun _ => ImageScaledDown.colBody img.GetWidth img.GetData) s0).otherX + 1
          < img.GetWidth)
    ∧ (∀ x y (c : Fin 3), x < img.GetWidth / 2 → y < img.GetHeight / 2 →
        ((ImageScaledDown img).pixelAt x y).channel c
          = ((img.pixelAt (2 * x) (2 * y)).channel c
            + (img.pixelAt (2 * x + 1) (2 * y)).channel c
            + (img.pixelAt (2 * x) (2 * y + 1)).channel c
            + (img.pixelAt (2 * x + 1) (2 * y + 1)).channel c) / 4)
    ∧ (∀ img2 : ImageConst, img2.GetWidth = img.GetWidth → img2.GetHeight = img.GetHeight →
        (∀ i j, i < 2 * (img.GetWidth / 2) → j < 2 * (img.GetHeight / 2) →
          img2.pixelAt i j = img.pixelAt i j) →
        ImageScaledDown img2 = ImageScaledDown img) := by
  refine ⟨?_, ?_, ?_, ?_, ?_⟩
  · intro x y hx hy
    have hx2 : x < img.GetWidth / 2 := hx
    have hy2 : y < img.GetHeight / 2 := hy
    exact ⟨by omega, by omega⟩
  · intro y hy
    rw [rowLoop_otherY]
    show 0 + 2 * y + 1 < img.GetHeight
    omega
  · intro s0 x h0 hx
    rw [colLoop_otherX, h0]
    omega
  · intro x y c hx hy
    exact ImageScaledDown_pixelAt_channel img x y c hx hy
  · intro img2 hw hh hagree
    have hdata : (ImageScaledDown img2).GetData = (ImageScaledDown img).GetData := by
      apply data_eq_of_pixelAt
      · show img2.GetWidth / 2 = img.GetWidth / 2
        rw [hw]
      · exact ImageScaledDown_data_length img2
      · rw [ImageScaledDown_data_length img]
        show img.GetWidth / 2 * (img.GetHeight / 2) = img2.GetWidth / 2 * (img2.GetHeight / 2)
        rw [hw, hh]
      · intro x y hx hy
        have hx2 : x < img2.GetWidth / 2 := hx
        have hy2 : y < img2.GetHeight / 2 := hy
        apply Pixel_eq_of_channel
        intro c
        rw [ImageScaledDown_pixelAt_channel img2 x y c hx2 hy2,
          ImageScaledDown_pixelAt_channel img x y c (by rw [← hw]; exact hx2)
            (by rw [← hh]; exact hy2)]
        rw [hw] at hx2
        rw [hh] at hy2
        rw [hagree _ _ (by omega) (by omega), hagree _ _ (by omega) (by omega),
          hagree _ _ (by omega) (by omega), hagree _ _ (by omega) (by omega)]
    have e1 : (ImageScaledDown img2).GetWidth = (ImageScaledDown img).GetWidth := by
      show img2.GetWidth / 2 = img.GetWidth / 2
      rw [hw]
    have e2 : (ImageScaledDown img2).GetHeight = (ImageScaledDown img).GetHeight := by
      show img2.GetHeight / 2 = img.GetHeight / 2
      rw [hh]
    cases hA : ImageScaledDown img2 with
    | mk w2 h2 d2 =>
      cases hB : ImageScaledDown img with
      | mk w1 h1 d1 =>
        rw [hA, hB] at e1 e2 hdata
        simp only at e1 e2 hdata
        rw [e1, e2, hdata]

/-- C17 at two 3 × 3 images that differ only in the last column and the last row: both
downsample to the same 1 × 1 image. -/
theorem ImageScaledDown_reads_inside_witness :
    ImageScaledDown sampleImage3x3Edge = ImageScaledDown sampleImage3x3 :=
  (ImageScaledDown_reads_inside sampleImage3x3).2.2.2.2 sampleImage3x3Edge rfl rfl
    (by
      intro i j hi hj
      have hi2 : i < 2 := hi
      have hj2 : j < 2 := hj
      interval_cases i <;> interval_cases j <;>
        norm_num [ImageConst.pixelAt, readPixel, GetRowMajorPointer, sampleImage3x3Edge,
          sampleImage3x3, List.range, List.range.loop])

end LfnIc

namespace LfnIc

/-! ### GetRainbowColor -/

/-- The `while` loop of `GetRainbowColor`, unrolled. -/
theorem rainbowLoop_unfold (alpha : ℚ) :
    GetRainbowColor.loop alpha penultimateRefColorIndex 0 0
      = if alpha < 1 / 6 then (0, 0)
        else if alpha < 2 / 6 then (1, 1 / 6)
        else if alpha < 3 / 6 then (2, 2 / 6)
        else if alpha < 4 / 6 then (3, 3 / 6)
        else if alpha < 5 / 6 then (4, 4 / 6)
        else (5, 5 / 6) := by
  have hp : penultimateRefColorIndex = 5 := rfl
  have hs : refAlphaStep = 1 / 6 := by
    simp only [refAlphaStep, numRefColors, refColors, List.length_cons, List.length_nil]
    norm_num
  have e1 : (0 : ℚ) + 1 / 6 = 1 / 6 := by norm_num
  have e2 : (1 : ℚ) / 6 + 1 / 6 = 2 / 6 := by norm_num
  have e3 : (2 : ℚ) / 6 + 1 / 6 = 3 / 6 := by norm_num
  have e4 : (3 : ℚ) / 6 + 1 / 6 = 4 / 6 := by norm_num
  have e5 : (4 : ℚ) / 6 + 1 / 6 = 5 / 6 := by norm_num
  rw [hp]
  simp only [GetRainbowColor.loop, hp, hs, e1, e2, e3, e4, e5, Nat.reduceLT, Nat.reduceAdd,
    if_true]

/-- More iterations than `penultimateRefColorIndex` do not change the result of the
loop: it ends by its own condition. -/
theorem rainbowLoop_fuel (alpha : ℚ) (extra : Nat) :
    GetRainbowColor.loop alpha (penultimateRefColorIndex + extra) 0 0
      = GetRainbowColor.loop alpha penultimateRefColorIndex 0 0 := by
  have hp : penultimateRefColorIndex = 5 := rfl
  have h5 : ∀ (fuel : Nat) (low : ℚ), GetRainbowColor.loop alpha fuel 5 low = (5, low) := by
    intro fuel low
    cases fuel with
    | zero => rfl
    | succ k => simp [GetRainbowColor.loop, hp]
  show GetRainbowColor.loop alpha (5 + extra) 0 0 = GetRainbowColor.loop alpha 5 0 0
  have e : 5 + extra = (extra + 4) + 1 := by omega
  rw [e]
  simp only [GetRainbowColor.loop, hp, Nat.reduceLT, Nat.reduceAdd, if_true]
  rw [h5]

end LfnIc

namespace LfnIc

/-- Reference colour `k` of the rainbow. -/
theorem refColors_getD (k : Nat) :
    refColors.getD k default
      = match k with
        | 0 => ⟨1, 0, 0⟩
        | 1 => ⟨1, 65 / 100, 0⟩
        | 2 => ⟨1, 1, 0⟩
        | 3 => ⟨0, 1 / 2, 0⟩
        | 4 => ⟨0, 0, 1⟩
        | 5 => ⟨3 / 10, 0, 51 / 100⟩
        | 6 => ⟨93 / 100, 51 / 100, 93 / 100⟩
        | _ => ⟨0, 0, 0⟩ := by
  match k with
  | 0 => rfl
  | 1 => rfl
  | 2 => rfl
  | 3 => rfl
  | 4 => rfl
  | 5 => rfl
  | 6 => rfl
  | _ + 7 => rfl

/-- The segment index and the low alpha found by the loop, for an alpha in `[0,1]`. -/
theorem rainbowLoop_floor (alpha : ℚ) (h0 : 0 ≤ alpha) (h1 : alpha ≤ 1) :
    GetRainbowColor.loop alpha penultimateRefColorIndex 0 0
        = (min ⌊6 * alpha⌋₊ 5, ((min ⌊6 * alpha⌋₊ 5 : Nat) : ℚ) / 6)
    ∧ ((min ⌊6 * alpha⌋₊ 5 : Nat) : ℚ) ≤ 6 * alpha
    ∧ 6 * alpha ≤ ((min ⌊6 * alpha⌋₊ 5 : Nat) : ℚ) + 1 := by
  have h6 : (0 : ℚ) ≤ 6 * alpha := by linarith
  have hfl : ((⌊6 * alpha⌋₊ : Nat) : ℚ) ≤ 6 * alpha := Nat.floor_le h6
  have hfu : 6 * alpha < ((⌊6 * alpha⌋₊ : Nat) : ℚ) + 1 := Nat.lt_floor_add_one _
  have hn7 : ⌊6 * alpha⌋₊ < 7 := (Nat.floor_lt h6).2 (by push_cast; linarith)
  generalize ⌊6 * alpha⌋₊ = n at hfl hfu hn7
  rw [rainbowLoop_unfold]
  interval_cases n
  · have c1 : alpha < 1 / 6 := by norm_num at hfu; linarith
    simp only [if_pos c1]
    refine ⟨by norm_num, ?_, ?_⟩
    · norm_num; linarith
    · norm_num; linarith
  · have c1 : ¬ alpha < 1 / 6 := by norm_num at hfl; intro h; linarith
    have c2 : alpha < 2 / 6 := by norm_num at hfu; linarith
    simp only [if_neg c1, if_pos c2]
    norm_num at hfl hfu
    refine ⟨by norm_num, ?_, ?_⟩
    · norm_num; linarith
    · norm_num; linarith
  · have c1 : ¬ alpha < 1 / 6 := by norm_num at hfl; intro h; linarith
    have c2 : ¬ alpha < 2 / 6 := by norm_num at hfl; intro h; linarith
    have c3 : alpha < 3 / 6 := by norm_num at hfu; linarith
    simp only [if_neg c1, if_neg c2, if_pos c3]
    norm_num at hfl hfu
    refine ⟨by norm_num, ?_, ?_⟩
    · norm_num; linarith
    · norm_num; linarith
  · have c1 : ¬ alpha < 1 / 6 := by norm_num at hfl; intro h; linarith
    have c2 : ¬ alpha < 2 / 6 := by norm_num at hfl; intro h; linarith
    have c3 : ¬ alpha < 3 / 6 := by norm_num at hfl; intro h; linarith
    have c4 : alpha < 4 / 6 := by norm_num at hfu; linarith
    simp only [if_neg c1, if_neg c2, if_neg c3, if_pos c4]
    norm_num at hfl hfu
    refine ⟨by norm_num, ?_, ?_⟩
    · norm_num; linarith
    · norm_num; linarith
  · have c1 : ¬ alpha < 1 / 6 := by norm_num at hfl; intro h; linarith
    have c2 : ¬ alpha < 2 / 6 := by norm_num at hfl; intro h; linarith
    have c3 : ¬ alpha < 3 / 6 := by norm_num at hfl; intro h; linarith
    have c4 : ¬ alpha < 4 / 6 := by norm_num at hfl; intro h; linarith
    have c5 : alpha < 5 / 6 := by norm_num at hfu; linarith
    simp only [if_neg c1, if_neg c2, if_neg c3, if_neg c4, if_pos c5]
    norm_num at hfl hfu
    refine ⟨by norm_num, ?_, ?_⟩
    · norm_num; linarith
    · norm_num; linarith
  · have c1 : ¬ alpha < 1 / 6 := by norm_num at hfl; intro h; linarith
    have c2 : ¬ alpha < 2 / 6 := by norm_num at hfl; intro h; linarith
    have c3 : ¬ alpha < 3 / 6 := by norm_num at hfl; intro h; linarith
    have c4 : ¬ alpha < 4 / 6 := by norm_num at hfl; intro h; linarith
    have c5 : ¬ alpha < 5 / 6 := by norm_num at hfl; intro h; linarith
    simp only [if_neg c1, if_neg c2, if_neg c3, if_neg c4, if_neg c5]
    norm_num at hfl hfu
    refine ⟨by norm_num, ?_, ?_⟩
    · norm_num; linarith
    · norm_num; linarith
  · have c1 : ¬ alpha < 1 / 6 := by norm_num at hfl; intro h; linarith
    have c2 : ¬ alpha < 2 / 6 := by norm_num at hfl; intro h; linarith
    have c3 : ¬ alpha < 3 / 6 := by norm_num at hfl; intro h; linarith
    have c4 : ¬ alpha < 4 / 6 := by norm_num at hfl; intro h; linarith
    have c5 : ¬ alpha < 5 / 6 := by norm_num at hfl; intro h; linarith
    simp only [if_neg c1, if_neg c2, if_neg c3, if_neg c4, if_neg c5]
    norm_num at hfl hfu
    refine ⟨by norm_num, ?_, ?_⟩
    · norm_num; linarith
    · norm_num; linarith

end LfnIc

namespace LfnIc

/-- The colour returned by `GetRainbowColor` in terms of the segment found by the loop. -/
theorem GetRainbowColor_of_loop (alpha : ℚ) (j : Nat)
    (hloop : GetRainbowColor.loop alpha penultimateRefColorIndex 0 0 = (j, (j : ℚ) / 6))
    (c : Fin 3) :
    (GetRainbowColor alpha).channel c
      = (refColors.getD j default).channel c
        + (6 * alpha - (j : ℚ))
          * ((refColors.getD (j + 1) default).channel c - (refColors.getD j default).channel c) := by
  have hs : refAlphaStep = 1 / 6 := by
    simp only [refAlphaStep, numRefColors, refColors, List.length_cons, List.length_nil]
    norm_num
  have hblend : (alpha - (j : ℚ) / 6) / (1 / 6) = 6 * alpha - (j : ℚ) := by
    field_simp
    ring
  simp only [GetRainbowColor, hloop, hs, hblend]
  fin_cases c <;> rfl

/-- Channel bounds of a blend of two reference colours. -/
theorem rainbow_blend_bounds (j : Nat) (hj : j ≤ 5) (t : ℚ) (ht0 : 0 ≤ t) (ht1 : t ≤ 1)
    (c : Fin 3) :
    0 ≤ (refColors.getD j default).channel c
        + t * ((refColors.getD (j + 1) default).channel c - (refColors.getD j default).channel c)
    ∧ (refColors.getD j default).channel c
        + t * ((refColors.getD (j + 1) default).channel c - (refColors.getD j default).channel c)
      ≤ 1 := by
  interval_cases j <;> fin_cases c <;>
    simp only [refColors_getD, Pixel.channel] <;>
    constructor <;> nlinarith

/-- C15: `GetRainbowColor` is the piecewise-linear seven-stop rainbow: for `k = 0..6`,
`GetRainbowColor(k/6)` is the `k`-th reference colour, and for every alpha in `[0,1]`, with
`j = min(floor(6*alpha), 5)`, every channel of the result is
`stop_j + (6*alpha - j) * (stop_{j+1} - stop_j)` and lies in `[0,1]`. -/
theorem GetRainbowColor_piecewise_linear :
    (∀ k : Nat, k ≤ 6 → GetRainbowColor ((k : ℚ) / 6) = refColors.getD k default)
    ∧ (∀ alpha : ℚ, 0 ≤ alpha → alpha ≤ 1 → ∀ c : Fin 3,
        (GetRainbowColor alpha).channel c
          = (refColors.getD (min ⌊6 * alpha⌋₊ 5) default).channel c
            + (6 * alpha - ((min ⌊6 * alpha⌋₊ 5 : Nat) : ℚ))
              * ((refColors.getD (min ⌊6 * alpha⌋₊ 5 + 1) default).channel c
                  - (refColors.getD (min ⌊6 * alpha⌋₊ 5) default).channel c)
        ∧ 0 ≤ (GetRainbowColor alpha).channel c
        ∧ (GetRainbowColor alpha).channel c ≤ 1) := by
  have hmain : ∀ alpha : ℚ, 0 ≤ alpha → alpha ≤ 1 → ∀ c : Fin 3,
      (GetRainbowColor alpha).channel c
        = (refColors.getD (min ⌊6 * alpha⌋₊ 5) default).channel c
          + (6 * alpha - ((min ⌊6 * alpha⌋₊ 5 : Nat) : ℚ))
            * ((refColors.getD (min ⌊6 * alpha⌋₊ 5 + 1) default).channel c
                - (refColors.getD (min ⌊6 * alpha⌋₊ 5) default).channel c)
      ∧ 0 ≤ (GetRainbowColor alpha).channel c
      ∧ (GetRainbowColor alpha).channel c ≤ 1 := by
    intro alpha h0 h1 c
    obtain ⟨hloop, hl, hu⟩ := rainbowLoop_floor alpha h0 h1
    have hformula := GetRainbowColor_of_loop alpha _ hloop c
    have hb := rainbow_blend_bounds (min ⌊6 * alpha⌋₊ 5) (min_le_right _ _)
      (6 * alpha - ((min ⌊6 * alpha⌋₊ 5 : Nat) : ℚ)) (by linarith) (by linarith) c
    refine ⟨hformula, ?_, ?_⟩
    · rw [hformula]; exact hb.1
    · rw [hformula]; exact hb.2
  refine ⟨?_, hmain⟩
  intro k hk
  have hk6 : (0 : ℚ) ≤ (k : ℚ) / 6 := by positivity
  have hk1 : (k : ℚ) / 6 ≤ 1 := by
    rw [div_le_one (by norm_num)]
    exact_mod_cast hk
  have hfloor : ⌊6 * ((k : ℚ) / 6)⌋₊ = k := by
    have : 6 * ((k : ℚ) / 6) = (k : ℚ) := by field_simp
    rw [this, Nat.floor_natCast]
  apply Pixel_eq_of_channel
  intro c
  rw [(hmain _ hk6 hk1 c).1, hfloor]
  have h6 : 6 * ((k : ℚ) / 6) = (k : ℚ) := by field_simp
  rw [h6]
  interval_cases k <;> fin_cases c <;>
    simp only [refColors_getD, Pixel.channel] <;> norm_num

/-- C15 at `alpha = 1/4`, in the segment from orange to yellow: the green channel is
`33/40`. -/
theorem GetRainbowColor_piecewise_linear_witness :
    (GetRainbowColor (1 / 4)).channel 1 = 33 / 40
    ∧ 0 ≤ (GetRainbowColor (1 / 4)).channel 1 ∧ (GetRainbowColor (1 / 4)).channel 1 ≤ 1 := by
  have h := GetRainbowColor_piecewise_linear.2 (1 / 4) (by norm_num) (by norm_num) 1
  refine ⟨?_, h.2.1, h.2.2⟩
  have hfloor : ⌊(6 : ℚ) * (1 / 4)⌋₊ = 1 := by
    rw [Nat.floor_eq_iff (by norm_num)]
    constructor <;> norm_num
  rw [h.1, hfloor]
  simp only [refColors_getD, Pixel.channel]
  norm_num

end LfnIc

namespace LfnIc

/-- For an alpha in `[0,1]`: a segment `j ≤ 5` with `j ≤ 6*alpha ≤ j+1` on which the
three channels of `GetRainbowColor` are the blend of the stops `j` and `j+1`. -/
theorem GetRainbowColor_segment (alpha : ℚ) (h0 : 0 ≤ alpha) (h1 : alpha ≤ 1) :
    ∃ j : Nat, j ≤ 5 ∧ (j : ℚ) ≤ 6 * alpha ∧ 6 * alpha ≤ (j : ℚ) + 1
      ∧ ∀ c : Fin 3, (GetRainbowColor alpha).channel c
          = (refColors.getD j default).channel c
            + (6 * alpha - (j : ℚ))
              * ((refColors.getD (j + 1) default).channel c
                  - (refColors.getD j default).channel c) := by
  obtain ⟨hloop, hl, hu⟩ := rainbowLoop_floor alpha h0 h1
  exact ⟨_, min_le_right _ _, hl, hu, fun c => GetRainbowColor_of_loop alpha _ hloop c⟩

set_option maxHeartbeats 4000000 in
/-- `GetRainbowColor` is injective on `[0,1]`. -/
theorem GetRainbowColor_injective (a b : ℚ) (ha0 : 0 ≤ a) (ha1 : a ≤ 1) (hb0 : 0 ≤ b)
    (hb1 : b ≤ 1) (heq : GetRainbowColor a = GetRainbowColor b) : a = b := by
  obtain ⟨ja, hja, la, ua, fa⟩ := GetRainbowColor_segment a ha0 ha1
  obtain ⟨jb, hjb, lb, ub, fb⟩ := GetRainbowColor_segment b hb0 hb1
  have e0 := fa 0
  have e1 := fa 1
  have e2 := fa 2
  rw [heq, fb 0] at e0
  rw [heq, fb 1] at e1
  rw [heq, fb 2] at e2
  interval_cases ja <;> interval_cases jb <;>
    simp only [refColors_getD, Pixel.channel] at e0 e1 e2 <;>
    norm_num at e0 e1 e2 la ua lb ub <;>
    linarith

end LfnIc

namespace LfnIc

/-! ### PatchTypeDebugPatchOrder -/

/-- The first loop of `Get` after `n` iterations. -/
theorem getBody_loop (patch patchesNum : Nat) (c0 : Option PixelFloat) (n : Nat) :
    forLoop n (PatchTypeDebugPatchOrder.getBody patch patchesNum) (c0, false)
      = if patch < n then
          ((PatchTypeDebugPatchOrder.rainbowAlpha patch patchesNum).map GetRainbowColor, true)
        else (c0, false) := by
  induction n with
  | zero => simp [forLoop]
  | succ k ih =>
    show PatchTypeDebugPatchOrder.getBody patch patchesNum k
      (forLoop k (PatchTypeDebugPatchOrder.getBody patch patchesNum) (c0, false)) = _
    rw [ih]
    by_cases hlt : patch < k
    · have hlt2 : patch < k + 1 := by omega
      rw [if_pos hlt, if_pos hlt2]
      simp [PatchTypeDebugPatchOrder.getBody]
    · rw [if_neg hlt]
      by_cases heq : k = patch
      · subst heq
        have hlt2 : k < k + 1 := by omega
        rw [if_pos hlt2]
        simp [PatchTypeDebugPatchOrder.getBody]
      · have hlt2 : ¬ patch < k + 1 := by omega
        rw [if_neg hlt2]
        simp [PatchTypeDebugPatchOrder.getBody, heq]

/-- The colour `Get` computes for a patch of the vector. -/
theorem getColor_of_member {Patch : Type} (self : PatchTypeDebugPatchOrder Patch)
    (patch : Nat) (h : patch < self.m_patches.length) :
    self.getColor patch
      = (PatchTypeDebugPatchOrder.rainbowAlpha patch self.m_patches.length).map
          GetRainbowColor := by
  simp only [PatchTypeDebugPatchOrder.getColor, getBody_loop, if_pos h]

/-- With at least two patches the rainbow alpha of patch `i` is `i / (n-1)`, in
`[0,1]`. -/
theorem rainbowAlpha_of_two (i n : Nat) (hn : 2 ≤ n) (hi : i < n) :
    PatchTypeDebugPatchOrder.rainbowAlpha i n = some ((i : ℚ) / ((n : ℚ) - 1))
    ∧ 0 ≤ (i : ℚ) / ((n : ℚ) - 1) ∧ (i : ℚ) / ((n : ℚ) - 1) ≤ 1 := by
  have hne : ¬ ((n : Int) - 1 = 0) := by omega
  have hpos : (0 : ℚ) < (n : ℚ) - 1 := by
    have : (2 : ℚ) ≤ (n : ℚ) := by exact_mod_cast hn
    linarith
  refine ⟨?_, ?_, ?_⟩
  · simp only [PatchTypeDebugPatchOrder.rainbowAlpha, if_neg hne]
    push_cast
    rfl
  · exact div_nonneg (by positivity) (le_of_lt hpos)
  · rw [div_le_one hpos]
    have : (i : ℚ) + 1 ≤ (n : ℚ) := by exact_mod_cast hi
    linarith

/-- The second loop of `Get` fills a buffer of `n` pixels with `rgb`. -/
theorem fill_loop (rgb : PixelFloat) (d0 : List PixelFloat) (n : Nat) (hlen : d0.length = n) :
    forLoop n (fun i data => data.set i rgb) d0 = List.replicate n rgb := by
  obtain ⟨h1, h2⟩ := PriorityBp.forLoop_set_getElem (fun i (data : List PixelFloat) =>
    data.set i rgb) (fun _ => rgb) (fun _ _ => rfl) d0 n (by omega)
  apply List.ext_getElem
  · rw [h1, hlen, List.length_replicate]
  · intro i hi1 hi2
    rw [List.getElem_replicate]
    have hi : i < n := by rw [h1, hlen] at hi1; exact hi1
    have := h2 i hi
    rw [List.getElem?_eq_getElem hi1] at this
    exact Option.some.inj this

/-- C18 fails on the code: with one patch in the list, `Get` of that patch computes the
alpha `0.0f / 0.0f`, which is not a number, so the assertion of `GetRainbowColor` does not
hold and the colour returned is not a number either. -/
theorem Get_one_patch_alpha_undefined :
    sampleOnePatch.m_patches.length = 1
    ∧ PatchTypeDebugPatchOrder.rainbowAlpha 0 sampleOnePatch.m_patches.length = none
    ∧ sampleOnePatch.Get_assert 0 = false
    ∧ sampleOnePatch.Get 0 = none := by
  refine ⟨rfl, by decide, by decide, ?_⟩
  simp only [PatchTypeDebugPatchOrder.Get, getColor_of_member sampleOnePatch 0 (by decide)]
  have h : PatchTypeDebugPatchOrder.rainbowAlpha 0 sampleOnePatch.m_patches.length = none := by
    decide
  rw [h]
  rfl

/-- C19: `GetRainbowColor` is injective on `[0,1]`; and for every patch list of `n ≥ 2`
patches, `Get` for the patches at two different indices `i` and `j` returns patch images
filled, in all `patchWidth * patchHeight` pixels, with the single colours
`GetRainbowColor(i/(n-1))` and `GetRainbowColor(j/(n-1))`, which are different. -/
theorem Get_distinct_colours :
    (∀ a b : ℚ, 0 ≤ a → a ≤ 1 → 0 ≤ b → b ≤ 1 →
        GetRainbowColor a = GetRainbowColor b → a = b)
    ∧ ∀ (Patch : Type) (patches : List Patch) (patchWidth patchHeight : Int) (i j : Nat),
        2 ≤ patches.length → i < patches.length → j < patches.length → i ≠ j →
        (PatchTypeDebugPatchOrder.create patches patchWidth patchHeight).Get i
          = some { m_width := patchWidth, m_height := patchHeight
                   m_data := List.replicate (patchWidth * patchHeight).toNat
                     (GetRainbowColor ((i : ℚ) / ((patches.length : ℚ) - 1))) }
        ∧ (PatchTypeDebugPatchOrder.create patches patchWidth patchHeight).Get j
          = some { m_width := patchWidth, m_height := patchHeight
                   m_data := List.replicate (patchWidth * patchHeight).toNat
                     (GetRainbowColor ((j : ℚ) / ((patches.length : ℚ) - 1))) }
        ∧ GetRainbowColor ((i : ℚ) / ((patches.length : ℚ) - 1))
            ≠ GetRainbowColor ((j : ℚ) / ((patches.length : ℚ) - 1)) := by
  refine ⟨GetRainbowColor_injective, ?_⟩
  intro Patch patches patchWidth patchHeight i j hn hi hj hij
  have hget : ∀ k, k < patches.length →
      (PatchTypeDebugPatchOrder.create patches patchWidth patchHeight).Get k
        = some { m_width := patchWidth, m_height := patchHeight
                 m_data := List.replicate (patchWidth * patchHeight).toNat
                   (GetRainbowColor ((k : ℚ) / ((patches.length : ℚ) - 1))) } := by
    intro k hk
    have hcol := getColor_of_member
      (PatchTypeDebugPatchOrder.create patches patchWidth patchHeight) k hk
    have hlen : (PatchTypeDebugPatchOrder.create patches patchWidth patchHeight).m_patches.length
        = patches.length := rfl
    rw [hlen, (rainbowAlpha_of_two k patches.length hn hk).1] at hcol
    simp only [PatchTypeDebugPatchOrder.Get, hcol, Option.map_some']
    simp only [PatchTypeDebugPatchOrder.create, ImageFloat.createSized]
    rw [fill_loop _ _ _ (List.length_replicate _ _)]
  refine ⟨hget i hi, hget j hj, ?_⟩
  intro hcol
  obtain ⟨_, ai0, ai1⟩ := rainbowAlpha_of_two i patches.length hn hi
  obtain ⟨_, aj0, aj1⟩ := rainbowAlpha_of_two j patches.length hn hj
  have halpha := GetRainbowColor_injective _ _ ai0 ai1 aj0 aj1 hcol
  have hpos : (0 : ℚ) < (patches.length : ℚ) - 1 := by
    have : (2 : ℚ) ≤ (patches.length : ℚ) := by exact_mod_cast hn
    linarith
  have hq : (i : ℚ) = (j : ℚ) := by
    have := congrArg (fun x => x * ((patches.length : ℚ) - 1)) halpha
    simp only [div_mul_cancel₀ _ (ne_of_gt hpos)] at this
    exact this
  exact hij (by exact_mod_cast hq)

/-- C19 at three patches with 2 × 1 patch images: the first patch is drawn red, the
second green, and these colours differ. -/
theorem Get_distinct_colours_witness :
    sampleThreePatches.Get 0
        = some { m_width := 2, m_height := 1
                 m_data := List.replicate ((2 : Int) * 1).toNat
                   (GetRainbowColor (((0 : Nat) : ℚ) / ((([(), (), ()] : List Unit).length : ℚ) - 1))) }
    ∧ sampleThreePatches.Get 1
        = some { m_width := 2, m_height := 1
                 m_data := List.replicate ((2 : Int) * 1).toNat
                   (GetRainbowColor (((1 : Nat) : ℚ) / ((([(), (), ()] : List Unit).length : ℚ) - 1))) }
    ∧ GetRainbowColor (((0 : Nat) : ℚ) / ((([(), (), ()] : List Unit).length : ℚ) - 1))
        ≠ GetRainbowColor (((1 : Nat) : ℚ) / ((([(), (), ()] : List Unit).length : ℚ) - 1)) :=
  Get_distinct_colours.2 Unit [(), (), ()] 2 1 0 1 (by decide) (by decide) (by decide)
    (by decide)

end LfnIc

namespace PriorityBp

open LfnIc

/-! ### Lattice coverage -/

/-- C16 fails on the code: for a 9 × 9 image with the single UNKNOWN pixel `(8,0)`,
5 × 5 patches and lattice gaps 5 (within `1 ≤ gap ≤ patch`, patch odd and at least 3),
`CreateUnknownRegionNodes` makes 3 columns, at `x = -5, 0, 5`, and creates no node at all,
so the pixel lies in the neighbourhood of no node; the lattice point `x = 10`, which is not
beyond `rightMostNodeX = 13` and whose neighbourhood holds the pixel, is never visited. -/
theorem CreateUnknownRegionNodes_uncovered_pixel :
    (1 ≤ sampleUncoveredInput.latticeGapX
      ∧ sampleUncoveredInput.latticeGapX ≤ sampleUncoveredInput.patchWidth
      ∧ 1 ≤ sampleUncoveredInput.latticeGapY
      ∧ sampleUncoveredInput.latticeGapY ≤ sampleUncoveredInput.patchHeight
      ∧ sampleUncoveredInput.patchWidth % 2 = 1 ∧ 3 ≤ sampleUncoveredInput.patchWidth
      ∧ sampleUncoveredInput.patchHeight % 2 = 1 ∧ 3 ≤ sampleUncoveredInput.patchHeight)
    ∧ ((0 : Int) ≤ 8 ∧ (8 : Int) < sampleUncoveredInput.imageWidth
      ∧ (0 : Int) ≤ 0 ∧ (0 : Int) < sampleUncoveredInput.imageHeight
      ∧ sampleUncoveredInput.RegionXywhHasAnyUnknown 8 0 1 1 = true)
    ∧ (Lattice.CreateUnknownRegionNodes sampleUncoveredInput (Lattice.create [])).m_numCols = 3
    ∧ (Lattice.CreateUnknownRegionNodes sampleUncoveredInput (Lattice.create [])).m_numRows = 3
    ∧ (Lattice.CreateUnknownRegionNodes sampleUncoveredInput (Lattice.create [])).m_nodeStorage
        = []
    ∧ (∀ node,
        node ∈ (Lattice.CreateUnknownRegionNodes sampleUncoveredInput
          (Lattice.create [])).m_nodeStorage →
        Lattice.inNeighborhood sampleUncoveredInput node 8 0 = false)
    ∧ ((10 : Int) ≤ sampleUncoveredInput.imageWidth + sampleUncoveredInput.latticeGapX - 1
      ∧ Lattice.inNeighborhood sampleUncoveredInput { x := 10, y := 0 } 8 0 = true) := by
  have hstorage : (Lattice.CreateUnknownRegionNodes sampleUncoveredInput
      (Lattice.create [])).m_nodeStorage = [] := by decide
  refine ⟨by decide, by decide, by decide, by decide, hstorage, ?_, by decide⟩
  intro node hnode
  rw [hstorage] at hnode
  cases hnode

end PriorityBp

namespace PriorityBp

set_option maxRecDepth 100000 in
/-- The channel round trip also holds when the quotient `v / 255` and the product by 255
are rounded to `float` (IEEE binary32, round to nearest even): every 8-bit value comes back
unchanged. -/
theorem float32_roundTrip_channel : ∀ v, v < 256 → float32RoundTrip v = v := by
  decide

end PriorityBp

namespace PriorityBp

open LfnIc

/-- Along one axis: with an odd patch size `pw ≥ 3` and a gap `1 ≤ g ≤ pw/2 + 2`, every
coordinate `0 ≤ p < W` lies in the patch interval of some lattice point `(col-1)*g` with
`0 ≤ col < (W + 2g)/g`. -/
theorem lattice_axis_cover (W g pw p : Int) (hg : 1 ≤ g) (hodd : pw % 2 = 1) (hpw : 3 ≤ pw)
    (hgp : g ≤ pw.tdiv 2 + 2) (hp0 : 0 ≤ p) (hpW : p < W) :
    ∃ col : Int, 0 ≤ col ∧ col < (W + 2 * g) / g
      ∧ (col - 1) * g - pw.tdiv 2 ≤ p ∧ p < (col - 1) * g - pw.tdiv 2 + pw := by
  have hgpos : 0 < g := by omega
  have hgne : g ≠ 0 := by omega
  have hhalf : pw.tdiv 2 = pw / 2 := Int.tdiv_eq_ediv (by omega) (by omega)
  rw [hhalf] at hgp ⊢
  have hcols : (W + 2 * g) / g = W / g + 2 := Int.add_mul_ediv_right W 2 hgne
  have hq0 : 0 ≤ p / g := Int.ediv_nonneg hp0 (by omega)
  have hqW : p / g ≤ W / g := Int.ediv_le_ediv hgpos (by omega)
  have hm0 : 0 ≤ p % g := Int.emod_nonneg p hgne
  have hm1 : p % g < g := Int.emod_lt_of_pos p hgpos
  have hdecomp : p % g + g * (p / g) = p := Int.emod_add_ediv p g
  by_cases hnear : p % g ≤ pw / 2
  · refine ⟨p / g + 1, by omega, by omega, ?_, ?_⟩
    · have e : (p / g + 1 - 1) * g = g * (p / g) := by ring
      rw [e]; omega
    · have e : (p / g + 1 - 1) * g = g * (p / g) := by ring
      rw [e]; omega
  · have hnext : (p / g + 1) * g ≤ W := by
      have e : (p / g + 1) * g = g * (p / g) + g := by ring
      rw [e]; omega
    have hq1 : p / g + 1 ≤ W / g := Int.le_ediv_of_mul_le hgpos hnext
    refine ⟨p / g + 2, by omega, by omega, ?_, ?_⟩
    · have e : (p / g + 2 - 1) * g = g * (p / g) + g := by ring
      rw [e]; omega
    · have e : (p / g + 2 - 1) * g = g * (p / g) + g := by ring
      rw [e]; omega

/-- Lattice coverage as the code has it: for an odd patch size at least 3 and gaps with
`1 ≤ gap ≤ patch/2 + 2` on both axes, an UNKNOWN pixel `(px,py)` inside the image (the
mask query holds for every region that contains it) lies in the neighbourhood of a node
created by `CreateUnknownRegionNodes`. -/
theorem CreateUnknownRegionNodes_covers (inp : LatticeInput) (l : Lattice) (px py : Int)
    (hgx : 1 ≤ inp.latticeGapX) (hgy : 1 ≤ inp.latticeGapY)
    (hgx2 : inp.latticeGapX ≤ inp.patchWidth.tdiv 2 + 2)
    (hgy2 : inp.latticeGapY ≤ inp.patchHeight.tdiv 2 + 2)
    (hoddw : inp.patchWidth % 2 = 1) (hpw : 3 ≤ inp.patchWidth)
    (hoddh : inp.patchHeight % 2 = 1) (hph : 3 ≤ inp.patchHeight)
    (hx0 : 0 ≤ px) (hx1 : px < inp.imageWidth) (hy0 : 0 ≤ py) (hy1 : py < inp.imageHeight)
    (hmask : ∀ x y w h : Int, x ≤ px → px < x + w → y ≤ py → py < y + h →
      inp.RegionXywhHasAnyUnknown x y w h = true) :
    ∃ node, node ∈ (Lattice.CreateUnknownRegionNodes inp l).m_nodeStorage
      ∧ Lattice.inNeighborhood inp node px py = true := by
  have hW : 0 ≤ inp.imageWidth := by omega
  have hH : 0 ≤ inp.imageHeight := by omega
  obtain ⟨col, c0, c1, c2, c3⟩ := lattice_axis_cover inp.imageWidth inp.latticeGapX
    inp.patchWidth px hgx hoddw hpw hgx2 hx0 hx1
  obtain ⟨row, r0, r1, r2, r3⟩ := lattice_axis_cover inp.imageHeight inp.latticeGapY
    inp.patchHeight py hgy hoddh hph hgy2 hy0 hy1
  obtain ⟨nC, nR, hC, hR, hCv, hRv, _⟩ :=
    CreateUnknownRegionNodes_spec inp l (by omega) (by omega) hW hH
  obtain ⟨g1, g2⟩ := GetNode_created inp l (by omega) (by omega) hW hH col row c0
    (by rw [hC, hCv]; exact c1) r0 (by rw [hR, hRv]; exact r1)
  rw [hmask _ _ _ _ c2 c3 r2 r3] at g1
  cases hnode : (Lattice.CreateUnknownRegionNodes inp l).GetNode col row with
  | none => rw [hnode] at g1; cases g1
  | some idx =>
    have hpos := g2 idx hnode
    have hlt : idx < (Lattice.CreateUnknownRegionNodes inp l).m_nodeStorage.length := by
      by_contra hge
      rw [List.getElem?_eq_none (by omega)] at hpos
      cases hpos
    have hmem : ({ x := (col - 1) * inp.latticeGapX, y := (row - 1) * inp.latticeGapY } : Node)
        ∈ (Lattice.CreateUnknownRegionNodes inp l).m_nodeStorage := by
      rw [List.getElem?_eq_getElem hlt] at hpos
      rw [← Option.some.inj hpos]
      exact List.getElem_mem hlt
    refine ⟨_, hmem, ?_⟩
    simp only [Lattice.inNeighborhood, decide_eq_true_eq]
    exact ⟨c2, c3, r2, r3⟩

end PriorityBp

namespace Lafarren

open LfnIc

/-! ### CmdLine -/

/-- The loop of `AddParam` after `n` iterations: `add` is still `true` iff none of the
first `n` registered parameters has the new short or long name as its short name. -/
theorem addParam_loop {σ : Type} (c : CmdLine σ) (param : CmdLine.Param σ) (n : Nat) :
    forLoop n (c.addParamBody param) true
      = !((c.m_params.take n).any
          (fun q => q.shortName == param.shortName || q.shortName == param.longName)) := by
  induction n with
  | zero => simp [forLoop]
  | succ k ih =>
    show c.addParamBody param k (forLoop k (c.addParamBody param) true) = _
    rw [ih, List.take_succ, List.any_append]
    cases hk : c.m_params[k]? with
    | none => simp [CmdLine.addParamBody, hk]
    | some q =>
      cases hany : (c.m_params.take k).any
          (fun q => q.shortName == param.shortName || q.shortName == param.longName)
      · by_cases hd : (q.shortName == param.shortName || q.shortName == param.longName) = true
        · simp [CmdLine.addParamBody, hk, hd]
        · simp [CmdLine.addParamBody, hk, hd]
      · simp [CmdLine.addParamBody]

/-- `AddParam` registers the parameter unless a registered parameter has the new short or
long name as its short name. -/
theorem AddParam_eq {σ : Type} (c : CmdLine σ) (param : CmdLine.Param σ) :
    c.AddParam param
      = if c.m_params.any
            (fun q => q.shortName == param.shortName || q.shortName == param.longName)
        then c else { m_params := c.m_params ++ [param] } := by
  simp only [CmdLine.AddParam, addParam_loop, List.take_length]
  cases c.m_params.any
      (fun q => q.shortName == param.shortName || q.shortName == param.longName) <;> simp

/-- The part of the duplicate check that the code does make: after any sequence of
`AddParam` calls on a new `CmdLine`, no registered parameter has the short name of an
earlier one, neither as its short nor as its long name. -/
theorem AddParam_short_names_distinct {σ : Type} (params : List (CmdLine.Param σ)) :
    (CmdLine.create.addParams params).m_params.Pairwise
      (fun a b => a.shortName ≠ b.shortName ∧ a.shortName ≠ b.longName) := by
  have key : ∀ (ps : List (CmdLine.Param σ)) (c : CmdLine σ),
      c.m_params.Pairwise (fun a b => a.shortName ≠ b.shortName ∧ a.shortName ≠ b.longName) →
      (c.addParams ps).m_params.Pairwise
        (fun a b => a.shortName ≠ b.shortName ∧ a.shortName ≠ b.longName) := by
    intro ps
    induction ps with
    | nil => intro c hc; exact hc
    | cons p ps ih =>
      intro c hc
      show ((c.AddParam p).addParams ps).m_params.Pairwise _
      apply ih
      rw [AddParam_eq]
      cases hany : c.m_params.any
          (fun q => q.shortName == p.shortName || q.shortName == p.longName)
      · simp only [Bool.false_eq_true, if_false]
        rw [List.pairwise_append]
        refine ⟨hc, List.pairwise_singleton _ _, ?_⟩
        intro a ha b hb
        rw [List.mem_singleton] at hb
        subst hb
        have hq := (List.any_eq_false.mp hany) a ha
        simpa using hq
      · simpa using hc
  exact key params CmdLine.create List.Pairwise.nil

/-- C21 fails on the code: the duplicate check of `AddParam` compares only the short name
of a registered parameter (with the new short and the new long name). Registering `-a`,
`--all` and then `-b`, `--all` keeps both, although they share the long name, and the
assertion does not fire; so does registering `-a`, `--all` and then `--all`,
`--everything`. In both cases the argument `--all` equals a name of two registered
parameters, of which `GetParam` returns the first. -/
theorem AddParam_shared_long_name :
    (CmdLine.create.addParams [sampleSwitch, sampleSwitchSameLong]).m_params
        = [sampleSwitch, sampleSwitchSameLong]
    ∧ sampleSwitch.longName = sampleSwitchSameLong.longName
    ∧ (CmdLine.create.AddParam sampleSwitch).AddParam_assert sampleSwitchSameLong = true
    ∧ ((CmdLine.create.addParams [sampleSwitch, sampleSwitchSameLong]).m_params.filter
        (fun p => p.shortName == "--all" || p.longName == "--all")).length = 2
    ∧ (CmdLine.create.addParams [sampleSwitch, sampleSwitchSameLong]).GetParam "--all" = some 0
    ∧ (CmdLine.create.addParams [sampleSwitch, sampleSwitchShortIsLong]).m_params
        = [sampleSwitch, sampleSwitchShortIsLong]
    ∧ sampleSwitch.longName = sampleSwitchShortIsLong.shortName
    ∧ ((CmdLine.create.addParams [sampleSwitch, sampleSwitchShortIsLong]).m_params.filter
        (fun p => p.shortName == "--all" || p.longName == "--all")).length = 2 := by
  refine ⟨rfl, rfl, rfl, rfl, rfl, rfl, rfl, rfl⟩

/-- The loop of `GetParam` after `n` iterations: the first of the first `n` registered
parameters with `arg` as its short or long name. -/
theorem getParam_loop {σ : Type} (c : CmdLine σ) (arg : String) (n : Nat) :
    forLoop n (c.getParamBody arg) none
      = (c.m_params.take n).findIdx? (fun q => q.shortName == arg || q.longName == arg) := by
  induction n with
  | zero => simp [forLoop]
  | succ k ih =>
    show c.getParamBody arg k (forLoop k (c.getParamBody arg) none) = _
    rw [ih, List.take_succ, List.findIdx?_append]
    cases hfind : (c.m_params.take k).findIdx?
        (fun q => q.shortName == arg || q.longName == arg) with
    | some j => simp [CmdLine.getParamBody]
    | none =>
      cases hk : c.m_params[k]? with
      | none => simp [CmdLine.getParamBody, hk]
      | some q =>
        have hlen : k < c.m_params.length := by
          by_contra hge
          rw [List.getElem?_eq_none (by omega)] at hk
          exact Option.noConfusion hk
        have hmin : min k c.m_params.length = k := by omega
        by_cases hm : (q.shortName == arg || q.longName == arg) = true
        · simp [CmdLine.getParamBody, hk, hm, hmin]
        · simp [CmdLine.getParamBody, hk, hm]

theorem GetParam_eq {σ : Type} (c : CmdLine σ) (arg : String) :
    c.GetParam arg
      = c.m_params.findIdx? (fun q => q.shortName == arg || q.longName == arg) := by
  simp only [CmdLine.GetParam, getParam_loop, List.take_length]

/-- `GetParam` returns `NULL` iff the argument equals neither the short nor the long name
of any registered parameter. -/
theorem GetParam_none_iff {σ : Type} (c : CmdLine σ) (arg : String) :
    c.GetParam arg = none ↔ ∀ p ∈ c.m_params, p.shortName ≠ arg ∧ p.longName ≠ arg := by
  rw [GetParam_eq, List.findIdx?_eq_none_iff]
  constructor
  · intro h p hp
    have := h p hp
    simpa using this
  · intro h p hp
    have := h p hp
    simpa using this

/-- The parameter `GetParam` returns is the first registered one with the argument as its
short or long name. -/
theorem GetParam_some {σ : Type} (c : CmdLine σ) (arg : String) (j : Nat)
    (h : c.GetParam arg = some j) :
    ∃ p, c.m_params[j]? = some p ∧ (p.shortName = arg ∨ p.longName = arg)
      ∧ ∀ j2 q, j2 < j → c.m_params[j2]? = some q → q.shortName ≠ arg ∧ q.longName ≠ arg := by
  rw [GetParam_eq, List.findIdx?_eq_some_iff_getElem] at h
  obtain ⟨hlt, hp, hfirst⟩ := h
  refine ⟨c.m_params[j], List.getElem?_eq_getElem hlt, by simpa using hp, ?_⟩
  intro j2 q hj2 hq
  have hlt2 : j2 < c.m_params.length := by omega
  have := hfirst j2 hj2
  rw [List.getElem?_eq_getElem hlt2] at hq
  rw [Option.some.inj hq] at this
  simpa using this

/-- `GetParam` looks at the names only. -/
theorem GetParam_congr {σ : Type} (c c' : CmdLine σ) (arg : String)
    (h : c'.m_params.map (fun q => (q.shortName, q.longName))
          = c.m_params.map (fun q => (q.shortName, q.longName))) :
    c'.GetParam arg = c.GetParam arg := by
  have e : ∀ (l : List (CmdLine.Param σ)),
      l.findIdx? (fun q => q.shortName == arg || q.longName == arg)
        = (l.map (fun q => (q.shortName, q.longName))).findIdx?
            (fun n => n.1 == arg || n.2 == arg) := by
    intro l
    rw [List.findIdx?_map]
    rfl
  rw [GetParam_eq, GetParam_eq, e, e, h]

theorem namedBelow_succ {σ : Type} (c : CmdLine σ) (argv : List String) (i j : Nat) :
    c.namedBelow argv (i + 1) j
      = (c.namedBelow argv i j || (c.namePosition argv i && (c.named argv i == some j))) := by
  simp [CmdLine.namedBelow, List.range_succ, List.any_append]

theorem valuesBelow_succ {σ : Type} (c : CmdLine σ) (argv : List String) (i j : Nat) :
    c.valuesBelow argv (i + 1) j
      = c.valuesBelow argv i j
        ++ (if c.namePosition argv i && c.isOptionAt argv i && (c.named argv i == some j)
            then argv[i + 1]? else none).toList := by
  have e : ∀ (f : Nat → Option String) (a : Nat), List.filterMap f [a] = (f a).toList := by
    intro f a
    cases h : f a <;> simp [List.filterMap, h]
  simp only [CmdLine.valuesBelow, List.range_succ, List.filterMap_append, e]

theorem isSwitchAt_of_isOptionAt {σ : Type} (c : CmdLine σ) (argv : List String) (k : Nat)
    (h : c.isOptionAt argv k = true) : c.isSwitchAt argv k = false := by
  unfold CmdLine.isOptionAt at h
  unfold CmdLine.isSwitchAt
  cases hn : c.named argv k with
  | none => rfl
  | some j =>
    rw [hn] at h
    cases hp : c.m_params[j]? with
    | none => simp [hp]
    | some p =>
      simp only [hp] at h ⊢
      simp [h]

/-- The position after a parameter-name position that names a switch is a parameter-name
position. -/
theorem namePosition_after_switch {σ : Type} (c : CmdLine σ) (argv : List String) (i : Nat)
    (h : c.namePosition argv i = true) (hs : c.isSwitchAt argv i = true) :
    c.namePosition argv (i + 1) = true := by
  cases i with
  | zero => simp [CmdLine.namePosition] at h
  | succ k => simp [CmdLine.namePosition, h, hs]

/-- The position two after a parameter-name position that names an option is a
parameter-name position. -/
theorem namePosition_after_option {σ : Type} (c : CmdLine σ) (argv : List String) (i : Nat)
    (h : c.namePosition argv i = true) (ho : c.isOptionAt argv i = true) :
    c.namePosition argv (i + 2) = true := by
  simp [CmdLine.namePosition, h, ho]

/-- The position after a parameter-name position that names an option (the position of
the option's value) is not a parameter-name position. -/
theorem namePosition_value {σ : Type} (c : CmdLine σ) (argv : List String) (i : Nat) :
    c.namePosition argv i = true → c.isOptionAt argv i = true →
      c.namePosition argv (i + 1) = false := by
  induction i with
  | zero => intro h; simp [CmdLine.namePosition] at h
  | succ k ih =>
    intro h ho
    have hs := isSwitchAt_of_isOptionAt c argv (k + 1) ho
    show ((c.namePosition argv (k + 1) && c.isSwitchAt argv (k + 1))
        || (c.namePosition argv k && c.isOptionAt argv k)) = false
    rw [hs, Bool.and_false, Bool.false_or]
    cases hk : c.namePosition argv k with
    | false => rfl
    | true =>
      cases hok : c.isOptionAt argv k with
      | false => rfl
      | true =>
        have := ih hk hok
        rw [h] at this
        exact Bool.noConfusion this

/-- Reading arguments leaves the names of the registered parameters alone, so `GetParam`
returns the same parameter before and after. -/
theorem readBelow_GetParam {σ : Type} (ReadOption : String → σ → σ) (c c' : CmdLine σ)
    (argv : List String) (i : Nat) (h : c.readBelow ReadOption c' argv i) (arg : String) :
    c'.GetParam arg = c.GetParam arg := by
  apply GetParam_congr
  apply List.ext_getElem?
  intro n
  rw [List.getElem?_map, List.getElem?_map]
  cases hn : c.m_params[n]? with
  | some p => rw [h.2 n p hn]; rfl
  | none =>
    have hlen : c.m_params.length ≤ n := by
      by_contra hlt
      rw [List.getElem?_eq_getElem (by omega)] at hn
      exact Option.noConfusion hn
    rw [List.getElem?_eq_none (by rw [h.1]; exact hlen)]

/-- One iteration of `Read` at a switch. -/
theorem readBelow_switch {σ : Type} (ReadOption : String → σ → σ) (c c' : CmdLine σ)
    (argv : List String) (i j : Nat) (p : CmdLine.Param σ)
    (h : c.readBelow ReadOption c' argv i)
    (hp : c.m_params[j]? = some p) (hnp : c.namePosition argv i = true)
    (hnamed : c.named argv i = some j) (hopt : c.isOptionAt argv i = false) :
    c.readBelow ReadOption
      { m_params := c'.m_params.set j (p.after ReadOption c argv i j).Set } argv (i + 1) := by
  refine ⟨by simp [h.1], ?_⟩
  intro j2 p2 hp2
  have hpair : c.m_params[j2]? = some p2 := hp2
  by_cases hj : j = j2
  · subst hj
    have hpp : p2 = p := Option.some.inj (hp2.symm.trans hp)
    subst hpp
    have hlt : j < c'.m_params.length := by
      rw [h.1]
      by_contra hge
      rw [List.getElem?_eq_none (by omega)] at hp
      exact Option.noConfusion hp
    show (c'.m_params.set j (p2.after ReadOption c argv i j).Set)[j]? = _
    rw [List.getElem?_set_self hlt]
    simp [CmdLine.Param.after, CmdLine.Param.Set, namedBelow_succ, valuesBelow_succ, hnp,
      hnamed, hopt]
  · have hb : (j == j2) = false := by simpa using hj
    show (c'.m_params.set j (p.after ReadOption c argv i j).Set)[j2]? = _
    rw [List.getElem?_set_ne hj, h.2 j2 p2 hpair]
    simp [CmdLine.Param.after, namedBelow_succ, valuesBelow_succ, hnp, hnamed, hopt, hb]

/-- One iteration of `Read` at an option followed by a value. -/
theorem readBelow_option {σ : Type} (ReadOption : String → σ → σ) (c c' : CmdLine σ)
    (argv : List String) (i j : Nat) (p : CmdLine.Param σ) (v : String)
    (h : c.readBelow ReadOption c' argv i)
    (hp : c.m_params[j]? = some p) (hnp : c.namePosition argv i = true)
    (hnamed : c.named argv i = some j) (hopt : c.isOptionAt argv i = true)
    (hv : argv[i + 1]? = some v) :
    c.readBelow ReadOption
      { m_params :=
          c'.m_params.set j ((p.after ReadOption c argv i j).Set.ReadOption ReadOption v) }
      argv (i + 1 + 1) := by
  have hval := namePosition_value c argv i hnp hopt
  refine ⟨by simp [h.1], ?_⟩
  intro j2 p2 hp2
  have hpair : c.m_params[j2]? = some p2 := hp2
  by_cases hj : j = j2
  · subst hj
    have hpp : p2 = p := Option.some.inj (hp2.symm.trans hp)
    subst hpp
    have hlt : j < c'.m_params.length := by
      rw [h.1]
      by_contra hge
      rw [List.getElem?_eq_none (by omega)] at hp
      exact Option.noConfusion hp
    show (c'.m_params.set j ((p2.after ReadOption c argv i j).Set.ReadOption ReadOption v))[j]? = _
    rw [List.getElem?_set_self hlt]
    simp [CmdLine.Param.after, CmdLine.Param.Set, CmdLine.Param.ReadOption, List.foldl_append,
      namedBelow_succ, valuesBelow_succ, hnp, hnamed, hopt, hval, hv]
  · have hb : (j == j2) = false := by simpa using hj
    show (c'.m_params.set j ((p.after ReadOption c argv i j).Set.ReadOption ReadOption v))[j2]? = _
    rw [List.getElem?_set_ne hj, h.2 j2 p2 hpair]
    simp [CmdLine.Param.after, namedBelow_succ, valuesBelow_succ, hnp, hnamed, hopt, hval, hb]

/-- The loop of `Read` started at a parameter-name position `i`, all arguments below `i`
having been read without error: it returns, either with an empty `outError`, every
argument read, or with the message of the first argument that stops it. -/
theorem readLoop_spec {σ : Type} (ReadOption : String → σ → σ) (c0 : CmdLine σ) (argc : Nat)
    (argv : List String) (hargv : argc ≤ argv.length) :
    ∀ (fuel i : Nat) (c : CmdLine σ), i ≤ argc → argc ≤ i + fuel →
      c0.namePosition argv i = true → c0.acceptsBelow argc argv i →
      c0.readBelow ReadOption c argv i →
      ∃ c' outError, CmdLine.readLoop ReadOption argc argv fuel i c = some (c', outError)
        ∧ ((outError = "" ∧ c0.acceptsBelow argc argv argc ∧ c0.readBelow ReadOption c' argv argc)
          ∨ (∃ k arg, k < argc ∧ c0.namePosition argv k = true ∧ argv[k]? = some arg
              ∧ ((c0.GetParam arg = none ∧ outError = "Invalid argument: " ++ arg ++ "\n")
                ∨ (c0.isOptionAt argv k = true ∧ k + 1 = argc
                    ∧ outError = "Argument was missing value: " ++ arg ++ "\n")))) := by
  intro fuel
  induction fuel with
  | zero =>
    intro i c hi hfuel _ hacc hread
    have hie : i = argc := by omega
    subst hie
    refine ⟨c, "", ?_, Or.inl ⟨rfl, hacc, hread⟩⟩
    simp [CmdLine.readLoop]
  | succ fuel ih =>
    intro i c hi hfuel hnp hacc hread
    by_cases hlt : i < argc
    · have hilen : i < argv.length := by omega
      have hargi : argv[i]? = some argv[i] := List.getElem?_eq_getElem hilen
      have hget : c.GetParam argv[i] = c0.GetParam argv[i] :=
        readBelow_GetParam ReadOption c0 c argv i hread argv[i]
      cases hg : c0.GetParam argv[i] with
      | none =>
        refine ⟨c, _, ?_, Or.inr ⟨i, argv[i], hlt, hnp, hargi, Or.inl ⟨hg, rfl⟩⟩⟩
        rw [CmdLine.readLoop]
        simp only [hlt, if_true, hargi, hget, hg]
      | some j =>
        obtain ⟨p0, hp0, _, _⟩ := GetParam_some c0 _ j hg
        have hpc := hread.2 j p0 hp0
        have hnamed : c0.named argv i = some j := by
          simp only [CmdLine.named, hargi, hg]
        have hoptAt : c0.isOptionAt argv i = p0.IsOption := by
          simp only [CmdLine.isOptionAt, hnamed, hp0]
        have hoptp : (p0.after ReadOption c0 argv i j).IsOption = p0.IsOption := rfl
        cases hopt : p0.IsOption with
        | true =>
          rw [hopt] at hoptAt hoptp
          by_cases hlast : i + 1 = argc
          · refine ⟨{ m_params := c.m_params.set j (p0.after ReadOption c0 argv i j).Set }, _, ?_,
              Or.inr ⟨i, argv[i], hlt, hnp, hargi, Or.inr ⟨hoptAt, hlast, rfl⟩⟩⟩
            rw [CmdLine.readLoop]
            simp only [hlt, if_true, hargi, hget, hg, hpc, hoptp, hlast]
          · have hi1len : i + 1 < argv.length := by omega
            have hargi1 : argv[i + 1]? = some argv[i + 1] := List.getElem?_eq_getElem hi1len
            have hacc2 : c0.acceptsBelow argc argv (i + 1 + 1) := by
              intro k hk hnpk
              by_cases hki : k < i
              · exact hacc k hki hnpk
              · by_cases hke : k = i
                · subst hke
                  refine ⟨by rw [hnamed]; rfl, fun _ => by omega⟩
                · have hk1 : k = i + 1 := by omega
                  subst hk1
                  rw [namePosition_value c0 argv i hnp hoptAt] at hnpk
                  exact Bool.noConfusion hnpk
            obtain ⟨c', e, hrun, hpost⟩ := ih (i + 1 + 1) _ (by omega) (by omega)
              (namePosition_after_option c0 argv i hnp hoptAt) hacc2
              (readBelow_option ReadOption c0 c argv i j p0 argv[i + 1] hread hp0 hnp hnamed hoptAt
                hargi1)
            refine ⟨c', e, ?_, hpost⟩
            rw [CmdLine.readLoop]
            simp only [hlt, if_true, hargi, hget, hg, hpc, hoptp, hlast, if_false, hargi1]
            exact hrun
        | false =>
          rw [hopt] at hoptAt hoptp
          have hsw : c0.isSwitchAt argv i = true := by
            simp only [CmdLine.isSwitchAt, hnamed, hp0, hopt]
            rfl
          have hacc2 : c0.acceptsBelow argc argv (i + 1) := by
            intro k hk hnpk
            by_cases hki : k < i
            · exact hacc k hki hnpk
            · have hke : k = i := by omega
              subst hke
              refine ⟨by rw [hnamed]; rfl, fun h => ?_⟩
              rw [hoptAt] at h
              exact Bool.noConfusion h
          obtain ⟨c', e, hrun, hpost⟩ := ih (i + 1) _ (by omega) (by omega)
            (namePosition_after_switch c0 argv i hnp hsw) hacc2
            (readBelow_switch ReadOption c0 c argv i j p0 hread hp0 hnp hnamed hoptAt)
          refine ⟨c', e, ?_, hpost⟩
          rw [CmdLine.readLoop]
          simp only [hlt, if_true, hargi, hget, hg, hpc, hoptp]
          exact hrun
    · have hie : i = argc := by omega
      subst hie
      refine ⟨c, "", ?_, Or.inl ⟨rfl, hacc, hread⟩⟩
      rw [CmdLine.readLoop]
      simp only [hlt, if_false]

/-- The loop of `Read` does not look at `argv[0]`. -/
theorem readLoop_argv0 {σ : Type} (ReadOption : String → σ → σ) (argc : Nat)
    (argv : List String) (a : String) :
    ∀ (fuel i : Nat) (c : CmdLine σ), 1 ≤ i →
      CmdLine.readLoop ReadOption argc (argv.set 0 a) fuel i c
        = CmdLine.readLoop ReadOption argc argv fuel i c := by
  intro fuel
  induction fuel with
  | zero => intro i c _; rfl
  | succ fuel ih =>
    intro i c hi
    have h0 : (argv.set 0 a)[i]? = argv[i]? := List.getElem?_set_ne (by omega)
    have h1 : (argv.set 0 a)[i + 1]? = argv[i + 1]? := List.getElem?_set_ne (by omega)
    rw [CmdLine.readLoop, CmdLine.readLoop, h0, h1]
    simp only [ih (i + 1) _ (by omega), ih (i + 1 + 1) _ (by omega)]

theorem string_length_eq_zero (s : String) : s.length = 0 ↔ s = "" := by
  constructor
  · intro h
    apply String.ext
    exact List.length_eq_zero.mp h
  · intro h
    rw [h]
    rfl

theorem invalidArgument_ne_empty (arg : String) :
    ("Invalid argument: " ++ arg ++ "\n").length ≠ 0 := by
  rw [String.length_append, String.length_append]
  have : ("\n" : String).length = 1 := rfl
  omega

theorem missingValue_ne_empty (arg : String) :
    ("Argument was missing value: " ++ arg ++ "\n").length ≠ 0 := by
  rw [String.length_append, String.length_append]
  have : ("\n" : String).length = 1 := rfl
  omega

/-- Before any argument is read, the registered parameters are as they are. -/
theorem readBelow_start {σ : Type} (ReadOption : String → σ → σ) (c : CmdLine σ)
    (argv : List String) (i : Nat) (hi : i ≤ 1) : c.readBelow ReadOption c argv i := by
  refine ⟨rfl, ?_⟩
  intro j p hp
  rw [hp]
  have hn : c.namedBelow argv i j = false := by
    interval_cases i <;> simp [CmdLine.namedBelow, CmdLine.namePosition, List.range_succ]
  have hv : c.valuesBelow argv i j = [] := by
    interval_cases i <;> simp [CmdLine.valuesBelow, CmdLine.namePosition, List.range_succ]
  simp [CmdLine.Param.after, hn, hv]

/-- What a successful `Read` has done at a parameter-name position. -/
theorem readBelow_named {σ : Type} (ReadOption : String → σ → σ) (c c' : CmdLine σ)
    (argc : Nat) (argv : List String) (hargv : argc ≤ argv.length)
    (hacc : c.acceptsBelow argc argv argc) (hread : c.readBelow ReadOption c' argv argc)
    (k : Nat) (arg : String) (hk : k < argc)
    (hnp : c.namePosition argv k = true) (harg : argv[k]? = some arg) :
    ∃ j p p', c.GetParam arg = some j ∧ c.m_params[j]? = some p
      ∧ (p.shortName = arg ∨ p.longName = arg)
      ∧ (∀ j2 q, j2 < j → c.m_params[j2]? = some q → q.shortName ≠ arg ∧ q.longName ≠ arg)
      ∧ c'.m_params[j]? = some p' ∧ p'.isSet = true
      ∧ p'.value = (c.valuesBelow argv argc j).foldl
          (fun value option => ReadOption option value) p.value
      ∧ (p.IsOption = true →
          ∃ v, k + 1 < argc ∧ argv[k + 1]? = some v ∧ v ∈ c.valuesBelow argv argc j
            ∧ c.namePosition argv (k + 1) = false) := by
  obtain ⟨hsome, hoptnext⟩ := hacc k hk hnp
  have hnamedeq : c.named argv k = c.GetParam arg := by
    simp only [CmdLine.named, harg]
  cases hg : c.GetParam arg with
  | none =>
    rw [hnamedeq, hg] at hsome
    exact Bool.noConfusion hsome
  | some j =>
    have hnamed : c.named argv k = some j := by rw [hnamedeq, hg]
    obtain ⟨p, hp, hmatch, hfirst⟩ := GetParam_some c arg j hg
    have hoptAt : c.isOptionAt argv k = p.IsOption := by
      simp only [CmdLine.isOptionAt, hnamed, hp]
    refine ⟨j, p, p.after ReadOption c argv argc j, rfl, hp, hmatch, hfirst, hread.2 j p hp, ?_,
      rfl, ?_⟩
    · have hnb : c.namedBelow argv argc j = true := by
        unfold CmdLine.namedBelow
        rw [List.any_eq_true]
        exact ⟨k, List.mem_range.mpr hk, by simp [hnp, hnamed]⟩
      simp [CmdLine.Param.after, hnb]
    · intro hopt
      rw [hopt] at hoptAt
      have hk1 : k + 1 < argc := hoptnext hoptAt
      have hk1len : k + 1 < argv.length := by omega
      refine ⟨argv[k + 1], hk1, List.getElem?_eq_getElem hk1len, ?_,
        namePosition_value c argv k hnp hoptAt⟩
      unfold CmdLine.valuesBelow
      rw [List.mem_filterMap]
      refine ⟨k, List.mem_range.mpr hk, ?_⟩
      simp [hnp, hoptAt, hnamed, List.getElem?_eq_getElem hk1len]

/-- C22: `Read` returns for every `argv` of at least `argc` entries, whatever the
subclasses' `ReadOption` does; `argv[0]` is ignored; the result is `true` iff `outError`
is empty; it is `false` exactly when an argument in a parameter-name position equals
neither the short nor the long name of any registered parameter (`outError` is then
`Invalid argument: ...`) or names an option and is the last argument (`outError` is then
`Argument was missing value: ...`). On success the parameter that each argument in a
parameter-name position names (for `GetParam`, the first registered parameter with that
short or long name) is marked set, every option named has read the argument that
immediately follows it, and the position of that argument is not a parameter-name
position; more precisely, the registered parameters are then exactly the parameters before
the call, those named marked set and the options having read, left to right, the
arguments that follow them. -/
theorem Read_scans_arguments {σ : Type} (ReadOption : String → σ → σ) (c : CmdLine σ)
    (argc : Nat) (argv : List String) (hargv : argc ≤ argv.length) :
    ∃ (result : Bool) (outError : String) (c' : CmdLine σ),
      c.Read ReadOption argc argv = some (result, outError, c')
      ∧ (∀ a, c.Read ReadOption argc (argv.set 0 a) = some (result, outError, c'))
      ∧ (result = true ↔ outError = "")
      ∧ (result = false ↔
          ∃ k arg, k < argc ∧ c.namePosition argv k = true ∧ argv[k]? = some arg
            ∧ ((∀ p ∈ c.m_params, p.shortName ≠ arg ∧ p.longName ≠ arg)
              ∨ (c.isOptionAt argv k = true ∧ k + 1 = argc)))
      ∧ (result = false →
          ∃ k arg, k < argc ∧ c.namePosition argv k = true ∧ argv[k]? = some arg
            ∧ (((∀ p ∈ c.m_params, p.shortName ≠ arg ∧ p.longName ≠ arg)
                  ∧ outError = "Invalid argument: " ++ arg ++ "\n")
              ∨ (c.isOptionAt argv k = true ∧ k + 1 = argc
                  ∧ outError = "Argument was missing value: " ++ arg ++ "\n")))
      ∧ (result = true →
          (∀ k arg, k < argc → c.namePosition argv k = true → argv[k]? = some arg →
            ∃ j p p', c.GetParam arg = some j ∧ c.m_params[j]? = some p
              ∧ (p.shortName = arg ∨ p.longName = arg)
              ∧ (∀ j2 q, j2 < j → c.m_params[j2]? = some q →
                  q.shortName ≠ arg ∧ q.longName ≠ arg)
              ∧ c'.m_params[j]? = some p' ∧ p'.isSet = true
              ∧ p'.value = (c.valuesBelow argv argc j).foldl
                  (fun value option => ReadOption option value) p.value
              ∧ (p.IsOption = true →
                  ∃ v, k + 1 < argc ∧ argv[k + 1]? = some v ∧ v ∈ c.valuesBelow argv argc j
                    ∧ c.namePosition argv (k + 1) = false))
          ∧ c.readBelow ReadOption c' argv argc) := by
  have hstart : ∃ c' outError,
      CmdLine.readLoop ReadOption argc argv argc 1 c = some (c', outError)
        ∧ ((outError = "" ∧ c.acceptsBelow argc argv argc ∧ c.readBelow ReadOption c' argv argc)
          ∨ (∃ k arg, k < argc ∧ c.namePosition argv k = true ∧ argv[k]? = some arg
              ∧ ((c.GetParam arg = none ∧ outError = "Invalid argument: " ++ arg ++ "\n")
                ∨ (c.isOptionAt argv k = true ∧ k + 1 = argc
                    ∧ outError = "Argument was missing value: " ++ arg ++ "\n")))) := by
    by_cases h0 : argc = 0
    · subst h0
      refine ⟨c, "", rfl, Or.inl ⟨rfl, ?_, readBelow_start ReadOption c argv 0 (by omega)⟩⟩
      intro k hk
      omega
    · refine readLoop_spec ReadOption c argc argv hargv argc 1 c (by omega) (by omega) rfl ?_
        (readBelow_start ReadOption c argv 1 (by omega))
      intro k hk hnp
      have hk0 : k = 0 := by omega
      subst hk0
      exact Bool.noConfusion hnp
  obtain ⟨c', e, hrun, hpost⟩ := hstart
  have hRead : c.Read ReadOption argc argv = some (e.length == 0, e, c') := by
    simp only [CmdLine.Read, hrun, Option.map_some']
  refine ⟨e.length == 0, e, c', hRead, ?_, ?_, ?_, ?_, ?_⟩
  · intro a
    simp only [CmdLine.Read, readLoop_argv0 ReadOption argc argv a argc 1 c (by omega), hrun,
      Option.map_some']
  · rw [beq_iff_eq, string_length_eq_zero]
  · rcases hpost with ⟨he, hacc, _⟩ | ⟨k, arg, hk, hnp, harg, hfail⟩
    · subst he
      constructor
      · intro h
        exact Bool.noConfusion h
      · rintro ⟨k, arg, hk, hnp, harg, hfail⟩
        obtain ⟨hsome, hoptnext⟩ := hacc k hk hnp
        rcases hfail with hnone | ⟨hopt, hlast⟩
        · have hg := (GetParam_none_iff c arg).mpr hnone
          simp only [CmdLine.named, harg, hg] at hsome
          exact Bool.noConfusion hsome
        · have := hoptnext hopt
          omega
    · constructor
      · intro _
        refine ⟨k, arg, hk, hnp, harg, ?_⟩
        rcases hfail with ⟨hg, _⟩ | ⟨hopt, hlast, _⟩
        · exact Or.inl ((GetParam_none_iff c arg).mp hg)
        · exact Or.inr ⟨hopt, hlast⟩
      · intro _
        rcases hfail with ⟨_, he⟩ | ⟨_, _, he⟩
        · rw [he]
          have := invalidArgument_ne_empty arg
          simpa using this
        · rw [he]
          have := missingValue_ne_empty arg
          simpa using this
  · intro hres
    rcases hpost with ⟨he, _, _⟩ | ⟨k, arg, hk, hnp, harg, hfail⟩
    · subst he
      exact Bool.noConfusion hres
    · refine ⟨k, arg, hk, hnp, harg, ?_⟩
      rcases hfail with ⟨hg, he⟩ | ⟨hopt, hlast, he⟩
      · exact Or.inl ⟨(GetParam_none_iff c arg).mp hg, he⟩
      · exact Or.inr ⟨hopt, hlast, he⟩
  · intro hres
    rcases hpost with ⟨_, hacc, hread⟩ | ⟨k, arg, _, _, _, hfail⟩
    · exact ⟨fun k arg hk hnp harg =>
        readBelow_named ReadOption c c' argc argv hargv hacc hread k arg hk hnp harg, hread⟩
    · exfalso
      rw [beq_iff_eq] at hres
      rcases hfail with ⟨_, he⟩ | ⟨_, _, he⟩
      · rw [he] at hres
        exact invalidArgument_ne_empty arg hres
      · rw [he] at hres
        exact missingValue_ne_empty arg hres

/-- C22 at the sample command line (switch `-a`, option `-o`) and the sample arguments,
with a `ReadOption` that records what it reads. -/
theorem Read_scans_arguments_witness :
    ∃ (result : Bool) (outError : String) (c' : CmdLine (List String)),
      sampleCmdLine.Read recordOption 4 sampleArgv = some (result, outError, c')
      ∧ (∀ a, sampleCmdLine.Read recordOption 4 (sampleArgv.set 0 a)
            = some (result, outError, c'))
      ∧ (result = true ↔ outError = "")
      ∧ (result = false ↔
          ∃ k arg, k < 4 ∧ sampleCmdLine.namePosition sampleArgv k = true
            ∧ sampleArgv[k]? = some arg
            ∧ ((∀ p ∈ sampleCmdLine.m_params, p.shortName ≠ arg ∧ p.longName ≠ arg)
              ∨ (sampleCmdLine.isOptionAt sampleArgv k = true ∧ k + 1 = 4)))
      ∧ (result = false →
          ∃ k arg, k < 4 ∧ sampleCmdLine.namePosition sampleArgv k = true
            ∧ sampleArgv[k]? = some arg
            ∧ (((∀ p ∈ sampleCmdLine.m_params, p.shortName ≠ arg ∧ p.longName ≠ arg)
                  ∧ outError = "Invalid argument: " ++ arg ++ "\n")
              ∨ (sampleCmdLine.isOptionAt sampleArgv k = true ∧ k + 1 = 4
                  ∧ outError = "Argument was missing value: " ++ arg ++ "\n")))
      ∧ (result = true →
          (∀ k arg, k < 4 → sampleCmdLine.namePosition sampleArgv k = true →
            sampleArgv[k]? = some arg →
            ∃ j p p', sampleCmdLine.GetParam arg = some j ∧ sampleCmdLine.m_params[j]? = some p
              ∧ (p.shortName = arg ∨ p.longName = arg)
              ∧ (∀ j2 q, j2 < j → sampleCmdLine.m_params[j2]? = some q →
                  q.shortName ≠ arg ∧ q.longName ≠ arg)
              ∧ c'.m_params[j]? = some p' ∧ p'.isSet = true
              ∧ p'.value = (sampleCmdLine.valuesBelow sampleArgv 4 j).foldl
                  (fun value option => recordOption option value) p.value
              ∧ (p.IsOption = true →
                  ∃ v, k + 1 < 4 ∧ sampleArgv[k + 1]? = some v
                    ∧ v ∈ sampleCmdLine.valuesBelow sampleArgv 4 j
                    ∧ sampleCmdLine.namePosition sampleArgv (k + 1) = false))
          ∧ sampleCmdLine.readBelow recordOption c' sampleArgv 4) :=
  Read_scans_arguments recordOption sampleCmdLine 4 sampleArgv (by decide)

/-- With the recording `ReadOption`, the values read are appended to the record. -/
theorem recordOption_foldl (value options : List String) :
    options.foldl (fun value option => recordOption option value) value = value ++ options := by
  induction options generalizing value with
  | nil => simp
  | cons o os ih =>
    rw [List.foldl_cons, ih]
    simp [recordOption]

/-- `Read` on samples: the value `-a` of the option `-o` is read, not looked up (in the
second sample the switch `-a` stays unset); an option as the last argument and an unknown
argument stop the scan (the switch of the third sample is already marked set then). Shown
are the result, `outError` and, for each registered parameter, `isSet` and the values
read. -/
theorem Read_samples :
    (sampleCmdLine.Read recordOption 4 sampleArgv).map
        (fun r => (r.1, r.2.1, r.2.2.m_params.map (fun p => (p.isSet, p.value))))
      = some (true, "", [(true, []), (true, ["-a"])])
    ∧ (sampleCmdLine.Read recordOption 3 ["completer", "-o", "-a"]).map
        (fun r => (r.1, r.2.1, r.2.2.m_params.map (fun p => (p.isSet, p.value))))
      = some (true, "", [(false, []), (true, ["-a"])])
    ∧ (sampleCmdLine.Read recordOption 3 ["completer", "-a", "--out"]).map
        (fun r => (r.1, r.2.1, r.2.2.m_params.map (fun p => (p.isSet, p.value))))
      = some (false, "Argument was missing value: --out\n", [(true, []), (true, [])])
    ∧ (sampleCmdLine.Read recordOption 4 ["completer", "-x", "-o", "out.png"]).map
        (fun r => (r.1, r.2.1, r.2.2.m_params.map (fun p => (p.isSet, p.value))))
      = some (false, "Invalid argument: -x\n", [(false, []), (false, [])])
    ∧ (sampleCmdLine.Read recordOption 1 ["completer"]).map
        (fun r => (r.1, r.2.1, r.2.2.m_params.map (fun p => (p.isSet, p.value))))
      = some (true, "", [(false, []), (false, [])]) := by
  refine ⟨rfl, rfl, rfl, rfl, rfl⟩

end Lafarren
